import Mathlib

/-!
# go-fluent-client: the message codec (`marshal.go`) and the option builders (`options.go`)

A shallow embedding of package `fluent`.

* A Go `string` / `[]byte` is a list of bytes (`Bytes`, each byte a natural number below 256).
* A Go `error` is `Option String`: `none` is `nil`, `some msg` a non-nil error with its text.
* A `*msgpack.Decoder` is the input that is still unread; a `*msgpack.Encoder` (over a
  `bytes.Buffer`) is the output written so far.
* A method with a pointer receiver returns the receiver's new contents next to its results.
* `Message`, `EventTime` are declared in a file of the package that is not part of the
  sources at hand; their fields are those `marshal.go` reads and writes.
* Record and option are opaque to the package: it hands them to the generic encoder and
  decoder of the libraries. Those generic operations (`enc.Encode(v)`, `dec.DecodeInterface()`,
  `dec.Skip()`, `json.Marshal(v)`, the float conversion of `encoding/json`) and the codec of
  `EventTime` are the fields of `Lib`, a parameter of the embedding. Everything the package
  itself decides on (type codes, array length, string and integer coding, `errors.Wrap`,
  `strconv.Quote`, `strconv.FormatInt`, the shape of a JSON text) is defined here.
-/

namespace Fluent

/-- A Go byte string. -/
abbrev Bytes := List Nat

/-- A Go `error`; `none` is `nil`. -/
abbrev error := Option String

/-! ## github.com/pkg/errors -/

namespace errors

/-- `errors.Wrap(err, message)`: annotates `err`; **returns nil when `err` is nil**. -/
def Wrap (err : error) (message : String) : error :=
  match err with
  | none => none
  | some e => some (message ++ ": " ++ e)

/-- `errors.Errorf(format, args...)` with the text already formatted: always non-nil. -/
def Errorf (text : String) : error := some text

end errors

/-! ## Dynamic values, time, message -/

/-- The values an `interface{}` record or option holds: the union of the specification
(null, boolean, integer, float, string, list, string-keyed map). A float is its 64 IEEE bits;
an integer is its mathematical value, whichever Go integer type carries it; a map is the
list of its entries. -/
inductive Value where
  | null : Value
  | bool (b : Bool) : Value
  | int (i : Int) : Value
  | float (bits : Nat) : Value
  | str (s : Bytes) : Value
  | list (xs : List Value) : Value
  | map (kvs : List (Bytes × Value)) : Value

/-- A `time.Time`: whole seconds since the Unix epoch (an int64) and nanoseconds within
the second. -/
structure Time where
  sec : Int
  nsec : Nat
deriving DecidableEq, Repr

/-- `int64(x)` of a wider integer: wrap into `[-2^63, 2^63)`. -/
def toInt64 (x : Int) : Int := (x + 2 ^ 63) % 2 ^ 64 - 2 ^ 63

/-- `time.Unix(sec, 0)`. -/
def time.Unix (sec : Int) : Time := { sec := toInt64 sec, nsec := 0 }

/-- `t.Unix()`: the whole seconds since the epoch. -/
def Time.Unix (t : Time) : Int := t.sec

/-- `type EventTime struct { time.Time }`. -/
structure EventTime where
  Time : Time
deriving DecidableEq, Repr

/-- `type Message struct`: the fields `marshal.go` uses. -/
structure Message where
  Tag : Bytes
  Time : EventTime
  Record : Value
  Option : Value
  subsecond : Bool

/-- The unread input of a `*msgpack.Decoder`. -/
abbrev Decoder := Bytes

/-- The bytes a `*msgpack.Encoder` has written to its buffer. -/
abbrev Encoder := Bytes

/-- The operations of the libraries that are generic in the value, and the `EventTime`
codec of the package (declared outside the sources at hand). -/
structure Lib where
  /-- `enc.Encode(v)` for a record or option. -/
  Encode : Value → Encoder → Encoder × error
  /-- `dec.DecodeInterface()`. -/
  DecodeInterface : Decoder → Value × Decoder × error
  /-- `dec.Skip()`. -/
  Skip : Decoder → Decoder × error
  /-- `enc.Encode(&m.Time)`. -/
  EncodeEventTime : EventTime → Encoder → Encoder × error
  /-- `dec.Decode(&m.Time)`: the new contents of `m.Time`, the decoder, the error. -/
  DecodeEventTime : EventTime → Decoder → EventTime × Decoder × error
  /-- `json.Marshal(v)` for a record or option. -/
  jsonMarshalValue : Value → Bytes × error
  /-- `strconv.ParseFloat(lit, 64)` as `encoding/json` applies it to a number literal. -/
  ParseFloat : Bytes → Option Nat
  /-- `unicode.IsPrint(r)` for a rune above U+00FF (the tables of package `unicode`). -/
  IsPrint : Nat → Bool

/-- The generic binary codec reproduces `v`: `enc.Encode(v)` succeeds and appends some
bytes, and `dec.DecodeInterface()` on these bytes returns `v` and leaves what follows them
unread. -/
def Lib.RoundTrips (lib : Lib) (v : Value) : Prop :=
  ∃ bs, (∀ enc, lib.Encode v enc = (enc ++ bs, none)) ∧
    ∀ rest, lib.DecodeInterface (bs ++ rest) = (v, rest, none)

/-! ## gopkg.in/vmihailenco/msgpack.v2/codes -/

namespace codes

def PosFixedNumHigh : Nat := 0x7f
def NegFixedNumLow : Nat := 0xe0
def Nil : Nat := 0xc0
def False : Nat := 0xc2
def True : Nat := 0xc3
def Float : Nat := 0xca
def Double : Nat := 0xcb
def Uint8 : Nat := 0xcc
def Uint16 : Nat := 0xcd
def Uint32 : Nat := 0xce
def Uint64 : Nat := 0xcf
def Int8 : Nat := 0xd0
def Int16 : Nat := 0xd1
def Int32 : Nat := 0xd2
def Int64 : Nat := 0xd3
def FixedStrLow : Nat := 0xa0
def FixedStrHigh : Nat := 0xbf
def FixedStrMask : Nat := 0x1f
def Str8 : Nat := 0xd9
def Str16 : Nat := 0xda
def Str32 : Nat := 0xdb
def Bin8 : Nat := 0xc4
def Bin16 : Nat := 0xc5
def Bin32 : Nat := 0xc6
def FixedArrayLow : Nat := 0x90
def FixedArrayHigh : Nat := 0x9f
def FixedArrayMask : Nat := 0xf
def Array16 : Nat := 0xdc
def Array32 : Nat := 0xdd
def FixExt8 : Nat := 0xd7
def Ext8 : Nat := 0xc7

/-- `codes.IsFixedNum(c)`. -/
def IsFixedNum (c : Nat) : Bool := c ≤ PosFixedNumHigh || c ≥ NegFixedNumLow

/-- `codes.IsFixedArray(c)`. -/
def IsFixedArray (c : Nat) : Bool := c ≥ FixedArrayLow && c ≤ FixedArrayHigh

/-- `codes.IsFixedString(c)`. -/
def IsFixedString (c : Nat) : Bool := c ≥ FixedStrLow && c ≤ FixedStrHigh

end codes

/-! ## msgpack.v2: the decoder operations `DecodeMsgpack` calls -/

/-- The text of `io.EOF`. -/
def EOF : String := "EOF"

/-- The text of `io.ErrUnexpectedEOF`. -/
def ErrUnexpectedEOF : String := "unexpected EOF"

/-- Big-endian value of a byte sequence. -/
def beUint (bs : Bytes) : Nat := bs.foldl (fun acc b => acc * 256 + b) 0

/-- The `n` lowest bytes of `v`, big-endian (`write1`, `write2`, `write4`, `write8`). -/
def beBytes : Nat → Nat → Bytes
  | 0, _ => []
  | n + 1, v => beBytes n (v / 256) ++ [v % 256]

/-- `d.readN(n)`: the next `n` bytes, or an error when the input is shorter. -/
def readN (n : Nat) (dec : Decoder) : Option Bytes × Decoder × error :=
  if n ≤ dec.length then (some (dec.take n), dec.drop n, none)
  else (none, [], some (if dec.isEmpty then EOF else ErrUnexpectedEOF))

/-- `d.uint8()`, `d.uint16()`, `d.uint32()`, `d.uint64()`: an `n`-byte big-endian number. -/
def readUint (n : Nat) (dec : Decoder) : Nat × Decoder × error :=
  match readN n dec with
  | (some bs, dec, _) => (beUint bs, dec, none)
  | (none, dec, err) => (0, dec, err)

/-- `dec.PeekCode()`: the next byte, left unread. -/
def PeekCode (dec : Decoder) : Nat × error :=
  match dec with
  | [] => (0, some EOF)
  | c :: _ => (c, none)

/-- Lower-case hexadecimal (`%x`). -/
def fmtHex (n : Nat) : String := String.mk (Nat.toDigits 16 n)

/-- Binary digits (`%b`). -/
def fmtBinary (n : Nat) : String := String.mk (Nat.toDigits 2 n)

/-- Decimal digits of an integer (`%d`). -/
def fmtDecimal (i : Int) : String :=
  if i < 0 then "-" ++ String.mk (Nat.toDigits 10 i.natAbs) else String.mk (Nat.toDigits 10 i.toNat)

/-- `d.arrayLen(c)`. -/
def arrayLen (c : Nat) (dec : Decoder) : Int × Decoder × error :=
  if c = codes.Nil then (-1, dec, none)
  else if c ≥ codes.FixedArrayLow ∧ c ≤ codes.FixedArrayHigh then
    (((c % 16 : Nat) : Int), dec, none)
  else if c = codes.Array16 then
    match readUint 2 dec with
    | (n, dec, err) => ((n : Int), dec, err)
  else if c = codes.Array32 then
    match readUint 4 dec with
    | (n, dec, err) => ((n : Int), dec, err)
  else (0, dec, some ("msgpack: invalid code " ++ fmtHex c ++ " decoding array length"))

/-- `dec.DecodeArrayLen()`. -/
def DecodeArrayLen (dec : Decoder) : Int × Decoder × error :=
  match dec with
  | [] => (0, [], some EOF)
  | c :: dec => arrayLen c dec

/-- `d.bytesLen(c)`. -/
def bytesLen (c : Nat) (dec : Decoder) : Int × Decoder × error :=
  if c = codes.Nil then (-1, dec, none)
  else if codes.IsFixedString c then (((c % 32 : Nat) : Int), dec, none)
  else if c = codes.Str8 ∨ c = codes.Bin8 then
    match readUint 1 dec with
    | (n, dec, err) => ((n : Int), dec, err)
  else if c = codes.Str16 ∨ c = codes.Bin16 then
    match readUint 2 dec with
    | (n, dec, err) => ((n : Int), dec, err)
  else if c = codes.Str32 ∨ c = codes.Bin32 then
    match readUint 4 dec with
    | (n, dec, err) => ((n : Int), dec, err)
  else (0, dec, some ("msgpack: invalid code " ++ fmtHex c ++ " decoding bytes length"))

/-- `dec.DecodeString()`. When the bytes of the string cannot be read, the library
returns its read buffer as the string; that case gives the empty string here. -/
def DecodeString (dec : Decoder) : Bytes × Decoder × error :=
  match dec with
  | [] => ([], [], some EOF)
  | c :: dec =>
    match bytesLen c dec with
    | (_, dec, some err) => ([], dec, some err)
    | (n, dec, none) =>
      if n = -1 then ([], dec, none)
      else
        match readN n.toNat dec with
        | (some b, dec, err) => (b, dec, err)
        | (none, dec, err) => ([], dec, err)

/-- Reinterpret the low `8 * n` bits of `v` as a signed integer (`int8`, `int16`, `int32`,
`int64` conversions). -/
def toSigned (n : Nat) (v : Nat) : Int :=
  if v % 2 ^ (8 * n) < 2 ^ (8 * n - 1) then ((v % 2 ^ (8 * n) : Nat) : Int)
  else ((v % 2 ^ (8 * n) : Nat) : Int) - 2 ^ (8 * n)

/-- `d.int(c)`. -/
def decodeInt (c : Nat) (dec : Decoder) : Int × Decoder × error :=
  if c = codes.Nil then (0, dec, none)
  else if codes.IsFixedNum c then (toSigned 1 c, dec, none)
  else if c = codes.Uint8 then
    match readUint 1 dec with
    | (n, dec, err) => ((n : Int), dec, err)
  else if c = codes.Int8 then
    match readUint 1 dec with
    | (n, dec, err) => (toSigned 1 n, dec, err)
  else if c = codes.Uint16 then
    match readUint 2 dec with
    | (n, dec, err) => ((n : Int), dec, err)
  else if c = codes.Int16 then
    match readUint 2 dec with
    | (n, dec, err) => (toSigned 2 n, dec, err)
  else if c = codes.Uint32 then
    match readUint 4 dec with
    | (n, dec, err) => ((n : Int), dec, err)
  else if c = codes.Int32 then
    match readUint 4 dec with
    | (n, dec, err) => (toSigned 4 n, dec, err)
  else if c = codes.Uint64 ∨ c = codes.Int64 then
    match readUint 8 dec with
    | (n, dec, err) => (toSigned 8 n, dec, err)
  else (0, dec, some ("msgpack: invalid code " ++ fmtHex c ++ " decoding int64"))

/-- `dec.DecodeInt64()`. -/
def DecodeInt64 (dec : Decoder) : Int × Decoder × error :=
  match dec with
  | [] => (0, [], some EOF)
  | c :: dec => decodeInt c dec

/-! ## msgpack.v2: the encoder operations `EncodeMsgpack` calls

Writes go to a `bytes.Buffer` and never fail. -/

/-- `enc.EncodeArrayLen(l)`. -/
def EncodeArrayLen (l : Nat) (enc : Encoder) : Encoder × error :=
  if l < 16 then (enc ++ [codes.FixedArrayLow + l], none)
  else if l < 65536 then (enc ++ codes.Array16 :: beBytes 2 l, none)
  else (enc ++ codes.Array32 :: beBytes 4 l, none)

/-- `e.encodeStrLen(l)` followed by the bytes: `enc.EncodeString(s)`. -/
def EncodeString (s : Bytes) (enc : Encoder) : Encoder × error :=
  let l := s.length
  if l < 32 then (enc ++ (codes.FixedStrLow + l) :: s, none)
  else if l < 256 then (enc ++ codes.Str8 :: beBytes 1 l ++ s, none)
  else if l < 65536 then (enc ++ codes.Str16 :: beBytes 2 l ++ s, none)
  else (enc ++ codes.Str32 :: beBytes 4 l ++ s, none)

/-- `enc.EncodeUint64(v)`: the shortest form that holds `v`. -/
def EncodeUint64 (v : Nat) (enc : Encoder) : Encoder × error :=
  if v ≤ 127 then (enc ++ [v], none)
  else if v ≤ 255 then (enc ++ codes.Uint8 :: beBytes 1 v, none)
  else if v ≤ 65535 then (enc ++ codes.Uint16 :: beBytes 2 v, none)
  else if v ≤ 4294967295 then (enc ++ codes.Uint32 :: beBytes 4 v, none)
  else (enc ++ codes.Uint64 :: beBytes 8 v, none)

/-- `enc.EncodeInt64(v)`: the shortest form that holds `v`; a non-negative `v` goes
through `EncodeUint64`. -/
def EncodeInt64 (v : Int) (enc : Encoder) : Encoder × error :=
  if v ≥ 0 then EncodeUint64 v.toNat enc
  else if v ≥ -32 then (enc ++ [(v % 256).toNat], none)
  else if v ≥ -128 then (enc ++ codes.Int8 :: beBytes 1 (v % 2 ^ 64).toNat, none)
  else if v ≥ -32768 then (enc ++ codes.Int16 :: beBytes 2 (v % 2 ^ 64).toNat, none)
  else if v ≥ -2147483648 then (enc ++ codes.Int32 :: beBytes 4 (v % 2 ^ 64).toNat, none)
  else (enc ++ codes.Int64 :: beBytes 8 (v % 2 ^ 64).toNat, none)

/-! ## marshal.go: the binary codec -/

/-- `func (m *Message) EncodeMsgpack(enc *msgpack.Encoder) error`. -/
def EncodeMsgpack (lib : Lib) (m : Message) (enc : Encoder) : Encoder × error :=
  match EncodeArrayLen 4 enc with
  | (enc, some err) => (enc, errors.Wrap (some err) "failed to encode msgpack: array len")
  | (enc, none) =>
  match EncodeString m.Tag enc with
  | (enc, some err) => (enc, errors.Wrap (some err) "failed to encode msgpack: tag")
  | (enc, none) =>
  match (if m.subsecond then
      match lib.EncodeEventTime m.Time enc with
      | (enc, err) => (enc, errors.Wrap err "failed to encode msgpack: time (EventTime)")
    else
      match EncodeInt64 m.Time.Time.Unix enc with
      | (enc, err) => (enc, errors.Wrap err "failed to encode msgpack: time")) with
  | (enc, some err) => (enc, some err)
  | (enc, none) =>
  match lib.Encode m.Record enc with
  | (enc, some err) => (enc, errors.Wrap (some err) "failed to encode msgpack: record")
  | (enc, none) =>
  match lib.Encode m.Option enc with
  | (enc, some err) => (enc, errors.Wrap (some err) "failed to encode msgpack: option")
  | (enc, none) => (enc, none)

/-- The case of `switch code` in `DecodeMsgpack` that a time code selects. -/
inductive TimeCase where
  | extension : TimeCase
  | integer : TimeCase
  | unknown : TimeCase
deriving DecidableEq, Repr

/-- `switch code { case codes.Ext8, codes.FixExt8: … case codes.Uint32, codes.Int64: …
default: … }`: which case runs. -/
def timeCase (code : Nat) : TimeCase :=
  if code = codes.Ext8 ∨ code = codes.FixExt8 then .extension
  else if code = codes.Uint32 ∨ code = codes.Int64 then .integer
  else .unknown

/-- The `switch code` statement of `DecodeMsgpack` (the time field): the receiver and the
decoder after it, and the error it returns with, if any. -/
def decodeTime (lib : Lib) (m : Message) (dec : Decoder) (code : Nat) :
    Message × Decoder × error :=
  match timeCase code with
  | .extension =>
    match lib.DecodeEventTime m.Time dec with
    | (t, dec, err) =>
      ({ m with Time := t }, dec, errors.Wrap err "failed to decode msgpack: time (EventTime)")
  | .integer =>
    match DecodeInt64 dec with
    | (_, dec, some err) => (m, dec, errors.Wrap (some err) "failed to decode msgpack: time")
    | (t, dec, none) => ({ m with Time := { m.Time with Time := time.Unix t } }, dec, none)
  | .unknown =>
    (m, dec, errors.Errorf ("expected ext8, fixedext8, or int64 for time: " ++ fmtBinary code))

/-- The end of `DecodeMsgpack`, after the time field: record, then option. -/
def decodePayload (lib : Lib) (m : Message) (dec : Decoder) : Message × Decoder × error :=
  -- `m.Record, err = dec.DecodeInterface()`
  match lib.DecodeInterface dec with
  | (r, dec, some err) =>
    ({ m with Record := r }, dec, errors.Wrap (some err) "failed to decode msgpack: record")
  | (r, dec, none) =>
  let m := { m with Record := r }
  -- `m.Option, err = dec.DecodeInterface()`
  match lib.DecodeInterface dec with
  | (o, dec, some err) =>
    ({ m with Option := o }, dec, errors.Wrap (some err) "failed to decode msgpack: option")
  | (o, dec, none) => ({ m with Option := o }, dec, none)

/-- `func (m *Message) DecodeMsgpack(dec *msgpack.Decoder) error`: the receiver after the
call, the decoder after the call, and the returned error. -/
def DecodeMsgpack (lib : Lib) (m : Message) (dec : Decoder) : Message × Decoder × error :=
  match PeekCode dec with
  | (_, some err) => (m, dec, errors.Wrap (some err) "failed to peek code")
  | (code, none) =>
  if !codes.IsFixedArray code then
    -- `dec.Skip()`, result dropped; `err` is the nil error of `PeekCode`
    (m, (lib.Skip dec).1, errors.Wrap none "expected array")
  else
  match DecodeArrayLen dec with
  | (_, dec, some err) => (m, dec, errors.Wrap (some err) "failed to decode msgpack: array len")
  | (l, dec, none) =>
  if l ≠ 4 then
    (m, dec, errors.Errorf ("expected tuple with 4 elements, got " ++ fmtDecimal l))
  else
  -- `m.Tag, err = dec.DecodeString()`
  match DecodeString dec with
  | (tag, dec, some err) =>
    ({ m with Tag := tag }, dec, errors.Wrap (some err) "failed to decode msgpack: tag")
  | (tag, dec, none) =>
  let m := { m with Tag := tag }
  match PeekCode dec with
  | (_, some err) => (m, dec, errors.Wrap (some err) "failed to peek code")
  | (code, none) =>
  match decodeTime lib m dec code with
  | (m, dec, some err) => (m, dec, some err)
  | (m, dec, none) => decodePayload lib m dec

/-- `func msgpackMarshal(m *Message) ([]byte, error)`: `Encode(m)` on a fresh encoder calls
`m.EncodeMsgpack`; a nil slice is the empty byte string. -/
def msgpackMarshal (lib : Lib) (m : Message) : Bytes × error :=
  let buf : Bytes := []
  match EncodeMsgpack lib m buf with
  | (_, some err) => ([], errors.Wrap (some err) "failed to encode msgpack")
  | (buf, none) => (buf, none)

/-! ## A reference instance of `Lib`

The generic codec of msgpack.v2 on the value union (MessagePack wire format), and the
`EventTime` extension. Codes that denote a value outside the union (bin, ext, float32, a map
key that is not a string) are reported as errors by `decodeValue`. -/

namespace wire

def FixedMapLow : Nat := 0x80
def FixedMapHigh : Nat := 0x8f
def Map16 : Nat := 0xde
def Map32 : Nat := 0xdf

/-- `e.encodeMapLen(l)`. -/
def encodeMapLen (l : Nat) : Bytes :=
  if l < 16 then [FixedMapLow + l]
  else if l < 65536 then Map16 :: beBytes 2 l
  else Map32 :: beBytes 4 l

mutual
/-- `enc.Encode(v)` on the union: the bytes appended. -/
def encodeValue : Value → Bytes
  | .null => [codes.Nil]
  | .bool b => [if b then codes.True else codes.False]
  | .int i => if i ≥ 0 then (EncodeUint64 i.toNat []).1 else (EncodeInt64 i []).1
  | .float bits => codes.Double :: beBytes 8 bits
  | .str s => (EncodeString s []).1
  | .list xs => (EncodeArrayLen xs.length []).1 ++ encodeList xs
  | .map kvs => encodeMapLen kvs.length ++ encodeMap kvs
/-- The elements of an array, in order. -/
def encodeList : List Value → Bytes
  | [] => []
  | x :: xs => encodeValue x ++ encodeList xs
/-- The entries of a map, each a string key and its value. -/
def encodeMap : List (Bytes × Value) → Bytes
  | [] => []
  | (k, v) :: kvs => (EncodeString k []).1 ++ encodeValue v ++ encodeMap kvs
end

mutual
/-- `dec.DecodeInterface()` on the union; the first argument bounds the number of nested
and successive values read. -/
def decodeValue : Nat → Decoder → Value × Decoder × error
  | 0, dec => (.null, dec, some "msgpack: input too deep")
  | _ + 1, [] => (.null, [], some EOF)
  | fuel + 1, c :: dec =>
    if codes.IsFixedNum c then (.int (toSigned 1 c), dec, none)
    else if c ≥ FixedMapLow ∧ c ≤ FixedMapHigh then
      match decodeMap fuel (c % 16) dec with
      | (kvs, dec, err) => (.map kvs, dec, err)
    else if codes.IsFixedArray c then
      match decodeList fuel (c % 16) dec with
      | (xs, dec, err) => (.list xs, dec, err)
    else if codes.IsFixedString c ∨ c = codes.Str8 ∨ c = codes.Str16 ∨ c = codes.Str32 then
      match DecodeString (c :: dec) with
      | (s, dec, err) => (.str s, dec, err)
    else if c = codes.Nil then (.null, dec, none)
    else if c = codes.False then (.bool false, dec, none)
    else if c = codes.True then (.bool true, dec, none)
    else if c = codes.Double then
      match readUint 8 dec with
      | (n, dec, err) => (.float n, dec, err)
    else if c = codes.Uint8 then
      match readUint 1 dec with
      | (n, dec, err) => (.int n, dec, err)
    else if c = codes.Uint16 then
      match readUint 2 dec with
      | (n, dec, err) => (.int n, dec, err)
    else if c = codes.Uint32 then
      match readUint 4 dec with
      | (n, dec, err) => (.int n, dec, err)
    else if c = codes.Uint64 then
      match readUint 8 dec with
      | (n, dec, err) => (.int n, dec, err)
    else if c = codes.Int8 ∨ c = codes.Int16 ∨ c = codes.Int32 ∨ c = codes.Int64 then
      match decodeInt c dec with
      | (i, dec, err) => (.int i, dec, err)
    else if c = codes.Array16 then
      match readUint 2 dec with
      | (_, dec, some err) => (.null, dec, some err)
      | (n, dec, none) =>
        match decodeList fuel n dec with
        | (xs, dec, err) => (.list xs, dec, err)
    else if c = codes.Array32 then
      match readUint 4 dec with
      | (_, dec, some err) => (.null, dec, some err)
      | (n, dec, none) =>
        match decodeList fuel n dec with
        | (xs, dec, err) => (.list xs, dec, err)
    else if c = Map16 then
      match readUint 2 dec with
      | (_, dec, some err) => (.null, dec, some err)
      | (n, dec, none) =>
        match decodeMap fuel n dec with
        | (kvs, dec, err) => (.map kvs, dec, err)
    else if c = Map32 then
      match readUint 4 dec with
      | (_, dec, some err) => (.null, dec, some err)
      | (n, dec, none) =>
        match decodeMap fuel n dec with
        | (kvs, dec, err) => (.map kvs, dec, err)
    else (.null, dec, some ("msgpack: unknown code " ++ fmtHex c ++ " decoding interface{}"))
/-- The next `n` values. -/
def decodeList : Nat → Nat → Decoder → List Value × Decoder × error
  | _, 0, dec => ([], dec, none)
  | 0, _ + 1, dec => ([], dec, some "msgpack: input too deep")
  | fuel + 1, n + 1, dec =>
    match decodeValue fuel dec with
    | (_, dec, some err) => ([], dec, some err)
    | (x, dec, none) =>
      match decodeList fuel n dec with
      | (xs, dec, err) => (x :: xs, dec, err)
/-- The next `n` map entries. -/
def decodeMap : Nat → Nat → Decoder → List (Bytes × Value) × Decoder × error
  | _, 0, dec => ([], dec, none)
  | 0, _ + 1, dec => ([], dec, some "msgpack: input too deep")
  | fuel + 1, n + 1, dec =>
    match decodeValue fuel dec with
    | (.str k, dec, none) =>
      match decodeValue fuel dec with
      | (_, dec, some err) => ([], dec, some err)
      | (v, dec, none) =>
        match decodeMap fuel n dec with
        | (kvs, dec, err) => ((k, v) :: kvs, dec, err)
    | (_, dec, some err) => ([], dec, some err)
    | (_, dec, none) => ([], dec, some "msgpack: map key is not a string")
end

end wire

/-! ## unicode/utf8, strconv -/

/-- The bytes of an ASCII text. -/
def ascii (s : String) : Bytes := s.data.map Char.toNat

namespace utf8

def RuneError : Nat := 0xFFFD
def RuneSelf : Nat := 0x80
def MaxRune : Nat := 0x10FFFF

/-- `utf8.DecodeRuneInString(s)`: the first rune of `s` and its width in bytes; an
ill-formed sequence yields `(RuneError, 1)`. The tables `first` and `acceptRanges` are
written out as comparisons. -/
def DecodeRune (p : Bytes) : Nat × Nat :=
  match p with
  | [] => (RuneError, 0)
  | p0 :: rest =>
    if p0 < RuneSelf then (p0, 1)
    else if p0 < 0xC2 ∨ 0xF4 < p0 then (RuneError, 1)
    else
      let sz := if p0 < 0xE0 then 2 else if p0 < 0xF0 then 3 else 4
      let lo := if p0 = 0xE0 then 0xA0 else if p0 = 0xF0 then 0x90 else 0x80
      let hi := if p0 = 0xED then 0x9F else if p0 = 0xF4 then 0x8F else 0xBF
      if p.length < sz then (RuneError, 1)
      else
        match rest with
        | [] => (RuneError, 1)
        | b1 :: rest =>
          if b1 < lo ∨ hi < b1 then (RuneError, 1)
          else if sz ≤ 2 then (p0 % 32 * 64 + b1 % 64, 2)
          else
            match rest with
            | [] => (RuneError, 1)
            | b2 :: rest =>
              if b2 < 0x80 ∨ 0xBF < b2 then (RuneError, 1)
              else if sz ≤ 3 then (p0 % 16 * 4096 + b1 % 64 * 64 + b2 % 64, 3)
              else
                match rest with
                | [] => (RuneError, 1)
                | b3 :: _ =>
                  if b3 < 0x80 ∨ 0xBF < b3 then (RuneError, 1)
                  else (p0 % 8 * 262144 + b1 % 64 * 4096 + b2 % 64 * 64 + b3 % 64, 4)

/-- `utf8.AppendRune(nil, r)`: the UTF-8 bytes of `r`; a surrogate or a value above
`MaxRune` is written as `RuneError`. -/
def EncodeRune (r : Nat) : Bytes :=
  if r ≤ 0x7F then [r]
  else if r ≤ 0x7FF then [0xC0 + r / 64, 0x80 + r % 64]
  else if r > MaxRune ∨ (0xD800 ≤ r ∧ r ≤ 0xDFFF) then [0xEF, 0xBF, 0xBD]
  else if r ≤ 0xFFFF then [0xE0 + r / 4096, 0x80 + r / 64 % 64, 0x80 + r % 64]
  else [0xF0 + r / 262144, 0x80 + r / 4096 % 64, 0x80 + r / 64 % 64, 0x80 + r % 64]

end utf8

namespace strconv

/-- The digit `lowerhex[n]`. -/
def lowerhex (n : Nat) : Nat := if n % 16 < 10 then 48 + n % 16 else 87 + n % 16

/-- The `k` lowest hexadecimal digits of `r`, most significant first. -/
def hexDigits : Nat → Nat → Bytes
  | 0, _ => []
  | k + 1, r => hexDigits k (r / 16) ++ [lowerhex r]

/-- `strconv.FormatInt(i, 10)`. -/
def FormatInt (i : Int) : Bytes :=
  if i < 0 then ascii "-" ++ (Nat.toDigits 10 i.natAbs).map Char.toNat
  else (Nat.toDigits 10 i.toNat).map Char.toNat

/-- `strconv.IsPrint(r)`: decided here up to U+00FF, by the table of `unicode` above. -/
def IsPrint (lib : Lib) (r : Nat) : Bool :=
  if r ≤ 0xFF then (0x20 ≤ r && r ≤ 0x7E) || (0xA1 ≤ r && r ≠ 0xAD)
  else lib.IsPrint r

/-- `appendEscapedRune(buf, r, '"', false, false)`. -/
def appendEscapedRune (lib : Lib) (r : Nat) : Bytes :=
  if r = 0x22 ∨ r = 0x5C then [0x5C, r]
  else if IsPrint lib r then utf8.EncodeRune r
  else if r = 0x07 then ascii "\\a"
  else if r = 0x08 then ascii "\\b"
  else if r = 0x0C then ascii "\\f"
  else if r = 0x0A then ascii "\\n"
  else if r = 0x0D then ascii "\\r"
  else if r = 0x09 then ascii "\\t"
  else if r = 0x0B then ascii "\\v"
  else if r < 0x20 ∨ r = 0x7F then ascii "\\x" ++ hexDigits 2 r
  else if r > utf8.MaxRune ∨ (0xD800 ≤ r ∧ r ≤ 0xDFFF) then ascii "\\ufffd"
  else if r < 0x10000 then ascii "\\u" ++ hexDigits 4 r
  else ascii "\\U" ++ hexDigits 8 r

/-- The loop of `appendQuotedWith`: one rune of `s` per step. -/
def quoteRunes (lib : Lib) : Nat → Bytes → Bytes
  | 0, _ => []
  | _ + 1, [] => []
  | fuel + 1, c :: s =>
    let (r, width) := if c ≥ utf8.RuneSelf then utf8.DecodeRune (c :: s) else (c, 1)
    (if width = 1 ∧ r = utf8.RuneError then ascii "\\x" ++ hexDigits 2 c
     else appendEscapedRune lib r) ++ quoteRunes lib fuel ((c :: s).drop width)

/-- `strconv.Quote(s)`: a double-quoted Go string literal. -/
def Quote (lib : Lib) (s : Bytes) : Bytes :=
  [0x22] ++ quoteRunes lib s.length s ++ [0x22]

end strconv

/-! ## encoding/json: reading a JSON text

`json.Unmarshal` first checks that the whole input is one JSON value (`checkValid`), then
stores it into the target. Here the text is parsed into a tree, strings already unquoted,
number literals kept as written. -/

/-- A parsed JSON value. -/
inductive JSON where
  | null : JSON
  | bool (b : Bool) : JSON
  | number (lit : Bytes) : JSON
  | string (s : Bytes) : JSON
  | array (xs : List JSON) : JSON
  | object (kvs : List (Bytes × JSON)) : JSON

/-- Is the value a string? -/
def JSON.isString : JSON → Bool
  | .string _ => true
  | _ => false

/-- Is the value `null`? -/
def JSON.isNull : JSON → Bool
  | .null => true
  | _ => false

namespace json

/-- `isSpace(c)` of the scanner. -/
def isSpace (c : Nat) : Bool := c = 0x20 || c = 0x09 || c = 0x0D || c = 0x0A

/-- Drop leading white space. -/
def skipSpace : Bytes → Bytes
  | [] => []
  | c :: s => if isSpace c then skipSpace s else c :: s

def isDigit (c : Nat) : Bool := 0x30 ≤ c && c ≤ 0x39

/-- The leading decimal digits of `s`, and what follows them. -/
def digitsSpan : Bytes → Bytes × Bytes
  | [] => ([], [])
  | c :: s =>
    if isDigit c then
      match digitsSpan s with
      | (ds, rest) => (c :: ds, rest)
    else ([], c :: s)

/-- The fraction of a number literal (`stateDot`, `stateDot0`), if one starts here. -/
def scanFrac (s : Bytes) : Option (Bytes × Bytes) :=
  match s with
  | 0x2E :: t =>
    match digitsSpan t with
    | ([], _) => none
    | (ds, rest) => some (0x2E :: ds, rest)
  | _ => some ([], s)

/-- The exponent of a number literal (`stateE`, `stateESign`, `stateE0`), if one starts
here. -/
def scanExp (s : Bytes) : Option (Bytes × Bytes) :=
  match s with
  | e :: t =>
    if e = 0x65 ∨ e = 0x45 then
      match t with
      | sg :: u =>
        if sg = 0x2B ∨ sg = 0x2D then
          match digitsSpan u with
          | ([], _) => none
          | (ds, rest) => some (e :: sg :: ds, rest)
        else
          match digitsSpan t with
          | ([], _) => none
          | (ds, rest) => some (e :: ds, rest)
      | [] => none
    else some ([], s)
  | [] => some ([], [])

/-- The integer part, fraction and exponent after an optional minus sign. -/
def scanUnsigned (s : Bytes) : Option (Bytes × Bytes) :=
  match s with
  | [] => none
  | c :: t =>
    let intPart : Option (Bytes × Bytes) :=
      if c = 0x30 then some ([c], t)
      else if 0x31 ≤ c ∧ c ≤ 0x39 then
        match digitsSpan t with
        | (ds, rest) => some (c :: ds, rest)
      else none
    match intPart with
    | none => none
    | some (ip, rest) =>
      match scanFrac rest with
      | none => none
      | some (fp, rest) =>
        match scanExp rest with
        | none => none
        | some (ep, rest) => some (ip ++ fp ++ ep, rest)

/-- A number literal at the head of `s`: the literal and the rest. -/
def scanNumber (s : Bytes) : Option (Bytes × Bytes) :=
  match s with
  | 0x2D :: t =>
    match scanUnsigned t with
    | none => none
    | some (lit, rest) => some (0x2D :: lit, rest)
  | _ => scanUnsigned s

/-- Value of a hexadecimal digit. -/
def hexVal (c : Nat) : Option Nat :=
  if 0x30 ≤ c ∧ c ≤ 0x39 then some (c - 0x30)
  else if 0x61 ≤ c ∧ c ≤ 0x66 then some (c - 0x61 + 10)
  else if 0x41 ≤ c ∧ c ≤ 0x46 then some (c - 0x41 + 10)
  else none

/-- Four hexadecimal digits at the head of `s`. -/
def hex4 (s : Bytes) : Option (Nat × Bytes) :=
  match s with
  | a :: b :: c :: d :: rest =>
    match hexVal a, hexVal b, hexVal c, hexVal d with
    | some a, some b, some c, some d => some (((a * 16 + b) * 16 + c) * 16 + d, rest)
    | _, _, _, _ => none
  | _ => none

/-- `getu4(s)`: the code unit of an escape `\uXXXX` at the head of `s`. -/
def getu4 (s : Bytes) : Option (Nat × Bytes) :=
  match s with
  | 0x5C :: 0x75 :: t => hex4 t
  | _ => none

/-- The contents of a string literal after its opening quote, unquoted as `unquote` does
(escapes decoded, a lone surrogate or ill-formed UTF-8 replaced by U+FFFD), and the rest
after the closing quote. A control character or a bad escape is a syntax error. -/
def scanString : Nat → Bytes → Option (Bytes × Bytes)
  | 0, _ => none
  | _ + 1, [] => none
  | fuel + 1, c :: s =>
    if c = 0x22 then some ([], s)
    else if c < 0x20 then none
    else if c = 0x5C then
      match s with
      | [] => none
      | e :: t =>
        if e = 0x75 then
          match hex4 t with
          | none => none
          | some (rr, u) =>
            if 0xD800 ≤ rr ∧ rr < 0xE000 then
              match getu4 u with
              | some (rr1, v) =>
                if rr < 0xDC00 ∧ 0xDC00 ≤ rr1 ∧ rr1 < 0xE000 then
                  match scanString fuel v with
                  | none => none
                  | some (out, rest) =>
                    some (utf8.EncodeRune ((rr - 0xD800) * 1024 + (rr1 - 0xDC00) + 0x10000) ++ out,
                      rest)
                else
                  match scanString fuel u with
                  | none => none
                  | some (out, rest) => some (utf8.EncodeRune utf8.RuneError ++ out, rest)
              | none =>
                match scanString fuel u with
                | none => none
                | some (out, rest) => some (utf8.EncodeRune utf8.RuneError ++ out, rest)
            else
              match scanString fuel u with
              | none => none
              | some (out, rest) => some (utf8.EncodeRune rr ++ out, rest)
        else
          let plain : Option Nat :=
            if e = 0x22 ∨ e = 0x5C ∨ e = 0x2F then some e
            else if e = 0x62 then some 0x08
            else if e = 0x66 then some 0x0C
            else if e = 0x6E then some 0x0A
            else if e = 0x72 then some 0x0D
            else if e = 0x74 then some 0x09
            else none
          match plain with
          | none => none
          | some b =>
            match scanString fuel t with
            | none => none
            | some (out, rest) => some (b :: out, rest)
    else if c < utf8.RuneSelf then
      match scanString fuel s with
      | none => none
      | some (out, rest) => some (c :: out, rest)
    else
      match utf8.DecodeRune (c :: s) with
      | (rr, size) =>
        match scanString fuel ((c :: s).drop size) with
        | none => none
        | some (out, rest) => some (utf8.EncodeRune rr ++ out, rest)

/-- Does `s` start with the literal `lit`? Then the rest. -/
def literal (lit : Bytes) (s : Bytes) : Option Bytes :=
  if lit.isPrefixOf s then some (s.drop lit.length) else none

mutual
/-- One JSON value at the head of `s` (after optional white space), and the rest. -/
def scanValue : Nat → Bytes → Option (JSON × Bytes)
  | 0, _ => none
  | fuel + 1, s =>
    match skipSpace s with
    | [] => none
    | c :: t =>
      if c = 0x5B then
        match skipSpace t with
        | 0x5D :: rest => some (.array [], rest)
        | _ =>
          match scanElements fuel t with
          | none => none
          | some (xs, rest) => some (.array xs, rest)
      else if c = 0x7B then
        match skipSpace t with
        | 0x7D :: rest => some (.object [], rest)
        | _ =>
          match scanMembers fuel t with
          | none => none
          | some (kvs, rest) => some (.object kvs, rest)
      else if c = 0x22 then
        match scanString (t.length + 1) t with
        | none => none
        | some (str, rest) => some (.string str, rest)
      else if c = 0x74 then
        match literal (ascii "true") (c :: t) with
        | none => none
        | some rest => some (.bool true, rest)
      else if c = 0x66 then
        match literal (ascii "false") (c :: t) with
        | none => none
        | some rest => some (.bool false, rest)
      else if c = 0x6E then
        match literal (ascii "null") (c :: t) with
        | none => none
        | some rest => some (.null, rest)
      else
        match scanNumber (c :: t) with
        | none => none
        | some (lit, rest) => some (.number lit, rest)
/-- The elements of a non-empty array after `[`, up to and including `]`. -/
def scanElements : Nat → Bytes → Option (List JSON × Bytes)
  | 0, _ => none
  | fuel + 1, s =>
    match scanValue fuel s with
    | none => none
    | some (x, rest) =>
      match skipSpace rest with
      | 0x2C :: rest =>
        match scanElements fuel rest with
        | none => none
        | some (xs, rest) => some (x :: xs, rest)
      | 0x5D :: rest => some ([x], rest)
      | _ => none
/-- The members of a non-empty object after `{`, up to and including `}`. -/
def scanMembers : Nat → Bytes → Option (List (Bytes × JSON) × Bytes)
  | 0, _ => none
  | fuel + 1, s =>
    match skipSpace s with
    | 0x22 :: t =>
      match scanString (t.length + 1) t with
      | none => none
      | some (k, rest) =>
        match skipSpace rest with
        | 0x3A :: rest =>
          match scanValue fuel rest with
          | none => none
          | some (v, rest) =>
            match skipSpace rest with
            | 0x2C :: rest =>
              match scanMembers fuel rest with
              | none => none
              | some (kvs, rest) => some ((k, v) :: kvs, rest)
            | 0x7D :: rest => some ([(k, v)], rest)
            | _ => none
        | _ => none
    | _ => none
end

/-- `checkValid` and the scan of the value: the JSON value `data` consists of, if it is
exactly one value between optional white space. -/
def parse (data : Bytes) : Option JSON :=
  match scanValue (2 * data.length + 2) data with
  | none => none
  | some (v, rest) => if (skipSpace rest).isEmpty then some v else none

end json

/-! ## encoding/json: storing a parsed value into a Go variable

A `json.RawMessage` is the text of one element of an array that has already been checked;
reading it again yields that element, so it is kept as the parsed element. -/

namespace json

/-- The text of a syntax error (`*json.SyntaxError`). -/
def SyntaxError : String := "invalid JSON input"

/-- The text of an `*json.UnmarshalTypeError` for a Go type. -/
def UnmarshalTypeError (goType : String) : String :=
  "json: cannot unmarshal value into Go value of type " ++ goType

/-- `json.Unmarshal(buf, &l)` for `var l []json.RawMessage`: an array gives its elements,
`null` leaves the slice nil (length 0) without an error, any other value is a type error. -/
def UnmarshalRawMessages (buf : Bytes) : List JSON × error :=
  match parse buf with
  | none => ([], some SyntaxError)
  | some .null => ([], none)
  | some (.array xs) => (xs, none)
  | some _ => ([], some (UnmarshalTypeError "[]json.RawMessage"))

/-- `json.Unmarshal(raw, &tag)` for a `string` variable holding `cur`: a string is stored,
`null` has no effect and is no error, any other value is a type error. -/
def UnmarshalString (raw : JSON) (cur : Bytes) : Bytes × error :=
  match raw with
  | .string str => (str, none)
  | .null => (cur, none)
  | _ => (cur, some (UnmarshalTypeError "string"))

/-- Value of a sequence of decimal digits. -/
def decimalValue (ds : Bytes) : Nat := ds.foldl (fun acc d => acc * 10 + (d - 0x30)) 0

/-- `strconv.ParseInt(lit, 10, 64)` on a JSON number literal: it succeeds when the literal
has neither fraction nor exponent and its value is an int64. -/
def ParseInt (lit : Bytes) : Option Int :=
  let neg := lit.head? = some 0x2D
  let ds := if neg then lit.tail else lit
  if ds ≠ [] ∧ ds.all isDigit then
    let v : Int := if neg then -(decimalValue ds : Int) else (decimalValue ds : Int)
    if -2 ^ 63 ≤ v ∧ v < 2 ^ 63 then some v else none
  else none

/-- `json.Unmarshal(raw, &t)` for an `int64` variable holding `cur`: an integer literal in
range is stored, `null` has no effect and is no error, anything else is a type error. -/
def UnmarshalInt64 (raw : JSON) (cur : Int) : Int × error :=
  match raw with
  | .number lit =>
    match ParseInt lit with
    | some v => (v, none)
    | none => (cur, some (UnmarshalTypeError "int64"))
  | .null => (cur, none)
  | _ => (cur, some (UnmarshalTypeError "int64"))

/-- `m[k] = v` on a map kept as a list of entries with distinct keys. -/
def mapAssign (m : List (Bytes × Value)) (k : Bytes) (v : Value) : List (Bytes × Value) :=
  match m with
  | [] => [(k, v)]
  | (k0, v0) :: rest => if k0 = k then (k, v) :: rest else (k0, v0) :: mapAssign rest k v

/-- The first of two saved errors (`d.saveError` keeps the first). -/
def firstError (a b : error) : error :=
  match a with
  | some e => some e
  | none => b

mutual
/-- `d.valueInterface()`: the value stored into an `interface{}`; every number becomes a
float64, a number out of range is a saved error and leaves nil in its place. -/
def valueInterface (lib : Lib) : JSON → Value × error
  | .null => (.null, none)
  | .bool b => (.bool b, none)
  | .number lit =>
    match lib.ParseFloat lit with
    | some bits => (.float bits, none)
    | none => (.null, some (UnmarshalTypeError "float64"))
  | .string str => (.str str, none)
  | .array xs =>
    match arrayInterface lib xs with
    | (vs, err) => (.list vs, err)
  | .object kvs =>
    match objectInterface lib kvs with
    | (es, err) => (.map (es.foldl (fun m e => mapAssign m e.1 e.2) []), err)
/-- `d.arrayInterface()`. -/
def arrayInterface (lib : Lib) : List JSON → List Value × error
  | [] => ([], none)
  | x :: xs =>
    match valueInterface lib x, arrayInterface lib xs with
    | (v, e1), (vs, e2) => (v :: vs, firstError e1 e2)
/-- `d.objectInterface()`: the members in the order of the text. -/
def objectInterface (lib : Lib) : List (Bytes × JSON) → List (Bytes × Value) × error
  | [] => ([], none)
  | (k, x) :: kvs =>
    match valueInterface lib x, objectInterface lib kvs with
    | (v, e1), (es, e2) => ((k, v) :: es, firstError e1 e2)
end

/-- `json.Unmarshal(raw, &r)` for `var r interface{}`. -/
def UnmarshalInterface (lib : Lib) (raw : JSON) : Value × error := valueInterface lib raw

/-- The output of `compact(dst, src, true)` for a valid `src`: white space between tokens
is dropped, and `<`, `>`, `&`, U+2028, U+2029 are written as `\u` escapes. `inStr` tells
whether the position is inside a string literal, `esc` whether it follows a backslash,
`skip` how many bytes of an escaped U+2028 or U+2029 are still to be passed over. -/
def compactBytes (inStr esc : Bool) (skip : Nat) : Bytes → Bytes
  | [] => []
  | c :: s =>
    if skip > 0 then compactBytes inStr false (skip - 1) s
    else if c = 0x3C ∨ c = 0x3E ∨ c = 0x26 then
      ascii "\\u00" ++ strconv.hexDigits 2 c ++ compactBytes inStr false 0 s
    else if c = 0xE2 ∧ s.head? = some 0x80 ∧ s.tail.head? = some 0xA8 then
      ascii "\\u2028" ++ compactBytes inStr false 2 s
    else if c = 0xE2 ∧ s.head? = some 0x80 ∧ s.tail.head? = some 0xA9 then
      ascii "\\u2029" ++ compactBytes inStr false 2 s
    else if inStr then
      c :: compactBytes (esc || c ≠ 0x22) (!esc && c = 0x5C) 0 s
    else if isSpace c then compactBytes false false 0 s
    else c :: compactBytes (c = 0x22) false 0 s

/-- `compact(&e.Buffer, b, true)`: an error when `b` is not a valid JSON text. -/
def compact (src : Bytes) : Bytes × error :=
  match parse src with
  | none => ([], some SyntaxError)
  | some _ => (compactBytes false false 0 src, none)

end json

/-! ## marshal.go: the textual codec -/

/-- How a call ends: it returns, or the goroutine panics (a slice index out of range). -/
inductive Result (α : Type) where
  | returned (a : α) : Result α
  | panicked (msg : String) : Result α

/-- `func (m *Message) UnmarshalJSON(buf []byte) error`: the receiver after the call and
the returned error, or the panic of an index expression `l[i]` with `i ≥ len(l)`. -/
def UnmarshalJSON (lib : Lib) (m : Message) (buf : Bytes) : Result (Message × error) :=
  match json.UnmarshalRawMessages buf with
  | (_, some err) =>
    .returned (m, errors.Wrap (some err) "failed to unmarshal JSON: expected array")
  | (l, none) =>
  match l[0]? with
  | none => .panicked "runtime error: index out of range [0]"
  | some l0 =>
  match json.UnmarshalString l0 [] with
  | (_, some err) =>
    .returned (m, errors.Wrap (some err) "failed to unmarshal JSON: expected tag")
  | (tag, none) =>
  match l[1]? with
  | none => .panicked "runtime error: index out of range [1]"
  | some l1 =>
  match json.UnmarshalInt64 l1 0 with
  | (_, some err) =>
    .returned (m, errors.Wrap (some err) "failed to unmarshal JSON: expected timestamp")
  | (t, none) =>
  match l[2]? with
  | none => .panicked "runtime error: index out of range [2]"
  | some l2 =>
  match json.UnmarshalInterface lib l2 with
  | (_, some err) =>
    .returned (m, errors.Wrap (some err) "failed to unmarshal JSON: expected record")
  | (r, none) =>
  match l[3]? with
  | none => .panicked "runtime error: index out of range [3]"
  | some l3 =>
  match json.UnmarshalInterface lib l3 with
  | (_, some err) =>
    .returned (m, errors.Wrap (some err) "failed to unmarshal JSON: expected options")
  | (o, none) =>
  .returned
    ({ Tag := tag, Time := { Time := time.Unix t }, Record := r, Option := o,
       subsecond := false }, none)

/-- `func (m *Message) MarshalJSON() ([]byte, error)`; a nil slice is the empty byte
string. -/
def MarshalJSON (lib : Lib) (m : Message) : Bytes × error :=
  let buf : Bytes := []
  let buf := buf ++ [0x5B]
  let buf := buf ++ strconv.Quote lib m.Tag
  let buf := buf ++ [0x2C]
  let buf := buf ++ strconv.FormatInt m.Time.Time.Unix
  let buf := buf ++ [0x2C]
  match lib.jsonMarshalValue m.Record with
  | (_, some err) => ([], errors.Wrap (some err) "failed to encode record")
  | (data, none) =>
  let buf := buf ++ data
  let buf := buf ++ [0x2C]
  match lib.jsonMarshalValue m.Option with
  | (_, some err) => ([], errors.Wrap (some err) "failed to encode option")
  | (data, none) =>
  let buf := buf ++ data
  let buf := buf ++ [0x5D]
  (buf, none)

/-- `json.NewEncoder(&buf).Encode(m)` for a `*Message`: the text `m.MarshalJSON()` returns
is checked and compacted, and a newline is appended; the buffer after the call. -/
def jsonEncode (lib : Lib) (m : Message) (buf : Bytes) : Bytes × error :=
  match MarshalJSON lib m with
  | (_, some err) =>
    (buf, some ("json: error calling MarshalJSON for type *fluent.Message: " ++ err))
  | (b, none) =>
    match json.compact b with
    | (_, some err) =>
      (buf, some ("json: error calling MarshalJSON for type *fluent.Message: " ++ err))
    | (out, none) => (buf ++ out ++ [0x0A], none)

/-- `buf.Truncate(n)`: panics when `n` is negative or beyond the length. -/
def Truncate (buf : Bytes) (n : Int) : Result Bytes :=
  if n < 0 ∨ n > buf.length then .panicked "bytes.Buffer: truncation out of range"
  else .returned (buf.take n.toNat)

/-- `func jsonMarshal(m *Message) ([]byte, error)`. -/
def jsonMarshal (lib : Lib) (m : Message) : Result (Bytes × error) :=
  let buf : Bytes := []
  match jsonEncode lib m buf with
  | (_, some err) => .returned ([], errors.Wrap (some err) "failed to encode json")
  | (buf, none) =>
  match Truncate buf ((buf.length : Int) - 1) with
  | .panicked msg => .panicked msg
  | .returned buf => .returned (buf, none)

/-! ## The reference instance, continued: `EventTime`, JSON on the value union -/

namespace EventTime

/-- The extension type of an event time (type 0 of the Fluentd forward protocol). -/
def extType : Nat := 0

/-- Modelled from the spec: the encoder of `EventTime` (its source file is not at hand).
The spec gives the extended form as seconds since the epoch and nanoseconds, both unsigned
32-bit big-endian, 8 bytes in all, behind an extension header for an 8-byte payload. -/
def EncodeMsgpack (t : EventTime) (enc : Encoder) : Encoder × error :=
  (enc ++ [codes.FixExt8, extType] ++ beBytes 4 (t.Time.sec % 2 ^ 32).toNat
    ++ beBytes 4 (t.Time.nsec % 2 ^ 32), none)

/-- Modelled from the spec: the decoder of `EventTime` (its source file is not at hand).
Either extension header for an 8-byte payload is accepted, then 4 bytes of seconds and 4
bytes of nanoseconds are read. -/
def DecodeMsgpack (t : EventTime) (dec : Decoder) : EventTime × Decoder × error :=
  let payload : Option Decoder :=
    match dec with
    | 0xd7 :: ty :: rest => if ty = extType then some rest else none
    | 0xc7 :: 8 :: ty :: rest => if ty = extType then some rest else none
    | _ => none
  match payload with
  | none => (t, dec, some "msgpack: not an event time")
  | some rest =>
    match readUint 4 rest with
    | (_, rest, some err) => (t, rest, some err)
    | (sec, rest, none) =>
      match readUint 4 rest with
      | (_, rest, some err) => (t, rest, some err)
      | (nsec, rest, none) => ({ Time := { sec := sec, nsec := nsec } }, rest, none)

end EventTime

namespace wire

/-- The bits of the float64 that equals the natural number `n`, for `n < 2^53`. -/
def floatOfNat (n : Nat) : Nat :=
  if n = 0 then 0
  else (1023 + Nat.log2 n) * 2 ^ 52 + (n * 2 ^ (52 - Nat.log2 n) - 2 ^ 52)

/-- The natural number a float64 with a zero sign bit equals, if it is one below `2^53`. -/
def natOfFloat (bits : Nat) : Option Nat :=
  let e := bits / 2 ^ 52
  let f := bits % 2 ^ 52
  if bits = 0 then some 0
  else if 1023 ≤ e ∧ e ≤ 1075 ∧ (2 ^ 52 + f) % 2 ^ (1075 - e) = 0 then
    some ((2 ^ 52 + f) / 2 ^ (1075 - e))
  else none

/-- The float conversion of the instance: integer literals of magnitude below `2^53`
(exact in float64); other literals are outside the instance. -/
def ParseFloat (lit : Bytes) : Option Nat :=
  match json.ParseInt lit with
  | none => none
  | some v =>
    if v.natAbs < 2 ^ 53 then
      some ((if lit.head? = some 0x2D then 2 ^ 63 else 0) + floatOfNat v.natAbs)
    else none

/-- Byte-wise order of Go strings. -/
def bytesLt : Bytes → Bytes → Bool
  | _, [] => false
  | [], _ :: _ => true
  | a :: s, b :: t => a < b || (a = b && bytesLt s t)

/-- Insert an encoded member into a list sorted by key. -/
def insertMember (e : Bytes × Bytes) : List (Bytes × Bytes) → List (Bytes × Bytes)
  | [] => [e]
  | f :: rest => if bytesLt e.1 f.1 then e :: f :: rest else f :: insertMember e rest

/-- The loop of `encodeState.string(s, true)`: one rune per step. -/
def jsonStringBody : Nat → Bytes → Bytes
  | 0, _ => []
  | _ + 1, [] => []
  | fuel + 1, b :: s =>
    if b < utf8.RuneSelf then
      (if b = 0x22 ∨ b = 0x5C then [0x5C, b]
       else if b = 0x0A then ascii "\\n"
       else if b = 0x0D then ascii "\\r"
       else if b = 0x09 then ascii "\\t"
       else if b < 0x20 ∨ b = 0x3C ∨ b = 0x3E ∨ b = 0x26 then
         ascii "\\u00" ++ strconv.hexDigits 2 b
       else [b]) ++ jsonStringBody fuel s
    else
      match utf8.DecodeRune (b :: s) with
      | (c, size) =>
        (if c = utf8.RuneError ∧ size = 1 then ascii "\\ufffd"
         else if c = 0x2028 then ascii "\\u2028"
         else if c = 0x2029 then ascii "\\u2029"
         else (b :: s).take size) ++ jsonStringBody fuel ((b :: s).drop size)

/-- A Go string as a JSON string literal. -/
def jsonString (s : Bytes) : Bytes := [0x22] ++ jsonStringBody s.length s ++ [0x22]

/-- Join encoded elements with commas. -/
def joinComma : List Bytes → Bytes
  | [] => []
  | [x] => x
  | x :: y :: rest => x ++ [0x2C] ++ joinComma (y :: rest)

mutual
/-- `json.Marshal(v)` on the union; `none` for a value the instance has no text for (a
float that is not a whole number below `2^53`). -/
def marshalValue : Value → Option Bytes
  | .null => some (ascii "null")
  | .bool b => some (if b then ascii "true" else ascii "false")
  | .int i => some (strconv.FormatInt i)
  | .float bits =>
    match natOfFloat (bits % 2 ^ 63) with
    | some n => some ((if bits ≥ 2 ^ 63 then ascii "-" else []) ++ strconv.FormatInt n)
    | none => none
  | .str s => some (jsonString s)
  | .list xs =>
    match marshalList xs with
    | some es => some ([0x5B] ++ joinComma es ++ [0x5D])
    | none => none
  | .map kvs =>
    match marshalMembers kvs with
    | some es =>
      some ([0x7B] ++ joinComma ((es.foldr insertMember []).map
        (fun e => jsonString e.1 ++ [0x3A] ++ e.2)) ++ [0x7D])
    | none => none
/-- The texts of the elements of a list. -/
def marshalList : List Value → Option (List Bytes)
  | [] => some []
  | x :: xs =>
    match marshalValue x, marshalList xs with
    | some e, some es => some (e :: es)
    | _, _ => none
/-- The keys of a map with the texts of their values. -/
def marshalMembers : List (Bytes × Value) → Option (List (Bytes × Bytes))
  | [] => some []
  | (k, v) :: kvs =>
    match marshalValue v, marshalMembers kvs with
    | some e, some es => some ((k, e) :: es)
    | _, _ => none
end

mutual
/-- A value of the union as the wire format can carry it: an integer in the range of int64
and uint64 together, a float of 64 bits, lengths below `2^32`. -/
def wellFormed : Value → Bool
  | .null => true
  | .bool _ => true
  | .int i => decide (-2 ^ 63 ≤ i ∧ i < 2 ^ 64)
  | .float bits => decide (bits < 2 ^ 64)
  | .str s => decide (s.length < 2 ^ 32)
  | .list xs => decide (xs.length < 2 ^ 32) && wellFormedList xs
  | .map kvs => decide (kvs.length < 2 ^ 32) && wellFormedMap kvs
/-- Every element is well formed. -/
def wellFormedList : List Value → Bool
  | [] => true
  | x :: xs => wellFormed x && wellFormedList xs
/-- Every key is shorter than `2^32` and every value is well formed. -/
def wellFormedMap : List (Bytes × Value) → Bool
  | [] => true
  | (k, v) :: kvs => decide (k.length < 2 ^ 32) && wellFormed v && wellFormedMap kvs
end

mutual
/-- The bound `decodeValue` needs to read back what `encodeValue v` wrote. -/
def need : Value → Nat
  | .null => 1
  | .bool _ => 1
  | .int _ => 1
  | .float _ => 1
  | .str _ => 1
  | .list xs => 1 + needList xs
  | .map kvs => 1 + needMap kvs
/-- The bound `decodeList` needs for the elements `xs`. -/
def needList : List Value → Nat
  | [] => 0
  | x :: xs => 1 + max (need x) (needList xs)
/-- The bound `decodeMap` needs for the entries `kvs`. -/
def needMap : List (Bytes × Value) → Nat
  | [] => 0
  | (_, v) :: kvs => 1 + max (max 1 (need v)) (needMap kvs)
end

/-- The reference instance of `Lib`. -/
def lib : Lib where
  Encode v enc := (enc ++ encodeValue v, none)
  DecodeInterface dec := decodeValue (2 * dec.length) dec
  Skip dec :=
    match decodeValue (2 * dec.length) dec with
    | (_, dec, err) => (dec, err)
  EncodeEventTime := EventTime.EncodeMsgpack
  DecodeEventTime := EventTime.DecodeMsgpack
  jsonMarshalValue v :=
    match marshalValue v with
    | some b => (b, none)
    | none => ([], some "json: unsupported value")
  ParseFloat := ParseFloat
  IsPrint _ := true

end wire

/-! ## marshal.go: `marshalFunc`; options.go -/

/-- `type marshalFunc func(*Message) ([]byte, error)`. -/
abbrev marshalFunc := Message → Result (Bytes × error)

/-- `func (f marshalFunc) Marshal(msg *Message) ([]byte, error)`. -/
def marshalFunc.Marshal (f : marshalFunc) (msg : Message) : Result (Bytes × error) := f msg

/-- The dynamic values the builders of options.go store in an option. -/
inductive OptionValue where
  | string (s : Bytes) : OptionValue
  | time (t : Time) : OptionValue
  | bool (b : Bool) : OptionValue
  | marshaler (f : marshalFunc) : OptionValue
  | value (v : Value) : OptionValue

/-- `type option struct { name string; value interface{} }`. -/
structure option where
  name : String
  value : OptionValue

/-- `func (o *option) Name() string`. -/
def option.Name (o : option) : String := o.name

/-- `func (o *option) Value() interface{}`. -/
def option.Value (o : option) : OptionValue := o.value

/-- `func WithNetwork(s string) Option`. -/
def WithNetwork (s : Bytes) : option := { name := "network", value := .string s }

/-- `func WithAddress(s string) Option`. -/
def WithAddress (s : Bytes) : option := { name := "address", value := .string s }

/-- `func WithTimestamp(t time.Time) Option`. -/
def WithTimestamp (t : Time) : option := { name := "timestamp", value := .time t }

/-- `func WithJSONMarshaler() Option`. -/
def WithJSONMarshaler (lib : Lib) : option :=
  { name := "marshaler", value := .marshaler (jsonMarshal lib) }

/-- `func WithMsgpackMarshaler() Option`. -/
def WithMsgpackMarshaler (lib : Lib) : option :=
  { name := "marshaler", value := .marshaler (fun m => .returned (msgpackMarshal lib m)) }

/-- `func WithTagPrefix(s string) Option`. -/
def WithTagPrefix (s : Bytes) : option := { name := "tag_prefix", value := .string s }

/-- `func WithSyncAppend(b bool) Option`. -/
def WithSyncAppend (b : Bool) : option := { name := "sync_append", value := .bool b }

/-- `func WithBufferLimit(v interface{}) Option`. -/
def WithBufferLimit (v : Value) : option := { name := "buffer_limit", value := .value v }

/-! ## The time field as the specification words it -/

/-- The time field in the words of the specification for the flag off, "a plain signed
64-bit integer": the MessagePack int 64 form, the code 0xd3 followed by the eight bytes of
the two's complement value, big-endian. -/
def specTimeInt64 (v : Int) : Bytes := codes.Int64 :: beBytes 8 (v % 2 ^ 64).toNat

/-! # Theorems -/

/-! ## The binary codec -/

theorem IsFixedArray_iff (c : Nat) : codes.IsFixedArray c = true ↔ 0x90 ≤ c ∧ c ≤ 0x9f := by
  simp [codes.IsFixedArray, codes.FixedArrayLow, codes.FixedArrayHigh]

theorem DecodeArrayLen_fixed (n : Nat) (rest : Decoder) (hn : n < 16) :
    DecodeArrayLen ((0x90 + n) :: rest) = ((n : Int), rest, none) := by
  have h1 : ¬ (0x90 + n = codes.Nil) := by simp [codes.Nil]; omega
  have h2 : 0x90 + n ≥ codes.FixedArrayLow ∧ 0x90 + n ≤ codes.FixedArrayHigh := by
    simp [codes.FixedArrayLow, codes.FixedArrayHigh]; omega
  have hmod : (0x90 + n) % 16 = n := by omega
  simp only [DecodeArrayLen, arrayLen, h1, h2, if_false, if_true, and_self, hmod]

theorem fmtDecimal_natCast (n : Nat) : fmtDecimal (n : Int) = Nat.repr n := by
  have : ¬ ((n : Int) < 0) := by omega
  simp [fmtDecimal, this, Nat.repr, List.asString]

/-- The start of `DecodeMsgpack` on a fixed-array header of length `n`. -/
theorem DecodeMsgpack_fixed_header (lib : Lib) (m : Message) (n : Nat) (rest : Decoder)
    (hn : n < 16) :
    DecodeMsgpack lib m ((0x90 + n) :: rest) =
      if n ≠ 4 then
        (m, rest, some ("expected tuple with 4 elements, got " ++ Nat.repr n))
      else
        match DecodeString rest with
        | (tag, dec, some err) =>
          ({ m with Tag := tag }, dec, errors.Wrap (some err) "failed to decode msgpack: tag")
        | (tag, dec, none) =>
          match PeekCode dec with
          | (_, some err) => ({ m with Tag := tag }, dec, errors.Wrap (some err) "failed to peek code")
          | (code, none) =>
            match decodeTime lib { m with Tag := tag } dec code with
            | (m, dec, some err) => (m, dec, some err)
            | (m, dec, none) => decodePayload lib m dec := by
  have h : codes.IsFixedArray (0x90 + n) = true := by
    rw [IsFixedArray_iff]; omega
  have hcast : ((n : Int) ≠ 4) ↔ n ≠ 4 := by omega
  simp only [DecodeMsgpack, PeekCode, h, Bool.not_true, Bool.false_eq_true, if_false,
    DecodeArrayLen_fixed n rest hn, hcast, errors.Errorf, fmtDecimal_natCast]

/-- Claim C1, as the code behaves: on an input whose first byte `c` is not a fixed-array
code (`c < 0x90` or `c > 0x9f`), `DecodeMsgpack` skips a value and returns
`errors.Wrap(err, "expected array")` with the nil `err` of `PeekCode`, which is nil: the
call reports success and leaves the receiver as it was. -/
theorem DecodeMsgpack_not_array_returns_nil (lib : Lib) (m : Message) (c : Nat) (rest : Decoder)
    (hc : c < 0x90 ∨ 0x9f < c) :
    DecodeMsgpack lib m (c :: rest) = (m, (lib.Skip (c :: rest)).1, none) := by
  have h : codes.IsFixedArray c = false := by
    rw [← Bool.not_eq_true, IsFixedArray_iff]; omega
  simp [DecodeMsgpack, PeekCode, h, errors.Wrap]

/-- The nil marker `0xc0` as the whole input: no error is returned. -/
theorem DecodeMsgpack_not_array_returns_nil_witness :
    (0xc0 < 0x90 ∨ 0x9f < 0xc0) ∧
    DecodeMsgpack wire.lib ⟨[], ⟨⟨0, 0⟩⟩, .null, .null, false⟩ [0xc0]
      = (⟨[], ⟨⟨0, 0⟩⟩, .null, .null, false⟩, (wire.lib.Skip [0xc0]).1, none) :=
  ⟨by decide, DecodeMsgpack_not_array_returns_nil _ _ _ _ (by decide)⟩

/-- Claim C5, as the code behaves: `DecodeMsgpack` stores each field into the receiver as
soon as it is decoded. On a 4-element header, the tag `"a"` and the nil code `0xc0` where
the time should be, the call returns an error and the receiver's tag is `"a"`, whatever it
was before; with a whole-second time 1 and then the unused code `0xc1` as record, the
call returns an error and tag and time are those of the input. -/
theorem DecodeMsgpack_partial_on_error (lib : Lib) (m : Message) :
    DecodeMsgpack lib m [0x94, 0xa1, 0x61, 0xc0]
      = ({ m with Tag := [0x61] }, [0xc0],
          some "expected ext8, fixedext8, or int64 for time: 11000000") ∧
    (DecodeMsgpack wire.lib m [0x94, 0xa1, 0x61, 0xce, 0, 0, 0, 1, 0xc1]).1.Tag = [0x61] ∧
    (DecodeMsgpack wire.lib m [0x94, 0xa1, 0x61, 0xce, 0, 0, 0, 1, 0xc1]).1.Time
      = { Time := { sec := 1, nsec := 0 } } ∧
    (DecodeMsgpack wire.lib m [0x94, 0xa1, 0x61, 0xce, 0, 0, 0, 1, 0xc1]).2.2
      = some ("failed to decode msgpack: record: " ++
          "msgpack: unknown code c1 decoding interface{}") := by
  refine ⟨?_, ?_, ?_, ?_⟩ <;> rfl

/-- Claim C6: on an input that starts with a fixed-array header of length `n`, `n` in
0..15 and not 4, `DecodeMsgpack` returns the error "expected tuple with 4 elements, got n"
with `n` in decimal; only the header byte has been read and the receiver is unchanged. -/
theorem DecodeMsgpack_length_rejected (lib : Lib) (m : Message) (n : Nat) (rest : Decoder)
    (hn : n < 16) (h4 : n ≠ 4) :
    DecodeMsgpack lib m ((0x90 + n) :: rest)
      = (m, rest, some ("expected tuple with 4 elements, got " ++ Nat.repr n)) := by
  rw [DecodeMsgpack_fixed_header lib m n rest hn, if_pos h4]

/-- A header for 3 elements. -/
theorem DecodeMsgpack_length_rejected_witness :
    (3 < 16) ∧ (3 ≠ 4) ∧
    DecodeMsgpack wire.lib ⟨[], ⟨⟨0, 0⟩⟩, .null, .null, false⟩ [0x93, 0xa1, 0x61, 0xce, 0, 0, 0, 1, 0xc0]
      = (⟨[], ⟨⟨0, 0⟩⟩, .null, .null, false⟩, [0xa1, 0x61, 0xce, 0, 0, 0, 1, 0xc0],
          some "expected tuple with 4 elements, got 3") :=
  ⟨by decide, by decide, DecodeMsgpack_length_rejected wire.lib _ 3 _ (by decide) (by decide)⟩


theorem timeCase_extension_iff (c : Nat) : timeCase c = .extension ↔ (c = 0xc7 ∨ c = 0xd7) := by
  unfold timeCase codes.Ext8 codes.FixExt8 codes.Uint32 codes.Int64
  constructor
  · intro h
    by_contra hc
    rw [if_neg hc] at h
    split at h <;> simp at h
  · intro h
    rw [if_pos h]

theorem timeCase_integer_iff (c : Nat) : timeCase c = .integer ↔ (c = 0xce ∨ c = 0xd3) := by
  unfold timeCase codes.Ext8 codes.FixExt8 codes.Uint32 codes.Int64
  constructor
  · intro h
    split at h
    · simp at h
    · by_contra hc
      rw [if_neg hc] at h
      simp at h
  · intro h
    have : ¬ (c = 0xc7 ∨ c = 0xd7) := by omega
    rw [if_neg this, if_pos h]

theorem decodePayload_flag (lib : Lib) (m : Message) (b : Bool) (dec : Decoder) :
    decodePayload lib { m with subsecond := b } dec =
      ({ (decodePayload lib m dec).1 with subsecond := b }, (decodePayload lib m dec).2) := by
  unfold decodePayload
  rcases h1 : lib.DecodeInterface dec with ⟨r, d, _ | e⟩
  · simp only []
    rcases h2 : lib.DecodeInterface d with ⟨o, d2, _ | e2⟩ <;> rfl
  · rfl

theorem decodeTime_flag (lib : Lib) (m : Message) (b : Bool) (dec : Decoder) (code : Nat) :
    decodeTime lib { m with subsecond := b } dec code =
      ({ (decodeTime lib m dec code).1 with subsecond := b }, (decodeTime lib m dec code).2) := by
  unfold decodeTime
  cases timeCase code
  · rfl
  · simp only []
    rcases h : DecodeInt64 dec with ⟨t, d, _ | e⟩ <;> rfl
  · rfl

theorem DecodeMsgpack_flag (lib : Lib) (m : Message) (b : Bool) (dec : Decoder) :
    DecodeMsgpack lib { m with subsecond := b } dec =
      ({ (DecodeMsgpack lib m dec).1 with subsecond := b }, (DecodeMsgpack lib m dec).2) := by
  unfold DecodeMsgpack
  rcases h0 : PeekCode dec with ⟨code, _ | e⟩
  · simp only []
    cases hfa : codes.IsFixedArray code
    · rfl
    · simp only [Bool.not_true, Bool.false_eq_true, if_false]
      rcases h1 : DecodeArrayLen dec with ⟨l, d1, _ | e1⟩
      · simp only []
        by_cases hl : l ≠ 4
        · simp only [if_pos hl]
        · simp only [if_neg hl]
          rcases h2 : DecodeString d1 with ⟨tag, d2, _ | e2⟩
          · simp only []
            rcases h3 : PeekCode d2 with ⟨code2, _ | e3⟩
            · simp only []
              have := decodeTime_flag lib { m with Tag := tag } b d2 code2
              simp only [] at this
              rw [this]
              rcases h4 : decodeTime lib { m with Tag := tag } d2 code2 with ⟨m4, d4, _ | e4⟩
              · simp only []
                exact decodePayload_flag lib m4 b d4
              · rfl
            · rfl
          · rfl
      · rfl
  · rfl


theorem decodeTime_extension (lib : Lib) (m : Message) (dec : Decoder) (code : Nat)
    (h : timeCase code = .extension) :
    decodeTime lib m dec code =
      ({ m with Time := (lib.DecodeEventTime m.Time dec).1 }, (lib.DecodeEventTime m.Time dec).2.1,
        errors.Wrap (lib.DecodeEventTime m.Time dec).2.2
          "failed to decode msgpack: time (EventTime)") := by
  unfold decodeTime
  rw [h]

theorem decodeTime_integer (lib : Lib) (m : Message) (dec : Decoder) (code : Nat)
    (h : timeCase code = .integer) :
    decodeTime lib m dec code =
      match DecodeInt64 dec with
      | (_, dec, some err) => (m, dec, errors.Wrap (some err) "failed to decode msgpack: time")
      | (t, dec, none) => ({ m with Time := { m.Time with Time := time.Unix t } }, dec, none) := by
  unfold decodeTime
  rw [h]

theorem decodeTime_unknown (lib : Lib) (m : Message) (dec : Decoder) (code : Nat)
    (h : timeCase code = .unknown) :
    decodeTime lib m dec code =
      (m, dec, some ("expected ext8, fixedext8, or int64 for time: " ++ fmtBinary code)) := by
  unfold decodeTime
  rw [h]
  rfl

/-- Claim C7: after a 4-element header and a tag that `DecodeString` decodes, with `c` the
next byte, the `switch` takes the extension case exactly for `c` = 0xc7 or 0xd7 and the
integer case exactly for `c` = 0xce or 0xd3; the time decoder of the case taken receives
the input with `c` still unread; for every other `c` the call returns an error that
carries `c` (in binary digits), the time field is not touched and nothing past the tag
has been read. -/
theorem DecodeMsgpack_time_dispatch (lib : Lib) (m : Message) (dec : Decoder) (tag : Bytes)
    (c : Nat) (rest : Decoder) (htag : DecodeString dec = (tag, c :: rest, none)) :
    (timeCase c = .extension ↔ (c = 0xc7 ∨ c = 0xd7)) ∧
    (timeCase c = .integer ↔ (c = 0xce ∨ c = 0xd3)) ∧
    DecodeMsgpack lib m (0x94 :: dec) =
      (match timeCase c with
       | .extension =>
         match lib.DecodeEventTime m.Time (c :: rest) with
         | (t, dec, some err) =>
           ({ m with Tag := tag, Time := t }, dec,
             errors.Wrap (some err) "failed to decode msgpack: time (EventTime)")
         | (t, dec, none) => decodePayload lib { m with Tag := tag, Time := t } dec
       | .integer =>
         match DecodeInt64 (c :: rest) with
         | (_, dec, some err) =>
           ({ m with Tag := tag }, dec, errors.Wrap (some err) "failed to decode msgpack: time")
         | (t, dec, none) =>
           decodePayload lib { m with Tag := tag, Time := { Time := time.Unix t } } dec
       | .unknown =>
         ({ m with Tag := tag }, c :: rest,
           some ("expected ext8, fixedext8, or int64 for time: " ++ fmtBinary c))) := by
  refine ⟨timeCase_extension_iff c, timeCase_integer_iff c, ?_⟩
  have h := DecodeMsgpack_fixed_header lib m 4 dec (by decide)
  simp only [ne_eq, not_true_eq_false, if_false, htag, PeekCode] at h
  rw [show (0x94 : Nat) = 0x90 + 4 from rfl, h]
  cases hc : timeCase c
  · rw [decodeTime_extension _ _ _ _ hc]
    generalize lib.DecodeEventTime m.Time (c :: rest) = r
    rcases r with ⟨t, d, _ | e⟩ <;> rfl
  · rw [decodeTime_integer _ _ _ _ hc]
    generalize DecodeInt64 (c :: rest) = r
    rcases r with ⟨t, d, _ | e⟩ <;> rfl
  · rw [decodeTime_unknown _ _ _ _ hc]

/-- The tag `"a"` followed by the nil code. -/
theorem DecodeMsgpack_time_dispatch_witness :
    DecodeString [0xa1, 0x61, 0xc0] = ([0x61], [0xc0], none) ∧
    (timeCase 0xc0 = .extension ↔ (0xc0 = 0xc7 ∨ 0xc0 = 0xd7)) ∧
    (timeCase 0xc0 = .integer ↔ (0xc0 = 0xce ∨ 0xc0 = 0xd3)) ∧
    DecodeMsgpack wire.lib ⟨[], ⟨⟨0, 0⟩⟩, .null, .null, false⟩ [0x94, 0xa1, 0x61, 0xc0] =
      (⟨[0x61], ⟨⟨0, 0⟩⟩, .null, .null, false⟩, [0xc0],
        some ("expected ext8, fixedext8, or int64 for time: " ++ fmtBinary 0xc0)) :=
  ⟨by decide,
    DecodeMsgpack_time_dispatch wire.lib ⟨[], ⟨⟨0, 0⟩⟩, .null, .null, false⟩
      [0xa1, 0x61, 0xc0] [0x61] 0xc0 [] (by decide)⟩

theorem readUint_cons4 (b1 b2 b3 b4 : Nat) (rest : Decoder) :
    readUint 4 (b1 :: b2 :: b3 :: b4 :: rest) = (beUint [b1, b2, b3, b4], rest, none) := by
  simp [readUint, readN]

theorem readUint_cons8 (b1 b2 b3 b4 b5 b6 b7 b8 : Nat) (rest : Decoder) :
    readUint 8 (b1 :: b2 :: b3 :: b4 :: b5 :: b6 :: b7 :: b8 :: rest)
      = (beUint [b1, b2, b3, b4, b5, b6, b7, b8], rest, none) := by
  simp [readUint, readN]

/-- Claim C10: `DecodeMsgpack` never reads the high-precision flag. Two receivers that
differ only in the flag get the same error or success, the same decoder position and the
same tag, time, record and option (the flag itself stays what it was). In particular an
integer-tagged time field (codes 0xce, 0xd3) is accepted whatever the flag, and an
extension-tagged one (codes 0xc7, 0xd7) is accepted exactly when the `EventTime` decoder
accepts it, whatever the flag. -/
theorem DecodeMsgpack_flag_independent (lib : Lib) (m : Message) (b : Bool) (dec : Decoder) :
    DecodeMsgpack lib { m with subsecond := b } dec =
      ({ (DecodeMsgpack lib m dec).1 with subsecond := b }, (DecodeMsgpack lib m dec).2) ∧
    (∀ b1 b2 b3 b4 rest,
      (decodeTime lib { m with subsecond := b } (0xce :: b1 :: b2 :: b3 :: b4 :: rest) 0xce).2
        = (rest, none)) ∧
    (∀ b1 b2 b3 b4 b5 b6 b7 b8 rest,
      (decodeTime lib { m with subsecond := b }
        (0xd3 :: b1 :: b2 :: b3 :: b4 :: b5 :: b6 :: b7 :: b8 :: rest) 0xd3).2 = (rest, none)) ∧
    ((decodeTime lib { m with subsecond := b } dec 0xc7).2.2 = none ↔
      (lib.DecodeEventTime m.Time dec).2.2 = none) ∧
    ((decodeTime lib { m with subsecond := b } dec 0xd7).2.2 = none ↔
      (lib.DecodeEventTime m.Time dec).2.2 = none) := by
  have hext : ∀ code, timeCase code = .extension →
      ((decodeTime lib { m with subsecond := b } dec code).2.2 = none ↔
        (lib.DecodeEventTime m.Time dec).2.2 = none) := by
    intro code hc
    rw [decodeTime_extension _ _ _ _ hc]
    show errors.Wrap (lib.DecodeEventTime m.Time dec).2.2 _ = none ↔ _
    generalize (lib.DecodeEventTime m.Time dec).2.2 = r
    rcases r with _ | e <;> simp [errors.Wrap]
  refine ⟨DecodeMsgpack_flag lib m b dec, ?_, ?_, hext _ (by decide), hext _ (by decide)⟩
  · intro b1 b2 b3 b4 rest
    have hc : timeCase 0xce = .integer := by decide
    have hd : DecodeInt64 (0xce :: b1 :: b2 :: b3 :: b4 :: rest)
        = (((beUint [b1, b2, b3, b4] : Nat) : Int), rest, none) := by
      simp [DecodeInt64, decodeInt, codes.Nil, codes.IsFixedNum, codes.PosFixedNumHigh,
        codes.NegFixedNumLow, codes.Uint8, codes.Int8, codes.Uint16, codes.Int16, codes.Uint32,
        readUint_cons4]
    rw [decodeTime_integer _ _ _ _ hc, hd]
  · intro b1 b2 b3 b4 b5 b6 b7 b8 rest
    have hc : timeCase 0xd3 = .integer := by decide
    have hd : DecodeInt64 (0xd3 :: b1 :: b2 :: b3 :: b4 :: b5 :: b6 :: b7 :: b8 :: rest)
        = (toSigned 8 (beUint [b1, b2, b3, b4, b5, b6, b7, b8]), rest, none) := by
      simp [DecodeInt64, decodeInt, codes.Nil, codes.IsFixedNum, codes.PosFixedNumHigh,
        codes.NegFixedNumLow, codes.Uint8, codes.Int8, codes.Uint16, codes.Int16, codes.Uint32,
        codes.Int32, codes.Uint64, codes.Int64, readUint_cons8]
    rw [decodeTime_integer _ _ _ _ hc, hd]

theorem beBytes_length (n v : Nat) : (beBytes n v).length = n := by
  induction n generalizing v with
  | zero => rfl
  | succ n ih => simp [beBytes, ih]

theorem beUint_append_one (bs : Bytes) (b : Nat) : beUint (bs ++ [b]) = beUint bs * 256 + b := by
  simp [beUint, List.foldl_append]

theorem beUint_beBytes (n v : Nat) : beUint (beBytes n v) = v % 256 ^ n := by
  induction n generalizing v with
  | zero => simp [beBytes, beUint, Nat.mod_one]
  | succ n ih =>
    rw [beBytes, beUint_append_one, ih, pow_succ, Nat.mul_comm (256 ^ n) 256, Nat.mod_mul]
    ring

theorem readN_append (s rest : Bytes) : readN s.length (s ++ rest) = (some s, rest, none) := by
  simp [readN]

theorem readUint_beBytes (n v : Nat) (rest : Decoder) :
    readUint n (beBytes n v ++ rest) = (v % 256 ^ n, rest, none) := by
  have h := readN_append (beBytes n v) rest
  rw [beBytes_length] at h
  simp only [readUint, h, beUint_beBytes]

theorem readUint_beBytes_lt (n v : Nat) (rest : Decoder) (hv : v < 256 ^ n) :
    readUint n (beBytes n v ++ rest) = (v, rest, none) := by
  rw [readUint_beBytes, Nat.mod_eq_of_lt hv]

theorem EncodeString_append (s : Bytes) (enc : Encoder) :
    EncodeString s enc = (enc ++ (EncodeString s []).1, none) := by
  unfold EncodeString
  simp only []
  split_ifs <;> simp

theorem DecodeString_EncodeString (s : Bytes) (rest : Decoder) (hs : s.length < 2 ^ 32) :
    DecodeString ((EncodeString s []).1 ++ rest) = (s, rest, none) := by
  have hne : ¬ (((s.length : Nat) : Int) = -1) := by omega
  unfold EncodeString
  simp only []
  split_ifs with h1 h2 h3
  · have hc1 : ¬ (codes.FixedStrLow + s.length = codes.Nil) := by
      simp [codes.FixedStrLow, codes.Nil]; omega
    have hc2 : codes.IsFixedString (codes.FixedStrLow + s.length) = true := by
      simp [codes.IsFixedString, codes.FixedStrLow, codes.FixedStrHigh]; omega
    have hmod : (codes.FixedStrLow + s.length) % 32 = s.length := by
      simp [codes.FixedStrLow]; omega
    simp only [List.nil_append, List.cons_append, DecodeString, bytesLen, hc1, hc2, if_false,
      if_true, hmod, hne, Int.toNat_ofNat, readN_append]
  · have hr := readUint_beBytes_lt 1 s.length (s ++ rest) (by omega)
    have hc1 : ¬ (codes.Str8 = codes.Nil) := by decide
    have hc2 : codes.IsFixedString codes.Str8 = false := by decide
    simp only [List.nil_append, List.cons_append, List.append_assoc, DecodeString, bytesLen, hc1,
      hc2, if_false, true_or, if_true, hr, hne, Int.toNat_ofNat, readN_append,
      Bool.false_eq_true]
  · have hr := readUint_beBytes_lt 2 s.length (s ++ rest) (by omega)
    have hc1 : ¬ (codes.Str16 = codes.Nil) := by decide
    have hc2 : codes.IsFixedString codes.Str16 = false := by decide
    have hc3 : ¬ (codes.Str16 = codes.Str8 ∨ codes.Str16 = codes.Bin8) := by decide
    simp only [List.nil_append, List.cons_append, List.append_assoc, DecodeString, bytesLen, hc1,
      hc2, hc3, if_false, true_or, if_true, hr, hne, Int.toNat_ofNat, readN_append,
      Bool.false_eq_true]
  · have hr := readUint_beBytes_lt 4 s.length (s ++ rest) (by omega)
    have hc1 : ¬ (codes.Str32 = codes.Nil) := by decide
    have hc2 : codes.IsFixedString codes.Str32 = false := by decide
    have hc3 : ¬ (codes.Str32 = codes.Str8 ∨ codes.Str32 = codes.Bin8) := by decide
    have hc4 : ¬ (codes.Str32 = codes.Str16 ∨ codes.Str32 = codes.Bin16) := by decide
    simp only [List.nil_append, List.cons_append, List.append_assoc, DecodeString, bytesLen, hc1,
      hc2, hc3, hc4, if_false, true_or, if_true, hr, hne, Int.toNat_ofNat, readN_append,
      Bool.false_eq_true]


theorem toInt64_of_range (t : Int) (h1 : -2 ^ 63 ≤ t) (h2 : t < 2 ^ 63) : toInt64 t = t := by
  unfold toInt64
  omega

theorem DecodeInt64_Uint32 (dec : Decoder) :
    DecodeInt64 (codes.Uint32 :: dec) =
      (((readUint 4 dec).1 : Int), (readUint 4 dec).2.1, (readUint 4 dec).2.2) := by
  rfl

theorem DecodeInt64_Int64 (dec : Decoder) :
    DecodeInt64 (codes.Int64 :: dec) =
      (toSigned 8 (readUint 8 dec).1, (readUint 8 dec).2.1, (readUint 8 dec).2.2) := by
  rfl

/-- The integer time field: what `EncodeInt64` writes for a second count in the two accepted
ranges starts with a code of the integer case and is read back by `DecodeInt64`. -/
theorem timeField_roundtrip (t : Int)
    (ht : (65536 ≤ t ∧ t ≤ 4294967295) ∨ (-2 ^ 63 ≤ t ∧ t < -2147483648)) :
    ∃ c tl, (∀ enc, EncodeInt64 t enc = (enc ++ c :: tl, none)) ∧ timeCase c = .integer ∧
      ∀ rest, DecodeInt64 (c :: tl ++ rest) = (t, rest, none) := by
  rcases ht with ⟨h1, h2⟩ | ⟨h1, h2⟩
  · refine ⟨codes.Uint32, beBytes 4 t.toNat, ?_, by decide, ?_⟩
    · intro enc
      have e1 : t ≥ 0 := by omega
      have e2 : ¬ (t.toNat ≤ 127) := by omega
      have e3 : ¬ (t.toNat ≤ 255) := by omega
      have e4 : ¬ (t.toNat ≤ 65535) := by omega
      have e5 : t.toNat ≤ 4294967295 := by omega
      simp only [EncodeInt64, EncodeUint64, e1, e2, e3, e4, e5, if_true, if_false]
    · intro rest
      have hr := readUint_beBytes_lt 4 t.toNat rest (by omega)
      have hcast : ((t.toNat : Nat) : Int) = t := by omega
      rw [List.cons_append, DecodeInt64_Uint32, hr, hcast]
  · refine ⟨codes.Int64, beBytes 8 (t % 2 ^ 64).toNat, ?_, by decide, ?_⟩
    · intro enc
      have e1 : ¬ (t ≥ 0) := by omega
      have e2 : ¬ (t ≥ -32) := by omega
      have e3 : ¬ (t ≥ -128) := by omega
      have e4 : ¬ (t ≥ -32768) := by omega
      have e5 : ¬ (t ≥ -2147483648) := by omega
      simp only [EncodeInt64, e1, e2, e3, e4, e5, if_false]
    · intro rest
      have hlt : (t % 2 ^ 64).toNat < 256 ^ 8 := by omega
      have hr := readUint_beBytes_lt 8 (t % 2 ^ 64).toNat rest hlt
      have hs : toSigned 8 (t % 2 ^ 64).toNat = t := by
        unfold toSigned
        have hm : (t % 2 ^ 64).toNat % 2 ^ (8 * 8) = (t % 2 ^ 64).toNat :=
          Nat.mod_eq_of_lt (by omega)
        rw [hm]
        split_ifs with hlt2
        · omega
        · omega
      rw [List.cons_append, DecodeInt64_Int64, hr, hs]

theorem EncodeMsgpack_seconds (lib : Lib) (m : Message) (c : Nat) (tl rb ob : Bytes)
    (hflag : m.subsecond = false)
    (ht : ∀ enc, EncodeInt64 m.Time.Time.Unix enc = (enc ++ c :: tl, none))
    (hrec : ∀ enc, lib.Encode m.Record enc = (enc ++ rb, none))
    (hopt : ∀ enc, lib.Encode m.Option enc = (enc ++ ob, none)) :
    msgpackMarshal lib m =
      (0x94 :: ((EncodeString m.Tag []).1 ++ (c :: tl ++ (rb ++ ob))), none) := by
  have h1 : EncodeArrayLen 4 [] = ([0x94], none) := rfl
  simp only [msgpackMarshal, EncodeMsgpack, h1, EncodeString_append m.Tag [0x94], hflag,
    Bool.false_eq_true, if_false, ht, errors.Wrap, hrec, hopt, List.append_assoc,
    List.cons_append, List.nil_append]

/-- Where the binary round trip does hold with the flag off: for a tag shorter than
`2^32` bytes, a time of whole seconds `t` with `65536 ≤ t ≤ 2^32 - 1` or
`-2^63 ≤ t < -2^31` (the second counts `EncodeInt64` writes with the codes 0xce and 0xd3,
the two integer codes the switch of `DecodeMsgpack` lists), and a record and an option
that the generic codec reproduces, `msgpackMarshal` succeeds and `DecodeMsgpack` on its
output succeeds, reads all of it and yields the same tag, time, record and option; the
receiver keeps its own flag. -/
theorem msgpack_roundtrip_seconds (lib : Lib) (m recv : Message)
    (hflag : m.subsecond = false)
    (hnsec : m.Time.Time.nsec = 0)
    (ht : (65536 ≤ m.Time.Time.sec ∧ m.Time.Time.sec ≤ 4294967295) ∨
      (-2 ^ 63 ≤ m.Time.Time.sec ∧ m.Time.Time.sec < -2147483648))
    (htag : m.Tag.length < 2 ^ 32)
    (hrec : lib.RoundTrips m.Record) (hopt : lib.RoundTrips m.Option) :
    (msgpackMarshal lib m).2 = none ∧
    DecodeMsgpack lib recv (msgpackMarshal lib m).1 =
      ({ m with subsecond := recv.subsecond }, [], none) := by
  obtain ⟨c, tl, henc, hcase, hdec⟩ := timeField_roundtrip m.Time.Time.sec ht
  obtain ⟨rb, hrenc, hrdec⟩ := hrec
  obtain ⟨ob, hoenc, hodec⟩ := hopt
  rw [EncodeMsgpack_seconds lib m c tl rb ob hflag henc hrenc hoenc]
  refine ⟨rfl, ?_⟩
  have hunix : time.Unix m.Time.Time.sec = m.Time.Time := by
    have hr : toInt64 m.Time.Time.sec = m.Time.Time.sec :=
      toInt64_of_range _ (by omega) (by omega)
    rcases m with ⟨tag, ⟨⟨sec, nsec⟩⟩, r, o, f⟩
    simp only [time.Unix] at hr hnsec ⊢
    rw [hr, hnsec]
  have hhead := DecodeMsgpack_fixed_header lib recv 4
    ((EncodeString m.Tag []).1 ++ (c :: tl ++ (rb ++ ob))) (by decide)
  simp only [ne_eq, not_true_eq_false, if_false, DecodeString_EncodeString m.Tag _ htag,
    PeekCode, List.cons_append] at hhead
  rw [decodeTime_integer _ _ _ _ hcase] at hhead
  have hdec2 := hdec (rb ++ ob)
  rw [List.cons_append] at hdec2
  simp only [hdec2, decodePayload, hrdec] at hhead
  have hodec2 := hodec []
  rw [List.append_nil] at hodec2
  simp only [hodec2, hunix] at hhead
  exact hhead


/-! ## The reference instance reproduces every well-formed value -/

namespace wire

theorem decodeValue_fixnum (f c : Nat) (dec : Decoder) (h : c ≤ 0x7f ∨ 0xe0 ≤ c) :
    decodeValue (f + 1) (c :: dec) = (.int (toSigned 1 c), dec, none) := by
  have h1 : codes.IsFixedNum c = true := by
    simp [codes.IsFixedNum, codes.PosFixedNumHigh, codes.NegFixedNumLow]; omega
  simp only [decodeValue, h1, if_true]

theorem decodeValue_fixmap (f c : Nat) (dec : Decoder) (h : 0x80 ≤ c ∧ c ≤ 0x8f) :
    decodeValue (f + 1) (c :: dec) =
      (.map (decodeMap f (c % 16) dec).1, (decodeMap f (c % 16) dec).2) := by
  have h1 : codes.IsFixedNum c = false := by
    simp [codes.IsFixedNum, codes.PosFixedNumHigh, codes.NegFixedNumLow]; omega
  have h2 : c ≥ FixedMapLow ∧ c ≤ FixedMapHigh := by
    simp [FixedMapLow, FixedMapHigh]; omega
  simp only [decodeValue, h1, h2, Bool.false_eq_true, if_false, and_self, if_true]

theorem decodeValue_fixarray (f c : Nat) (dec : Decoder) (h : 0x90 ≤ c ∧ c ≤ 0x9f) :
    decodeValue (f + 1) (c :: dec) =
      (.list (decodeList f (c % 16) dec).1, (decodeList f (c % 16) dec).2) := by
  have h1 : codes.IsFixedNum c = false := by
    simp [codes.IsFixedNum, codes.PosFixedNumHigh, codes.NegFixedNumLow]; omega
  have h2 : ¬ (c ≥ FixedMapLow ∧ c ≤ FixedMapHigh) := by
    simp [FixedMapLow, FixedMapHigh]; omega
  have h3 : codes.IsFixedArray c = true := by
    rw [IsFixedArray_iff]; omega
  simp only [decodeValue, h1, h2, h3, Bool.false_eq_true, if_false, if_true]

theorem decodeValue_string (f c : Nat) (dec : Decoder)
    (h : (0xa0 ≤ c ∧ c ≤ 0xbf) ∨ c = 0xd9 ∨ c = 0xda ∨ c = 0xdb) :
    decodeValue (f + 1) (c :: dec) =
      (.str (DecodeString (c :: dec)).1, (DecodeString (c :: dec)).2) := by
  have h1 : codes.IsFixedNum c = false := by
    simp [codes.IsFixedNum, codes.PosFixedNumHigh, codes.NegFixedNumLow]; omega
  have h2 : ¬ (c ≥ FixedMapLow ∧ c ≤ FixedMapHigh) := by
    simp [FixedMapLow, FixedMapHigh]; omega
  have h3 : codes.IsFixedArray c = false := by
    rw [← Bool.not_eq_true, IsFixedArray_iff]; omega
  have h4 : codes.IsFixedString c = true ∨ c = codes.Str8 ∨ c = codes.Str16 ∨ c = codes.Str32 := by
    simp [codes.IsFixedString, codes.FixedStrLow, codes.FixedStrHigh, codes.Str8, codes.Str16,
      codes.Str32]
    omega
  simp only [decodeValue, h1, h2, h3, h4, Bool.false_eq_true, if_false, if_true]

theorem decodeValue_nil (f : Nat) (dec : Decoder) :
    decodeValue (f + 1) (codes.Nil :: dec) = (.null, dec, none) := by
  rfl

theorem decodeValue_bool (f : Nat) (b : Bool) (dec : Decoder) :
    decodeValue (f + 1) ((if b then codes.True else codes.False) :: dec) = (.bool b, dec, none) := by
  cases b <;> rfl

theorem decodeValue_double (f : Nat) (dec : Decoder) :
    decodeValue (f + 1) (codes.Double :: dec) = (.float (readUint 8 dec).1, (readUint 8 dec).2) := by
  rfl

theorem decodeValue_uint (f : Nat) (dec : Decoder) :
    decodeValue (f + 1) (codes.Uint8 :: dec) = (.int (readUint 1 dec).1, (readUint 1 dec).2) ∧
    decodeValue (f + 1) (codes.Uint16 :: dec) = (.int (readUint 2 dec).1, (readUint 2 dec).2) ∧
    decodeValue (f + 1) (codes.Uint32 :: dec) = (.int (readUint 4 dec).1, (readUint 4 dec).2) ∧
    decodeValue (f + 1) (codes.Uint64 :: dec) = (.int (readUint 8 dec).1, (readUint 8 dec).2) := by
  refine ⟨?_, ?_, ?_, ?_⟩ <;> rfl

theorem decodeValue_int (f : Nat) (dec : Decoder) :
    decodeValue (f + 1) (codes.Int8 :: dec)
      = (.int (toSigned 1 (readUint 1 dec).1), (readUint 1 dec).2) ∧
    decodeValue (f + 1) (codes.Int16 :: dec)
      = (.int (toSigned 2 (readUint 2 dec).1), (readUint 2 dec).2) ∧
    decodeValue (f + 1) (codes.Int32 :: dec)
      = (.int (toSigned 4 (readUint 4 dec).1), (readUint 4 dec).2) ∧
    decodeValue (f + 1) (codes.Int64 :: dec)
      = (.int (toSigned 8 (readUint 8 dec).1), (readUint 8 dec).2) := by
  refine ⟨?_, ?_, ?_, ?_⟩ <;> rfl

theorem decodeValue_array16 (f : Nat) (dec : Decoder) :
    decodeValue (f + 1) (codes.Array16 :: dec) =
      match readUint 2 dec with
      | (_, dec, some err) => (.null, dec, some err)
      | (n, dec, none) => (.list (decodeList f n dec).1, (decodeList f n dec).2) := by
  rfl

theorem decodeValue_array32 (f : Nat) (dec : Decoder) :
    decodeValue (f + 1) (codes.Array32 :: dec) =
      match readUint 4 dec with
      | (_, dec, some err) => (.null, dec, some err)
      | (n, dec, none) => (.list (decodeList f n dec).1, (decodeList f n dec).2) := by
  rfl

theorem decodeValue_map16 (f : Nat) (dec : Decoder) :
    decodeValue (f + 1) (Map16 :: dec) =
      match readUint 2 dec with
      | (_, dec, some err) => (.null, dec, some err)
      | (n, dec, none) => (.map (decodeMap f n dec).1, (decodeMap f n dec).2) := by
  rfl

theorem decodeValue_map32 (f : Nat) (dec : Decoder) :
    decodeValue (f + 1) (Map32 :: dec) =
      match readUint 4 dec with
      | (_, dec, some err) => (.null, dec, some err)
      | (n, dec, none) => (.map (decodeMap f n dec).1, (decodeMap f n dec).2) := by
  rfl

theorem decodeValue_encode_int (f : Nat) (i : Int) (rest : Decoder)
    (h1 : -2 ^ 63 ≤ i) (h2 : i < 2 ^ 64) :
    decodeValue (f + 1) (encodeValue (.int i) ++ rest) = (.int i, rest, none) := by
  simp only [encodeValue]
  by_cases hpos : i ≥ 0
  · have hcast : ((i.toNat : Nat) : Int) = i := by omega
    simp only [hpos, if_true, EncodeUint64]
    split_ifs with a1 a2 a3 a4
    · simp only [List.nil_append, List.cons_append]
      rw [decodeValue_fixnum _ _ _ (Or.inl a1)]
      have : toSigned 1 i.toNat = i := by
        unfold toSigned
        have hm : i.toNat % 2 ^ (8 * 1) = i.toNat := Nat.mod_eq_of_lt (by omega)
        rw [hm]
        split_ifs <;> omega
      rw [this]
    · simp only [List.nil_append, List.cons_append]
      rw [(decodeValue_uint f _).1, readUint_beBytes_lt 1 _ _ (by omega), hcast]
    · simp only [List.nil_append, List.cons_append]
      rw [(decodeValue_uint f _).2.1, readUint_beBytes_lt 2 _ _ (by omega), hcast]
    · simp only [List.nil_append, List.cons_append]
      rw [(decodeValue_uint f _).2.2.1, readUint_beBytes_lt 4 _ _ (by omega), hcast]
    · simp only [List.nil_append, List.cons_append]
      rw [(decodeValue_uint f _).2.2.2, readUint_beBytes_lt 8 _ _ (by omega), hcast]
  · simp only [hpos, if_false, EncodeInt64]
    split_ifs with a1 a2 a3 a4
    · simp only [List.nil_append, List.cons_append]
      rw [decodeValue_fixnum _ _ _ (Or.inr (by omega))]
      have : toSigned 1 (i % 256).toNat = i := by
        unfold toSigned
        have hm : (i % 256).toNat % 2 ^ (8 * 1) = (i % 256).toNat :=
          Nat.mod_eq_of_lt (by omega)
        rw [hm]
        split_ifs <;> omega
      rw [this]
    · simp only [List.nil_append, List.cons_append]
      rw [(decodeValue_int f _).1, readUint_beBytes]
      have : toSigned 1 ((i % 2 ^ 64).toNat % 256 ^ 1) = i := by
        unfold toSigned
        have hm : (i % 2 ^ 64).toNat % 256 ^ 1 % 2 ^ (8 * 1) = (i % 2 ^ 64).toNat % 256 ^ 1 :=
          Nat.mod_eq_of_lt (by omega)
        rw [hm]
        split_ifs <;> omega
      rw [this]
    · simp only [List.nil_append, List.cons_append]
      rw [(decodeValue_int f _).2.1, readUint_beBytes]
      have : toSigned 2 ((i % 2 ^ 64).toNat % 256 ^ 2) = i := by
        unfold toSigned
        have hm : (i % 2 ^ 64).toNat % 256 ^ 2 % 2 ^ (8 * 2) = (i % 2 ^ 64).toNat % 256 ^ 2 :=
          Nat.mod_eq_of_lt (by omega)
        rw [hm]
        split_ifs <;> omega
      rw [this]
    · simp only [List.nil_append, List.cons_append]
      rw [(decodeValue_int f _).2.2.1, readUint_beBytes]
      have : toSigned 4 ((i % 2 ^ 64).toNat % 256 ^ 4) = i := by
        unfold toSigned
        have hm : (i % 2 ^ 64).toNat % 256 ^ 4 % 2 ^ (8 * 4) = (i % 2 ^ 64).toNat % 256 ^ 4 :=
          Nat.mod_eq_of_lt (by omega)
        rw [hm]
        split_ifs <;> omega
      rw [this]
    · simp only [List.nil_append, List.cons_append]
      rw [(decodeValue_int f _).2.2.2, readUint_beBytes]
      have : toSigned 8 ((i % 2 ^ 64).toNat % 256 ^ 8) = i := by
        unfold toSigned
        have hm : (i % 2 ^ 64).toNat % 256 ^ 8 % 2 ^ (8 * 8) = (i % 2 ^ 64).toNat % 256 ^ 8 :=
          Nat.mod_eq_of_lt (by omega)
        rw [hm]
        split_ifs <;> omega
      rw [this]

theorem EncodeString_head (s : Bytes) :
    ∃ c tl, (EncodeString s []).1 = c :: tl ∧
      ((0xa0 ≤ c ∧ c ≤ 0xbf) ∨ c = 0xd9 ∨ c = 0xda ∨ c = 0xdb) := by
  unfold EncodeString
  simp only []
  split_ifs with h1 h2 h3
  · exact ⟨_, _, rfl, Or.inl (by simp [codes.FixedStrLow]; omega)⟩
  · exact ⟨_, _, rfl, Or.inr (Or.inl rfl)⟩
  · exact ⟨_, _, rfl, Or.inr (Or.inr (Or.inl rfl))⟩
  · exact ⟨_, _, rfl, Or.inr (Or.inr (Or.inr rfl))⟩

theorem decodeValue_encode_str (f : Nat) (s : Bytes) (rest : Decoder) (hs : s.length < 2 ^ 32) :
    decodeValue (f + 1) ((EncodeString s []).1 ++ rest) = (.str s, rest, none) := by
  obtain ⟨c, tl, hc, hcode⟩ := EncodeString_head s
  have hd := DecodeString_EncodeString s rest hs
  rw [hc] at hd ⊢
  rw [List.cons_append] at hd ⊢
  rw [decodeValue_string f c _ hcode, hd]

theorem decodeValue_arrayLen (f n : Nat) (dec : Decoder) (hn : n < 2 ^ 32) :
    decodeValue (f + 1) ((EncodeArrayLen n []).1 ++ dec) =
      (.list (decodeList f n dec).1, (decodeList f n dec).2) := by
  unfold EncodeArrayLen
  split_ifs with h1 h2
  · simp only [List.nil_append, List.cons_append]
    rw [decodeValue_fixarray f _ _ (by simp [codes.FixedArrayLow]; omega)]
    have : (codes.FixedArrayLow + n) % 16 = n := by simp [codes.FixedArrayLow]; omega
    rw [this]
  · simp only [List.nil_append, List.cons_append]
    rw [decodeValue_array16, readUint_beBytes_lt 2 _ _ (by omega)]
  · simp only [List.nil_append, List.cons_append]
    rw [decodeValue_array32, readUint_beBytes_lt 4 _ _ (by omega)]

theorem decodeValue_mapLen (f n : Nat) (dec : Decoder) (hn : n < 2 ^ 32) :
    decodeValue (f + 1) (encodeMapLen n ++ dec) =
      (.map (decodeMap f n dec).1, (decodeMap f n dec).2) := by
  unfold encodeMapLen
  split_ifs with h1 h2
  · simp only [List.cons_append, List.nil_append]
    rw [decodeValue_fixmap f _ _ (by simp [FixedMapLow]; omega)]
    have : (FixedMapLow + n) % 16 = n := by simp [FixedMapLow]; omega
    rw [this]
  · simp only [List.cons_append]
    rw [decodeValue_map16, readUint_beBytes_lt 2 _ _ (by omega)]
  · simp only [List.cons_append]
    rw [decodeValue_map32, readUint_beBytes_lt 4 _ _ (by omega)]

theorem decodeList_zero (f : Nat) (dec : Decoder) : decodeList f 0 dec = ([], dec, none) := by
  cases f <;> rfl

theorem decodeMap_zero (f : Nat) (dec : Decoder) : decodeMap f 0 dec = ([], dec, none) := by
  cases f <;> rfl

theorem decodeList_succ (f n : Nat) (dec : Decoder) :
    decodeList (f + 1) (n + 1) dec =
      match decodeValue f dec with
      | (_, dec, some err) => ([], dec, some err)
      | (x, dec, none) => (x :: (decodeList f n dec).1, (decodeList f n dec).2) := by
  rfl

theorem decodeMap_succ (f n : Nat) (dec : Decoder) :
    decodeMap (f + 1) (n + 1) dec =
      match decodeValue f dec with
      | (.str k, dec, none) =>
        match decodeValue f dec with
        | (_, dec, some err) => ([], dec, some err)
        | (v, dec, none) => ((k, v) :: (decodeMap f n dec).1, (decodeMap f n dec).2)
      | (_, dec, some err) => ([], dec, some err)
      | (_, dec, none) => ([], dec, some "msgpack: map key is not a string") := by
  rfl

mutual
theorem decodeValue_encodeValue : ∀ (v : Value) (f : Nat) (rest : Decoder),
    wellFormed v = true → need v ≤ f → decodeValue f (encodeValue v ++ rest) = (v, rest, none)
  | .null, f, rest, _, hf => by
    obtain ⟨f, rfl⟩ : ∃ g, f = g + 1 := ⟨f - 1, by simp only [need] at hf; omega⟩
    exact decodeValue_nil f rest
  | .bool b, f, rest, _, hf => by
    obtain ⟨f, rfl⟩ : ∃ g, f = g + 1 := ⟨f - 1, by simp only [need] at hf; omega⟩
    exact decodeValue_bool f b rest
  | .int i, f, rest, hwf, hf => by
    obtain ⟨f, rfl⟩ : ∃ g, f = g + 1 := ⟨f - 1, by simp only [need] at hf; omega⟩
    simp only [wellFormed, decide_eq_true_eq] at hwf
    exact decodeValue_encode_int f i rest hwf.1 hwf.2
  | .float bits, f, rest, hwf, hf => by
    obtain ⟨f, rfl⟩ : ∃ g, f = g + 1 := ⟨f - 1, by simp only [need] at hf; omega⟩
    simp only [wellFormed, decide_eq_true_eq] at hwf
    simp only [encodeValue, List.cons_append]
    rw [decodeValue_double, readUint_beBytes_lt 8 _ _ (by omega)]
  | .str s, f, rest, hwf, hf => by
    obtain ⟨f, rfl⟩ : ∃ g, f = g + 1 := ⟨f - 1, by simp only [need] at hf; omega⟩
    simp only [wellFormed, decide_eq_true_eq] at hwf
    simp only [encodeValue]
    exact decodeValue_encode_str f s rest hwf
  | .list xs, f, rest, hwf, hf => by
    obtain ⟨f, rfl⟩ : ∃ g, f = g + 1 := ⟨f - 1, by simp only [need] at hf; omega⟩
    simp only [wellFormed, Bool.and_eq_true, decide_eq_true_eq] at hwf
    simp only [need] at hf
    simp only [encodeValue, List.append_assoc]
    rw [decodeValue_arrayLen f _ _ hwf.1,
      decodeList_encodeList xs f rest hwf.2 (by omega)]
  | .map kvs, f, rest, hwf, hf => by
    obtain ⟨f, rfl⟩ : ∃ g, f = g + 1 := ⟨f - 1, by simp only [need] at hf; omega⟩
    simp only [wellFormed, Bool.and_eq_true, decide_eq_true_eq] at hwf
    simp only [need] at hf
    simp only [encodeValue, List.append_assoc]
    rw [decodeValue_mapLen f _ _ hwf.1,
      decodeMap_encodeMap kvs f rest hwf.2 (by omega)]
theorem decodeList_encodeList : ∀ (xs : List Value) (f : Nat) (rest : Decoder),
    wellFormedList xs = true → needList xs ≤ f →
      decodeList f xs.length (encodeList xs ++ rest) = (xs, rest, none)
  | [], f, rest, _, _ => by
    simp only [List.length_nil, encodeList, List.nil_append]
    exact decodeList_zero f rest
  | x :: xs, f, rest, hwf, hf => by
    simp only [needList] at hf
    obtain ⟨f, rfl⟩ : ∃ g, f = g + 1 := ⟨f - 1, by omega⟩
    simp only [wellFormedList, Bool.and_eq_true] at hwf
    simp only [List.length_cons, encodeList, List.append_assoc]
    rw [decodeList_succ, decodeValue_encodeValue x f _ hwf.1 (by omega)]
    simp only []
    rw [decodeList_encodeList xs f rest hwf.2 (by omega)]
theorem decodeMap_encodeMap : ∀ (kvs : List (Bytes × Value)) (f : Nat) (rest : Decoder),
    wellFormedMap kvs = true → needMap kvs ≤ f →
      decodeMap f kvs.length (encodeMap kvs ++ rest) = (kvs, rest, none)
  | [], f, rest, _, _ => by
    simp only [List.length_nil, encodeMap, List.nil_append]
    exact decodeMap_zero f rest
  | (k, v) :: kvs, f, rest, hwf, hf => by
    simp only [needMap] at hf
    obtain ⟨f, rfl⟩ : ∃ g, f = g + 1 := ⟨f - 1, by omega⟩
    obtain ⟨f, rfl⟩ : ∃ g, f = g + 1 := ⟨f - 1, by omega⟩
    simp only [wellFormedMap, Bool.and_eq_true, decide_eq_true_eq] at hwf
    simp only [List.length_cons, encodeMap, List.append_assoc]
    rw [decodeMap_succ, decodeValue_encode_str f k _ hwf.1.1]
    simp only []
    rw [decodeValue_encodeValue v (f + 1) _ hwf.1.2 (by omega)]
    simp only []
    rw [decodeMap_encodeMap kvs (f + 1) rest hwf.2 (by omega)]
end

theorem EncodeUint64_length (v : Nat) : 1 ≤ (EncodeUint64 v []).1.length := by
  unfold EncodeUint64
  split_ifs <;> simp

theorem EncodeInt64_length (v : Int) : 1 ≤ (EncodeInt64 v []).1.length := by
  unfold EncodeInt64
  split_ifs
  · exact EncodeUint64_length _
  all_goals simp

theorem EncodeString_length (s : Bytes) : 1 ≤ (EncodeString s []).1.length := by
  obtain ⟨c, tl, hc, _⟩ := EncodeString_head s
  rw [hc]
  simp

theorem EncodeArrayLen_length (n : Nat) : 1 ≤ (EncodeArrayLen n []).1.length := by
  unfold EncodeArrayLen
  split_ifs <;> simp

theorem encodeMapLen_length (n : Nat) : 1 ≤ (encodeMapLen n).length := by
  unfold encodeMapLen
  split_ifs <;> simp

mutual
theorem need_le : ∀ v : Value, need v + 1 ≤ 2 * (encodeValue v).length
  | .null => by simp [need, encodeValue]
  | .bool _ => by simp [need, encodeValue]
  | .int i => by
    simp only [need, encodeValue]
    split_ifs
    · have := EncodeUint64_length i.toNat
      omega
    · have := EncodeInt64_length i
      omega
  | .float _ => by simp [need, encodeValue]
  | .str s => by
    simp only [need, encodeValue]
    have := EncodeString_length s
    omega
  | .list xs => by
    simp only [need, encodeValue, List.length_append]
    have := EncodeArrayLen_length xs.length
    have := needList_le xs
    omega
  | .map kvs => by
    simp only [need, encodeValue, List.length_append]
    have := encodeMapLen_length kvs.length
    have := needMap_le kvs
    omega
theorem needList_le : ∀ xs : List Value, needList xs ≤ 2 * (encodeList xs).length
  | [] => by simp [needList]
  | x :: xs => by
    simp only [needList, encodeList, List.length_append]
    have := need_le x
    have := needList_le xs
    omega
theorem needMap_le : ∀ kvs : List (Bytes × Value), needMap kvs ≤ 2 * (encodeMap kvs).length
  | [] => by simp [needMap]
  | (k, v) :: kvs => by
    simp only [needMap, encodeMap, List.length_append]
    have := need_le v
    have := needMap_le kvs
    omega
end

/-- The reference instance reproduces every well-formed value of the union. -/
theorem lib_roundTrips (v : Value) (h : wellFormed v = true) : lib.RoundTrips v := by
  refine ⟨encodeValue v, fun enc => rfl, fun rest => ?_⟩
  show decodeValue (2 * (encodeValue v ++ rest).length) (encodeValue v ++ rest) = (v, rest, none)
  apply decodeValue_encodeValue v _ rest h
  have := need_le v
  simp only [List.length_append]
  omega

end wire

/-- The message of the specification's example: tag "app.log", 2021-01-01T00:00:00Z,
record `{"msg":"hi"}`, no option. -/
theorem msgpack_roundtrip_seconds_witness :
    DecodeMsgpack wire.lib ⟨[], ⟨⟨0, 0⟩⟩, .null, .null, true⟩
      (msgpackMarshal wire.lib
        { Tag := ascii "app.log", Time := { Time := { sec := 1609459200, nsec := 0 } },
          Record := .map [(ascii "msg", .str (ascii "hi"))], Option := .null,
          subsecond := false }).1
      = ({ Tag := ascii "app.log", Time := { Time := { sec := 1609459200, nsec := 0 } },
           Record := .map [(ascii "msg", .str (ascii "hi"))], Option := .null,
           subsecond := true }, [], none) :=
  (msgpack_roundtrip_seconds wire.lib
    { Tag := ascii "app.log", Time := { Time := { sec := 1609459200, nsec := 0 } },
      Record := .map [(ascii "msg", .str (ascii "hi"))], Option := .null,
      subsecond := false }
    ⟨[], ⟨⟨0, 0⟩⟩, .null, .null, true⟩ rfl rfl (Or.inl (by decide)) (by decide)
    (wire.lib_roundTrips _ (by decide)) (wire.lib_roundTrips _ (by decide))).2

/-- A string of `2^32` bytes is written with the length field 0. -/
theorem EncodeString_long (s : Bytes) (h : s.length = 2 ^ 32) :
    (EncodeString s []).1 = 0xdb :: 0 :: 0 :: 0 :: 0 :: s := by
  have h1 : ¬ s.length < 32 := by omega
  have h2 : ¬ s.length < 256 := by omega
  have h3 : ¬ s.length < 65536 := by omega
  have hb : beBytes 4 (2 ^ 32) = [0, 0, 0, 0] := by decide
  simp only [EncodeString, h1, h2, h3, if_false, h, hb]
  rfl

theorem DecodeString_long (dec : Decoder) :
    DecodeString (0xdb :: 0 :: 0 :: 0 :: 0 :: dec) = ([], dec, none) := by
  have hc1 : ¬ ((0xdb : Nat) = codes.Nil) := by decide
  have hc2 : codes.IsFixedString 0xdb = false := by decide
  have hc3 : ¬ ((0xdb : Nat) = codes.Str8 ∨ (0xdb : Nat) = codes.Bin8) := by decide
  have hc4 : ¬ ((0xdb : Nat) = codes.Str16 ∨ (0xdb : Nat) = codes.Bin16) := by decide
  have hc5 : ((0xdb : Nat) = codes.Str32 ∨ (0xdb : Nat) = codes.Bin32) := by decide
  have hr : readUint 4 (0 :: 0 :: 0 :: 0 :: dec) = (0, dec, none) := readUint_cons4 0 0 0 0 dec
  have hn : readN 0 dec = (some [], dec, none) := by simp [readN]
  simp only [DecodeString, bytesLen, hc1, hc2, hc3, hc4, hc5, if_false, if_true, hr,
    Bool.false_eq_true]
  simp [hn]

/-- A tag of `2^32` bytes is read back as the empty tag, and its first byte is then taken
for the code of the time field. -/
theorem long_tag_fails (recv : Message) (s s1 : Bytes) (hlen : s.length = 2 ^ 32)
    (hs : s = 0x61 :: s1) :
    DecodeMsgpack wire.lib recv
      (msgpackMarshal wire.lib ⟨s, ⟨⟨65536, 0⟩⟩, .null, .null, false⟩).1
      = ({ recv with Tag := [] }, s ++ [0xce, 0, 1, 0, 0, 0xc0, 0xc0],
          some "expected ext8, fixedext8, or int64 for time: 1100001") := by
  have ht : ∀ enc, EncodeInt64 (65536 : Int) enc = (enc ++ 0xce :: [0, 1, 0, 0], none) := by
    intro enc; rfl
  have hm := EncodeMsgpack_seconds wire.lib
    ⟨s, ⟨⟨65536, 0⟩⟩, .null, .null, false⟩ 0xce [0, 1, 0, 0]
    [0xc0] [0xc0] rfl ht (fun enc => rfl) (fun enc => rfl)
  rw [hm]
  simp only [EncodeString_long s hlen]
  have hh := DecodeMsgpack_fixed_header wire.lib recv 4
    (0xdb :: 0 :: 0 :: 0 :: 0 :: (s ++ (0xce :: [0, 1, 0, 0] ++ ([0xc0] ++ [0xc0])))) (by decide)
  simp only [ne_eq, not_true_eq_false, if_false, DecodeString_long] at hh
  rw [show (0x94 : Nat) = 0x90 + 4 from rfl, List.cons_append, List.cons_append,
    List.cons_append, List.cons_append, List.cons_append, hh]
  subst hs
  rfl

theorem replicate_head : List.replicate (2 ^ 32) (0x61 : Nat)
    = 0x61 :: List.replicate (2 ^ 32 - 1) 0x61 := by
  have h : (2 ^ 32 : Nat) = (2 ^ 32 - 1) + 1 := by norm_num
  conv_lhs => rw [h, List.replicate_succ]

/-- Claim C2: the code breaks the round trip the claim states. With the flag off, the
times 0, -1 and `2^32` seconds are written by `EncodeMsgpack` with the codes 0x00, 0xff and
0xcf, and `DecodeMsgpack` returns its error for each of them, with the time field unread:
its switch lists only the codes 0xce and 0xd3, although `DecodeInt64` reads each of the
three unread fields as the time that was written. Also a tag of `2^32` bytes is written
with a length field that has wrapped to 0, so that the call fails on the first byte of the
tag. -/
theorem msgpack_roundtrip_fails_small_time :
    DecodeMsgpack wire.lib ⟨[], ⟨⟨0, 0⟩⟩, .null, .null, false⟩
      (msgpackMarshal wire.lib ⟨ascii "a", ⟨⟨0, 0⟩⟩, .null, .null, false⟩).1
      = (⟨ascii "a", ⟨⟨0, 0⟩⟩, .null, .null, false⟩, [0x00, 0xc0, 0xc0],
          some "expected ext8, fixedext8, or int64 for time: 0") ∧
    DecodeMsgpack wire.lib ⟨[], ⟨⟨0, 0⟩⟩, .null, .null, false⟩
      (msgpackMarshal wire.lib ⟨ascii "a", ⟨⟨-1, 0⟩⟩, .null, .null, false⟩).1
      = (⟨ascii "a", ⟨⟨0, 0⟩⟩, .null, .null, false⟩, [0xff, 0xc0, 0xc0],
          some "expected ext8, fixedext8, or int64 for time: 11111111") ∧
    DecodeMsgpack wire.lib ⟨[], ⟨⟨0, 0⟩⟩, .null, .null, false⟩
      (msgpackMarshal wire.lib ⟨ascii "a", ⟨⟨4294967296, 0⟩⟩, .null, .null, false⟩).1
      = (⟨ascii "a", ⟨⟨0, 0⟩⟩, .null, .null, false⟩,
          [0xcf, 0, 0, 0, 1, 0, 0, 0, 0, 0xc0, 0xc0],
          some "expected ext8, fixedext8, or int64 for time: 11001111") ∧
    DecodeMsgpack wire.lib ⟨[], ⟨⟨0, 0⟩⟩, .null, .null, false⟩
      (msgpackMarshal wire.lib
        ⟨List.replicate (2 ^ 32) 0x61, ⟨⟨65536, 0⟩⟩, .null, .null, false⟩).1
      = (⟨[], ⟨⟨0, 0⟩⟩, .null, .null, false⟩,
          List.replicate (2 ^ 32) 0x61 ++ [0xce, 0, 1, 0, 0, 0xc0, 0xc0],
          some "expected ext8, fixedext8, or int64 for time: 1100001") ∧
    DecodeInt64 [0x00, 0xc0, 0xc0] = (0, [0xc0, 0xc0], none) ∧
    DecodeInt64 [0xff, 0xc0, 0xc0] = (-1, [0xc0, 0xc0], none) ∧
    DecodeInt64 [0xcf, 0, 0, 0, 1, 0, 0, 0, 0, 0xc0, 0xc0] = (4294967296, [0xc0, 0xc0], none) := by
  refine ⟨?_, ?_, ?_, long_tag_fails _ _ _ (List.length_replicate _ _) replicate_head,
    ?_, ?_, ?_⟩ <;> rfl

/-! ## The textual codec -/

/-- Claim C8: when `json.Marshal` gives `rec` for the record and `opt` for the option,
`MarshalJSON` returns exactly `[` `strconv.Quote(tag)` `,` the decimal whole seconds `,`
`rec` `,` `opt` `]`, with nothing between or after, and no error. -/
theorem MarshalJSON_layout (lib : Lib) (m : Message) (rec opt : Bytes)
    (hrec : lib.jsonMarshalValue m.Record = (rec, none))
    (hopt : lib.jsonMarshalValue m.Option = (opt, none)) :
    MarshalJSON lib m =
      (ascii "[" ++ strconv.Quote lib m.Tag ++ ascii "," ++ strconv.FormatInt m.Time.Time.Unix
        ++ ascii "," ++ rec ++ ascii "," ++ opt ++ ascii "]", none) := by
  simp only [MarshalJSON, hrec, hopt]
  rfl

/-- The message of the specification's example encodes to the literal bytes
`["app.log",1609459200,{"msg":"hi"},null]`. -/
theorem MarshalJSON_layout_witness :
    MarshalJSON wire.lib
        { Tag := ascii "app.log", Time := { Time := { sec := 1609459200, nsec := 0 } },
          Record := .map [(ascii "msg", .str (ascii "hi"))], Option := .null,
          subsecond := false }
      = (ascii "[\"app.log\",1609459200,\x7b\"msg\":\"hi\"\x7d,null]", none) ∧
    jsonMarshal wire.lib
        { Tag := ascii "app.log", Time := { Time := { sec := 1609459200, nsec := 0 } },
          Record := .map [(ascii "msg", .str (ascii "hi"))], Option := .null,
          subsecond := false }
      = .returned (ascii "[\"app.log\",1609459200,\x7b\"msg\":\"hi\"\x7d,null]", none) :=
  ⟨(MarshalJSON_layout wire.lib _ (ascii "\x7b\"msg\":\"hi\"\x7d") (ascii "null")
      (by decide) (by decide)).trans (by decide), by rfl⟩

/-- Claim C4, as the code behaves: `UnmarshalJSON` never checks the number of elements.
On `null`, `[]`, a 1-element and a 3-element array it indexes past the end of the slice
and panics; on a 5-element array it ignores the fifth element and succeeds. -/
theorem UnmarshalJSON_wrong_length (lib : Lib) (m : Message) :
    UnmarshalJSON lib m (ascii "null") = .panicked "runtime error: index out of range [0]" ∧
    UnmarshalJSON lib m (ascii "[]") = .panicked "runtime error: index out of range [0]" ∧
    UnmarshalJSON lib m (ascii "[\"a\"]") = .panicked "runtime error: index out of range [1]" ∧
    UnmarshalJSON lib m (ascii "[\"a\",1,null]")
      = .panicked "runtime error: index out of range [3]" ∧
    UnmarshalJSON lib m (ascii "[\"a\",1,null,null,null]")
      = .returned ({ Tag := ascii "a", Time := { Time := { sec := 1, nsec := 0 } },
                     Record := .null, Option := .null, subsecond := false }, none) := by
  refine ⟨?_, ?_, ?_, ?_, ?_⟩ <;> rfl

/-- An array that opens with a string whose first escape is `\x` is not a JSON text. -/
theorem scanValue_bad_escape (f : Nat) (rest : Bytes) :
    json.scanValue (f + 3) (0x5B :: 0x22 :: 0x5C :: 0x78 :: rest) = none := by
  rfl

theorem parse_bad_escape (rest : Bytes) :
    json.parse (0x5B :: 0x22 :: 0x5C :: 0x78 :: rest) = none := by
  have hf : 2 * (0x5B :: 0x22 :: 0x5C :: 0x78 :: rest).length + 2
      = (2 * rest.length + 7) + 3 := by
    simp only [List.length_cons]; omega
  unfold json.parse
  rw [hf, scanValue_bad_escape]

theorem parse_nil : json.parse [] = none := by rfl

/-- `strconv.Quote` writes the control character U+0001 as the Go escape `\x01`. -/
theorem Quote_control (lib : Lib) (s : Bytes) :
    strconv.Quote lib (0x01 :: s) = 0x22 :: 0x5C :: 0x78 :: 0x30 :: 0x31 ::
      (strconv.quoteRunes lib s.length s ++ [0x22]) := by
  rfl

/-- What `MarshalJSON` returns for a tag that starts with U+0001 is never a JSON text. -/
theorem MarshalJSON_control (lib : Lib) (s : Bytes) (t : EventTime) (r o : Value) (f : Bool) :
    json.parse (MarshalJSON lib ⟨0x01 :: s, t, r, o, f⟩).1 = none := by
  unfold MarshalJSON
  simp only []
  rcases lib.jsonMarshalValue r with ⟨rb, _ | e⟩
  · rcases lib.jsonMarshalValue o with ⟨ob, _ | e⟩
    · simp only [Quote_control, List.nil_append, List.cons_append, List.singleton_append]
      exact parse_bad_escape _
    · exact parse_nil
  · exact parse_nil

/-- Claim C3, as the code behaves: `MarshalJSON` quotes the tag with `strconv.Quote`, whose
escapes are those of Go, not of JSON. For every message whose tag starts with the control
character U+0001, whatever its time, record and option, `UnmarshalJSON` returns an error on
what `MarshalJSON` returns, and `jsonMarshal` returns an error and no bytes. For the tag
made of that one character, with time 0 and no record or option, `MarshalJSON` returns
`["\x01",0,null,null]`. -/
theorem textual_roundtrip_control_char (lib : Lib) (recv : Message) (s : Bytes) (t : EventTime)
    (r o : Value) (f : Bool) :
    UnmarshalJSON lib recv (MarshalJSON lib ⟨0x01 :: s, t, r, o, f⟩).1
      = .returned (recv, some "failed to unmarshal JSON: expected array: invalid JSON input") ∧
    (∃ err, jsonMarshal lib ⟨0x01 :: s, t, r, o, f⟩ = .returned ([], some err)) ∧
    MarshalJSON wire.lib ⟨[0x01], ⟨⟨0, 0⟩⟩, .null, .null, false⟩
      = (ascii "[\"\\x01\",0,null,null]", none) := by
  refine ⟨?_, ?_, by rfl⟩
  · simp only [UnmarshalJSON, json.UnmarshalRawMessages, MarshalJSON_control]
    rfl
  · unfold jsonMarshal jsonEncode
    simp only []
    have hp := MarshalJSON_control lib s t r o f
    rcases hm : MarshalJSON lib ⟨0x01 :: s, t, r, o, f⟩ with ⟨b, _ | e⟩
    · rw [hm] at hp
      simp only [json.compact, hp]
      exact ⟨_, rfl⟩
    · exact ⟨_, rfl⟩

theorem ParseInt_fraction (lit : Bytes) (h : 0x2E ∈ lit) : json.ParseInt lit = none := by
  unfold json.ParseInt
  simp only []
  have hmem : 0x2E ∈ (if lit.head? = some 0x2D then lit.tail else lit) := by
    split_ifs with hh
    · cases lit with
      | nil => simp at h
      | cons a t =>
        simp only [List.head?_cons, Option.some.injEq] at hh
        subst hh
        simpa using h
    · exact h
  have hall : (if lit.head? = some 0x2D then lit.tail else lit).all json.isDigit = false := by
    rw [List.all_eq_false]
    exact ⟨0x2E, hmem, by decide⟩
  simp [hall]

/-- Claim C9, amended: on a 4-element input `UnmarshalJSON` returns an error, and leaves
the receiver unchanged, whenever element 0 is neither a string nor `null` (a number,
boolean, object or array), and whenever element 1 is not `null` and not a number literal
that `strconv.ParseInt` accepts (a string, boolean, object, array, or a number that is not
an int64 integer literal); every literal with a fractional part is rejected by
`ParseInt`. -/
theorem UnmarshalJSON_element_types (lib : Lib) (m : Message) (buf : Bytes)
    (e0 e1 e2 e3 : JSON) (hparse : json.parse buf = some (.array [e0, e1, e2, e3]))
    (hbad : (e0.isString = false ∧ e0.isNull = false) ∨
      (e1.isNull = false ∧ ∀ lit, e1 = .number lit → json.ParseInt lit = none)) :
    (UnmarshalJSON lib m buf = .returned (m,
        errors.Wrap (some (json.UnmarshalTypeError "string"))
          "failed to unmarshal JSON: expected tag") ∨
      UnmarshalJSON lib m buf = .returned (m,
        errors.Wrap (some (json.UnmarshalTypeError "int64"))
          "failed to unmarshal JSON: expected timestamp")) ∧
    (∀ lit : Bytes, 0x2E ∈ lit → json.ParseInt lit = none) := by
  refine ⟨?_, ParseInt_fraction⟩
  have hl : json.UnmarshalRawMessages buf = ([e0, e1, e2, e3], none) := by
    simp only [json.UnmarshalRawMessages, hparse]
  by_cases h0 : e0.isString = false ∧ e0.isNull = false
  · obtain ⟨hs, hn⟩ := h0
    have htag : json.UnmarshalString e0 [] = ([], some (json.UnmarshalTypeError "string")) := by
      cases e0 <;> simp_all [JSON.isString, JSON.isNull, json.UnmarshalString]
    left
    simp only [UnmarshalJSON, hl, List.getElem?_cons_zero, htag]
  · have h1 := hbad.resolve_left h0
    obtain ⟨hn, hlit⟩ := h1
    have hint : json.UnmarshalInt64 e1 0 = (0, some (json.UnmarshalTypeError "int64")) := by
      cases e1 with
      | number lit => simp only [json.UnmarshalInt64, hlit lit rfl]
      | null => simp [JSON.isNull] at hn
      | _ => rfl
    have htag : (json.UnmarshalString e0 []).2 = none := by
      cases e0 <;> simp_all [JSON.isString, JSON.isNull, json.UnmarshalString]
    right
    simp only [UnmarshalJSON, hl]
    rcases hu : json.UnmarshalString e0 [] with ⟨tag, _ | e⟩
    · simp only [List.getElem?_cons_zero, List.getElem?_cons_succ, hu, hint]
    · rw [hu] at htag
      simp at htag

/-- The input `[1,2.5,3,4]`: element 0 is a number. -/
theorem UnmarshalJSON_element_types_witness :
    json.parse (ascii "[1,2.5,3,4]")
      = some (.array [.number (ascii "1"), .number (ascii "2.5"), .number (ascii "3"),
          .number (ascii "4")]) ∧
    (UnmarshalJSON wire.lib ⟨[], ⟨⟨0, 0⟩⟩, .null, .null, true⟩ (ascii "[1,2.5,3,4]")
        = .returned (⟨[], ⟨⟨0, 0⟩⟩, .null, .null, true⟩,
            errors.Wrap (some (json.UnmarshalTypeError "string"))
              "failed to unmarshal JSON: expected tag") ∨
      UnmarshalJSON wire.lib ⟨[], ⟨⟨0, 0⟩⟩, .null, .null, true⟩ (ascii "[1,2.5,3,4]")
        = .returned (⟨[], ⟨⟨0, 0⟩⟩, .null, .null, true⟩,
            errors.Wrap (some (json.UnmarshalTypeError "int64"))
              "failed to unmarshal JSON: expected timestamp")) :=
  ⟨by rfl,
    (UnmarshalJSON_element_types wire.lib ⟨[], ⟨⟨0, 0⟩⟩, .null, .null, true⟩
      (ascii "[1,2.5,3,4]")
      (.number (ascii "1")) (.number (ascii "2.5")) (.number (ascii "3")) (.number (ascii "4"))
      (by rfl) (Or.inl ⟨rfl, rfl⟩)).1⟩

/-- Claim C9 as stated fails for `null`: with `null` as element 0 the call succeeds with an
empty tag, with `null` as element 1 it succeeds with the time at the epoch. -/
theorem UnmarshalJSON_null_elements :
    UnmarshalJSON wire.lib ⟨[0x78], ⟨⟨5, 0⟩⟩, .null, .null, true⟩ (ascii "[null,7,null,null]")
      = .returned (⟨[], ⟨⟨7, 0⟩⟩, .null, .null, false⟩, none) ∧
    UnmarshalJSON wire.lib ⟨[0x78], ⟨⟨5, 0⟩⟩, .null, .null, true⟩
        (ascii "[\"a\",null,null,null]")
      = .returned (⟨ascii "a", ⟨⟨0, 0⟩⟩, .null, .null, false⟩, none) := by
  constructor <;> rfl

/-! ## The layout `EncodeMsgpack` writes -/

theorem EncodeInt64_append (v : Int) (enc : Encoder) :
    EncodeInt64 v enc = (enc ++ (EncodeInt64 v []).1, none) := by
  unfold EncodeInt64 EncodeUint64
  split_ifs <;> simp

theorem DecodeInt64_fixnum (c : Nat) (dec : Decoder) (h : c ≤ 0x7f ∨ 0xe0 ≤ c) :
    DecodeInt64 (c :: dec) = (toSigned 1 c, dec, none) := by
  have h0 : ¬ (c = codes.Nil) := by simp [codes.Nil]; omega
  have h1 : codes.IsFixedNum c = true := by
    simp [codes.IsFixedNum, codes.PosFixedNumHigh, codes.NegFixedNumLow]; omega
  simp only [DecodeInt64, decodeInt, h0, h1, if_false, if_true]

theorem DecodeInt64_codes (dec : Decoder) :
    DecodeInt64 (codes.Uint8 :: dec)
      = (((readUint 1 dec).1 : Int), (readUint 1 dec).2.1, (readUint 1 dec).2.2) ∧
    DecodeInt64 (codes.Uint16 :: dec)
      = (((readUint 2 dec).1 : Int), (readUint 2 dec).2.1, (readUint 2 dec).2.2) ∧
    DecodeInt64 (codes.Uint64 :: dec)
      = (toSigned 8 (readUint 8 dec).1, (readUint 8 dec).2.1, (readUint 8 dec).2.2) ∧
    DecodeInt64 (codes.Int8 :: dec)
      = (toSigned 1 (readUint 1 dec).1, (readUint 1 dec).2.1, (readUint 1 dec).2.2) ∧
    DecodeInt64 (codes.Int16 :: dec)
      = (toSigned 2 (readUint 2 dec).1, (readUint 2 dec).2.1, (readUint 2 dec).2.2) ∧
    DecodeInt64 (codes.Int32 :: dec)
      = (toSigned 4 (readUint 4 dec).1, (readUint 4 dec).2.1, (readUint 4 dec).2.2) := by
  refine ⟨?_, ?_, ?_, ?_, ?_, ?_⟩ <;> rfl

theorem toSigned_of_nonneg (n : Nat) (v : Nat) (hn : 0 < n) (hv : v < 2 ^ (8 * n - 1)) :
    toSigned n v = v := by
  unfold toSigned
  have hlt : 2 ^ (8 * n - 1) < 2 ^ (8 * n) := Nat.pow_lt_pow_right (by norm_num) (by omega)
  have hm : v % 2 ^ (8 * n) = v := Nat.mod_eq_of_lt (by omega)
  rw [hm, if_pos hv]

/-- What `EncodeInt64` writes is a MessagePack integer: `DecodeInt64` reads it back as the
same int64 and leaves what follows unread. -/
theorem DecodeInt64_EncodeInt64 (v : Int) (rest : Decoder)
    (h1 : -2 ^ 63 ≤ v) (h2 : v < 2 ^ 63) :
    DecodeInt64 ((EncodeInt64 v []).1 ++ rest) = (v, rest, none) := by
  by_cases hpos : v ≥ 0
  · have hcast : ((v.toNat : Nat) : Int) = v := by omega
    simp only [EncodeInt64, hpos, if_true, EncodeUint64]
    split_ifs with a1 a2 a3 a4
    · simp only [List.nil_append, List.cons_append]
      rw [DecodeInt64_fixnum _ _ (Or.inl a1), toSigned_of_nonneg 1 _ (by norm_num) (by omega),
        hcast]
    · simp only [List.nil_append, List.cons_append]
      rw [(DecodeInt64_codes _).1, readUint_beBytes_lt 1 _ _ (by omega), hcast]
    · simp only [List.nil_append, List.cons_append]
      rw [(DecodeInt64_codes _).2.1, readUint_beBytes_lt 2 _ _ (by omega), hcast]
    · simp only [List.nil_append, List.cons_append]
      rw [DecodeInt64_Uint32, readUint_beBytes_lt 4 _ _ (by omega), hcast]
    · simp only [List.nil_append, List.cons_append]
      rw [(DecodeInt64_codes _).2.2.1, readUint_beBytes_lt 8 _ _ (by omega),
        toSigned_of_nonneg 8 _ (by norm_num) (by omega), hcast]
  · simp only [EncodeInt64, hpos, if_false]
    split_ifs with a1 a2 a3 a4
    · simp only [List.nil_append, List.cons_append]
      rw [DecodeInt64_fixnum _ _ (Or.inr (by omega))]
      have : toSigned 1 (v % 256).toNat = v := by
        unfold toSigned
        have hm : (v % 256).toNat % 2 ^ (8 * 1) = (v % 256).toNat :=
          Nat.mod_eq_of_lt (by omega)
        rw [hm]
        split_ifs <;> omega
      rw [this]
    · simp only [List.nil_append, List.cons_append]
      rw [(DecodeInt64_codes _).2.2.2.1, readUint_beBytes]
      have : toSigned 1 ((v % 2 ^ 64).toNat % 256 ^ 1) = v := by
        unfold toSigned
        have hm : (v % 2 ^ 64).toNat % 256 ^ 1 % 2 ^ (8 * 1) = (v % 2 ^ 64).toNat % 256 ^ 1 :=
          Nat.mod_eq_of_lt (by omega)
        rw [hm]
        split_ifs <;> omega
      rw [this]
    · simp only [List.nil_append, List.cons_append]
      rw [(DecodeInt64_codes _).2.2.2.2.1, readUint_beBytes]
      have : toSigned 2 ((v % 2 ^ 64).toNat % 256 ^ 2) = v := by
        unfold toSigned
        have hm : (v % 2 ^ 64).toNat % 256 ^ 2 % 2 ^ (8 * 2) = (v % 2 ^ 64).toNat % 256 ^ 2 :=
          Nat.mod_eq_of_lt (by omega)
        rw [hm]
        split_ifs <;> omega
      rw [this]
    · simp only [List.nil_append, List.cons_append]
      rw [(DecodeInt64_codes _).2.2.2.2.2, readUint_beBytes]
      have : toSigned 4 ((v % 2 ^ 64).toNat % 256 ^ 4) = v := by
        unfold toSigned
        have hm : (v % 2 ^ 64).toNat % 256 ^ 4 % 2 ^ (8 * 4) = (v % 2 ^ 64).toNat % 256 ^ 4 :=
          Nat.mod_eq_of_lt (by omega)
        rw [hm]
        split_ifs <;> omega
      rw [this]
    · simp only [List.nil_append, List.cons_append]
      rw [DecodeInt64_Int64, readUint_beBytes]
      have : toSigned 8 ((v % 2 ^ 64).toNat % 256 ^ 8) = v := by
        unfold toSigned
        have hm : (v % 2 ^ 64).toNat % 256 ^ 8 % 2 ^ (8 * 8) = (v % 2 ^ 64).toNat % 256 ^ 8 :=
          Nat.mod_eq_of_lt (by omega)
        rw [hm]
        split_ifs <;> omega
      rw [this]

/-- The form `EncodeInt64` chooses, by the range of the value. -/
theorem EncodeInt64_forms (v : Int) :
    (0 ≤ v → v ≤ 127 → (EncodeInt64 v []).1 = [v.toNat]) ∧
    (128 ≤ v → v ≤ 255 → (EncodeInt64 v []).1 = 0xcc :: beBytes 1 v.toNat) ∧
    (256 ≤ v → v ≤ 65535 → (EncodeInt64 v []).1 = 0xcd :: beBytes 2 v.toNat) ∧
    (65536 ≤ v → v ≤ 4294967295 → (EncodeInt64 v []).1 = 0xce :: beBytes 4 v.toNat) ∧
    (4294967296 ≤ v → (EncodeInt64 v []).1 = 0xcf :: beBytes 8 v.toNat) ∧
    (-32 ≤ v → v < 0 → (EncodeInt64 v []).1 = [(v % 256).toNat]) ∧
    (-128 ≤ v → v < -32 → (EncodeInt64 v []).1 = 0xd0 :: beBytes 1 (v % 2 ^ 64).toNat) ∧
    (-32768 ≤ v → v < -128 → (EncodeInt64 v []).1 = 0xd1 :: beBytes 2 (v % 2 ^ 64).toNat) ∧
    (-2147483648 ≤ v → v < -32768 →
      (EncodeInt64 v []).1 = 0xd2 :: beBytes 4 (v % 2 ^ 64).toNat) ∧
    (v < -2147483648 → (EncodeInt64 v []).1 = 0xd3 :: beBytes 8 (v % 2 ^ 64).toNat) := by
  refine ⟨?_, ?_, ?_, ?_, ?_, ?_, ?_, ?_, ?_, ?_⟩
  · intro h1 h2
    have a1 : v.toNat ≤ 127 := by omega
    simp [EncodeInt64, EncodeUint64, h1, a1]
  · intro h1 h2
    have a0 : v ≥ 0 := by omega
    have a1 : ¬ v.toNat ≤ 127 := by omega
    have a2 : v.toNat ≤ 255 := by omega
    simp [EncodeInt64, EncodeUint64, a0, a1, a2, codes.Uint8]
  · intro h1 h2
    have a0 : v ≥ 0 := by omega
    have a1 : ¬ v.toNat ≤ 127 := by omega
    have a2 : ¬ v.toNat ≤ 255 := by omega
    have a3 : v.toNat ≤ 65535 := by omega
    simp [EncodeInt64, EncodeUint64, a0, a1, a2, a3, codes.Uint16]
  · intro h1 h2
    have a0 : v ≥ 0 := by omega
    have a1 : ¬ v.toNat ≤ 127 := by omega
    have a2 : ¬ v.toNat ≤ 255 := by omega
    have a3 : ¬ v.toNat ≤ 65535 := by omega
    have a4 : v.toNat ≤ 4294967295 := by omega
    simp [EncodeInt64, EncodeUint64, a0, a1, a2, a3, a4, codes.Uint32]
  · intro h1
    have a0 : v ≥ 0 := by omega
    have a1 : ¬ v.toNat ≤ 127 := by omega
    have a2 : ¬ v.toNat ≤ 255 := by omega
    have a3 : ¬ v.toNat ≤ 65535 := by omega
    have a4 : ¬ v.toNat ≤ 4294967295 := by omega
    simp [EncodeInt64, EncodeUint64, a0, a1, a2, a3, a4, codes.Uint64]
  · intro h1 h2
    have a0 : ¬ v ≥ 0 := by omega
    have a1 : v ≥ -32 := h1
    simp [EncodeInt64, a0, a1]
  · intro h1 h2
    have a0 : ¬ v ≥ 0 := by omega
    have a1 : ¬ v ≥ -32 := by omega
    have a2 : v ≥ -128 := h1
    simp [EncodeInt64, a0, a1, a2, codes.Int8]
  · intro h1 h2
    have a0 : ¬ v ≥ 0 := by omega
    have a1 : ¬ v ≥ -32 := by omega
    have a2 : ¬ v ≥ -128 := by omega
    have a3 : v ≥ -32768 := h1
    simp [EncodeInt64, a0, a1, a2, a3, codes.Int16]
  · intro h1 h2
    have a0 : ¬ v ≥ 0 := by omega
    have a1 : ¬ v ≥ -32 := by omega
    have a2 : ¬ v ≥ -128 := by omega
    have a3 : ¬ v ≥ -32768 := by omega
    have a4 : v ≥ -2147483648 := h1
    simp [EncodeInt64, a0, a1, a2, a3, a4, codes.Int32]
  · intro h1
    have a0 : ¬ v ≥ 0 := by omega
    have a1 : ¬ v ≥ -32 := by omega
    have a2 : ¬ v ≥ -128 := by omega
    have a3 : ¬ v ≥ -32768 := by omega
    have a4 : ¬ v ≥ -2147483648 := by omega
    simp [EncodeInt64, a0, a1, a2, a3, a4, codes.Int64]

/-- The first byte `EncodeInt64` writes is the code 0xd3 of the int 64 form only below
`-2^31`. -/
theorem EncodeInt64_head (v : Int) (h : -2147483648 ≤ v) :
    (EncodeInt64 v []).1.head? ≠ some 0xd3 := by
  obtain ⟨f1, f2, f3, f4, f5, f6, f7, f8, f9, _⟩ := EncodeInt64_forms v
  by_cases c1 : 0 ≤ v
  · by_cases c2 : v ≤ 127
    · rw [f1 c1 c2]; simp; omega
    · by_cases c3 : v ≤ 255
      · rw [f2 (by omega) c3]; simp
      · by_cases c4 : v ≤ 65535
        · rw [f3 (by omega) c4]; simp
        · by_cases c5 : v ≤ 4294967295
          · rw [f4 (by omega) c5]; simp
          · rw [f5 (by omega)]; simp
  · by_cases c2 : -32 ≤ v
    · rw [f6 c2 (by omega)]; simp; omega
    · by_cases c3 : -128 ≤ v
      · rw [f7 c3 (by omega)]; simp
      · by_cases c4 : -32768 ≤ v
        · rw [f8 c4 (by omega)]; simp
        · rw [f9 h (by omega)]; simp

/-- What `EncodeInt64` writes is the int 64 form exactly for the values below `-2^31`. -/
theorem EncodeInt64_int64_iff (v : Int) :
    (EncodeInt64 v []).1 = specTimeInt64 v ↔ v < -2147483648 := by
  constructor
  · intro h
    by_contra hc
    have hh := EncodeInt64_head v (by omega)
    rw [h] at hh
    exact hh rfl
  · intro h
    rw [(EncodeInt64_forms v).2.2.2.2.2.2.2.2.2 h]
    rfl

theorem EventTime_EncodeMsgpack_eq (t : EventTime) (enc : Encoder) :
    EventTime.EncodeMsgpack t enc =
      (enc ++ (0xd7 :: 0 :: (beBytes 4 (t.Time.sec % 2 ^ 32).toNat
        ++ beBytes 4 (t.Time.nsec % 2 ^ 32))), none) := by
  simp [EventTime.EncodeMsgpack, EventTime.extType, codes.FixExt8]

/-- Claim C11, amended: when the generic encoder succeeds on the record and on the option,
appending its bytes, `EncodeMsgpack` appends exactly the byte 0x94, the string encoding of
the tag, the time field, the generic encoding of the record and the generic encoding of
the option, in this order and nothing else. With the flag off the time field is the whole
seconds written by `EncodeInt64` as a MessagePack integer in the shortest form that holds
the value (the table by ranges), which `DecodeInt64` reads back as the same int64; it is
the int 64 form of the specification exactly for the seconds below `-2^31`. With the flag
on the time field is the extension-tagged `EventTime` encoding: the fixext8 code 0xd7, the
type 0, the seconds and the nanoseconds as big-endian unsigned 32-bit numbers. The
reference generic encoder writes the nil code 0xc0 for an absent option. -/
theorem EncodeMsgpack_layout (lib : Lib) (m : Message) (enc : Encoder) (rb ob : Bytes)
    (htime : m.subsecond = true → lib.EncodeEventTime = EventTime.EncodeMsgpack)
    (hrec : ∀ e, lib.Encode m.Record e = (e ++ rb, none))
    (hopt : ∀ e, lib.Encode m.Option e = (e ++ ob, none)) :
    EncodeMsgpack lib m enc =
      (enc ++ ([0x94] ++ (EncodeString m.Tag []).1
        ++ (if m.subsecond then
              0xd7 :: 0x00 :: (beBytes 4 (m.Time.Time.sec % 2 ^ 32).toNat
                ++ beBytes 4 (m.Time.Time.nsec % 2 ^ 32))
            else (EncodeInt64 m.Time.Time.Unix []).1)
        ++ rb ++ ob), none) ∧
    ((0 ≤ m.Time.Time.Unix → m.Time.Time.Unix ≤ 127 →
        (EncodeInt64 m.Time.Time.Unix []).1 = [m.Time.Time.Unix.toNat]) ∧
      (128 ≤ m.Time.Time.Unix → m.Time.Time.Unix ≤ 255 →
        (EncodeInt64 m.Time.Time.Unix []).1 = 0xcc :: beBytes 1 m.Time.Time.Unix.toNat) ∧
      (256 ≤ m.Time.Time.Unix → m.Time.Time.Unix ≤ 65535 →
        (EncodeInt64 m.Time.Time.Unix []).1 = 0xcd :: beBytes 2 m.Time.Time.Unix.toNat) ∧
      (65536 ≤ m.Time.Time.Unix → m.Time.Time.Unix ≤ 4294967295 →
        (EncodeInt64 m.Time.Time.Unix []).1 = 0xce :: beBytes 4 m.Time.Time.Unix.toNat) ∧
      (4294967296 ≤ m.Time.Time.Unix →
        (EncodeInt64 m.Time.Time.Unix []).1 = 0xcf :: beBytes 8 m.Time.Time.Unix.toNat) ∧
      (-32 ≤ m.Time.Time.Unix → m.Time.Time.Unix < 0 →
        (EncodeInt64 m.Time.Time.Unix []).1 = [(m.Time.Time.Unix % 256).toNat]) ∧
      (-128 ≤ m.Time.Time.Unix → m.Time.Time.Unix < -32 →
        (EncodeInt64 m.Time.Time.Unix []).1
          = 0xd0 :: beBytes 1 (m.Time.Time.Unix % 2 ^ 64).toNat) ∧
      (-32768 ≤ m.Time.Time.Unix → m.Time.Time.Unix < -128 →
        (EncodeInt64 m.Time.Time.Unix []).1
          = 0xd1 :: beBytes 2 (m.Time.Time.Unix % 2 ^ 64).toNat) ∧
      (-2147483648 ≤ m.Time.Time.Unix → m.Time.Time.Unix < -32768 →
        (EncodeInt64 m.Time.Time.Unix []).1
          = 0xd2 :: beBytes 4 (m.Time.Time.Unix % 2 ^ 64).toNat) ∧
      (m.Time.Time.Unix < -2147483648 →
        (EncodeInt64 m.Time.Time.Unix []).1
          = 0xd3 :: beBytes 8 (m.Time.Time.Unix % 2 ^ 64).toNat)) ∧
    ((EncodeInt64 m.Time.Time.Unix []).1 = specTimeInt64 m.Time.Time.Unix ↔
      m.Time.Time.Unix < -2147483648) ∧
    (∀ rest, -2 ^ 63 ≤ m.Time.Time.Unix → m.Time.Time.Unix < 2 ^ 63 →
      DecodeInt64 ((EncodeInt64 m.Time.Time.Unix []).1 ++ rest)
        = (m.Time.Time.Unix, rest, none)) ∧
    (∀ e, wire.lib.Encode .null e = (e ++ [0xc0], none)) := by
  refine ⟨?_, EncodeInt64_forms _, EncodeInt64_int64_iff _,
    fun rest h1 h2 => DecodeInt64_EncodeInt64 _ rest h1 h2, fun _ => rfl⟩
  have h1 : EncodeArrayLen 4 enc = (enc ++ [0x94], none) := rfl
  have h2 := EncodeString_append m.Tag (enc ++ [0x94])
  have h3 := EncodeInt64_append m.Time.Time.Unix (enc ++ ([0x94] ++ (EncodeString m.Tag []).1))
  cases hf : m.subsecond
  · simp only [EncodeMsgpack, h1, h2, hf, Bool.false_eq_true, if_false, h3, errors.Wrap, hrec,
      hopt, List.append_assoc]
  · simp only [EncodeMsgpack, h1, h2, hf, if_true, htime hf, EventTime_EncodeMsgpack_eq,
      errors.Wrap, hrec, hopt, List.append_assoc]

/-- The message `app.log` of 2021-01-01 00:00:00 UTC and 5 ns, with the flag off and on. -/
theorem EncodeMsgpack_layout_witness :
    EncodeMsgpack wire.lib
        { Tag := ascii "app.log", Time := { Time := { sec := 1609459200, nsec := 5 } },
          Record := .map [(ascii "msg", .str (ascii "hi"))], Option := .null,
          subsecond := false } []
      = ([0x94, 0xa7, 0x61, 0x70, 0x70, 0x2e, 0x6c, 0x6f, 0x67, 0xce, 0x5f, 0xee, 0x66, 0x00,
          0x81, 0xa3, 0x6d, 0x73, 0x67, 0xa2, 0x68, 0x69, 0xc0], none) ∧
    EncodeMsgpack wire.lib
        { Tag := ascii "app.log", Time := { Time := { sec := 1609459200, nsec := 5 } },
          Record := .map [(ascii "msg", .str (ascii "hi"))], Option := .null,
          subsecond := true } []
      = ([0x94, 0xa7, 0x61, 0x70, 0x70, 0x2e, 0x6c, 0x6f, 0x67,
          0xd7, 0x00, 0x5f, 0xee, 0x66, 0x00, 0x00, 0x00, 0x00, 0x05,
          0x81, 0xa3, 0x6d, 0x73, 0x67, 0xa2, 0x68, 0x69, 0xc0], none) :=
  ⟨(EncodeMsgpack_layout wire.lib
      { Tag := ascii "app.log", Time := { Time := { sec := 1609459200, nsec := 5 } },
        Record := .map [(ascii "msg", .str (ascii "hi"))], Option := .null,
        subsecond := false } []
      [0x81, 0xa3, 0x6d, 0x73, 0x67, 0xa2, 0x68, 0x69] [0xc0]
      (fun _ => rfl) (fun _ => rfl) (fun _ => rfl)).1.trans (by decide),
   (EncodeMsgpack_layout wire.lib
      { Tag := ascii "app.log", Time := { Time := { sec := 1609459200, nsec := 5 } },
        Record := .map [(ascii "msg", .str (ascii "hi"))], Option := .null,
        subsecond := true } []
      [0x81, 0xa3, 0x6d, 0x73, 0x67, 0xa2, 0x68, 0x69] [0xc0]
      (fun _ => rfl) (fun _ => rfl) (fun _ => rfl)).1.trans (by decide)⟩

/-- Claim C11 as stated fails: with the flag off, the time field of a message of
2021-01-01 00:00:00 UTC is the five bytes ce 5f ee 66 00 (the uint 32 form) and that of a
message at the epoch is the single byte 00, not the nine bytes of the int 64 form. -/
theorem EncodeMsgpack_time_shortest_form :
    EncodeMsgpack wire.lib ⟨ascii "a", ⟨⟨1609459200, 0⟩⟩, .null, .null, false⟩ []
      = ([0x94, 0xa1, 0x61, 0xce, 0x5f, 0xee, 0x66, 0x00, 0xc0, 0xc0], none) ∧
    [0x94] ++ (EncodeString (ascii "a") []).1 ++ specTimeInt64 1609459200 ++ [0xc0] ++ [0xc0]
      = [0x94, 0xa1, 0x61, 0xd3, 0x00, 0x00, 0x00, 0x00, 0x5f, 0xee, 0x66, 0x00, 0xc0, 0xc0] ∧
    (EncodeMsgpack wire.lib ⟨ascii "a", ⟨⟨1609459200, 0⟩⟩, .null, .null, false⟩ []).1
      ≠ [0x94] ++ (EncodeString (ascii "a") []).1 ++ specTimeInt64 1609459200
          ++ [0xc0] ++ [0xc0] ∧
    EncodeMsgpack wire.lib ⟨ascii "a", ⟨⟨0, 0⟩⟩, .null, .null, false⟩ []
      = ([0x94, 0xa1, 0x61, 0x00, 0xc0, 0xc0], none) ∧
    (EncodeMsgpack wire.lib ⟨ascii "a", ⟨⟨0, 0⟩⟩, .null, .null, false⟩ []).1
      ≠ [0x94] ++ (EncodeString (ascii "a") []).1 ++ specTimeInt64 0 ++ [0xc0] ++ [0xc0] := by
  refine ⟨by decide, by decide, by decide, by decide, by decide⟩

/-! ## The binary round trip with the flag on -/

theorem EventTime_DecodeMsgpack_fixext (t0 : EventTime) (dec : Decoder) :
    EventTime.DecodeMsgpack t0 (0xd7 :: 0 :: dec) =
      match readUint 4 dec with
      | (_, rest, some err) => (t0, rest, some err)
      | (sec, rest, none) =>
        match readUint 4 rest with
        | (_, rest, some err) => (t0, rest, some err)
        | (nsec, rest, none) => ({ Time := { sec := sec, nsec := nsec } }, rest, none) := by
  rfl

/-- The modelled `EventTime` codec reproduces a time whose seconds fit 32 unsigned bits. -/
theorem EventTime_roundtrip (t t0 : EventTime) (rest : Decoder)
    (hs0 : 0 ≤ t.Time.sec) (hs1 : t.Time.sec < 2 ^ 32) (hn : t.Time.nsec < 2 ^ 32) :
    EventTime.DecodeMsgpack t0
      (0xd7 :: 0 :: (beBytes 4 (t.Time.sec % 2 ^ 32).toNat
        ++ beBytes 4 (t.Time.nsec % 2 ^ 32)) ++ rest) = (t, rest, none) := by
  have e1 : (t.Time.sec % 2 ^ 32).toNat < 256 ^ 4 := by omega
  have e2 : t.Time.nsec % 2 ^ 32 < 256 ^ 4 := by omega
  have e3 : (((t.Time.sec % 2 ^ 32).toNat : Nat) : Int) = t.Time.sec := by omega
  have e4 : t.Time.nsec % 2 ^ 32 = t.Time.nsec := Nat.mod_eq_of_lt hn
  rw [List.cons_append, List.cons_append, List.append_assoc, EventTime_DecodeMsgpack_fixext,
    readUint_beBytes_lt 4 _ _ e1]
  simp only []
  rw [readUint_beBytes_lt 4 _ _ e2]
  simp only [e3, e4]

/-- Claim C12, amended: with the flag on, the `EventTime` codec of the spec (seconds and
nanoseconds as unsigned 32-bit numbers), seconds from 0 to 2^32 - 1, nanoseconds below
10^9, a tag shorter than 2^32 bytes and a record and an option that the generic codec
reproduces, `msgpackMarshal` succeeds and `DecodeMsgpack` on its bytes succeeds, reads
them all and yields the same tag, seconds, nanoseconds, record and option. -/
theorem msgpack_roundtrip_subsecond (lib : Lib) (m recv : Message)
    (hflag : m.subsecond = true)
    (henc : lib.EncodeEventTime = EventTime.EncodeMsgpack)
    (hdec : lib.DecodeEventTime = EventTime.DecodeMsgpack)
    (hs0 : 0 ≤ m.Time.Time.sec) (hs1 : m.Time.Time.sec < 2 ^ 32)
    (hn : m.Time.Time.nsec < 1000000000)
    (htag : m.Tag.length < 2 ^ 32)
    (hrec : lib.RoundTrips m.Record) (hopt : lib.RoundTrips m.Option) :
    (msgpackMarshal lib m).2 = none ∧
    DecodeMsgpack lib recv (msgpackMarshal lib m).1 =
      ({ m with subsecond := recv.subsecond }, [], none) := by
  obtain ⟨rb, hrenc, hrdec⟩ := hrec
  obtain ⟨ob, hoenc, hodec⟩ := hopt
  have h1 : EncodeArrayLen 4 [] = ([0x94], none) := rfl
  have hm : msgpackMarshal lib m =
      (0x94 :: ((EncodeString m.Tag []).1 ++ (0xd7 :: 0 ::
        (beBytes 4 (m.Time.Time.sec % 2 ^ 32).toNat ++ beBytes 4 (m.Time.Time.nsec % 2 ^ 32))
          ++ (rb ++ ob))), none) := by
    simp only [msgpackMarshal, EncodeMsgpack, h1, EncodeString_append m.Tag [0x94], hflag,
      if_true, henc, EventTime_EncodeMsgpack_eq, errors.Wrap, hrenc, hoenc, List.append_assoc,
      List.cons_append, List.nil_append]
  rw [hm]
  refine ⟨rfl, ?_⟩
  have hhead := DecodeMsgpack_fixed_header lib recv 4
    ((EncodeString m.Tag []).1 ++ (0xd7 :: 0 ::
        (beBytes 4 (m.Time.Time.sec % 2 ^ 32).toNat ++ beBytes 4 (m.Time.Time.nsec % 2 ^ 32))
          ++ (rb ++ ob))) (by decide)
  simp only [ne_eq, not_true_eq_false, if_false, DecodeString_EncodeString m.Tag _ htag,
    PeekCode, List.cons_append] at hhead
  have hcase : timeCase 0xd7 = .extension := by decide
  rw [decodeTime_extension _ _ _ _ hcase, hdec] at hhead
  have hrt := EventTime_roundtrip m.Time recv.Time (rb ++ ob) hs0 hs1 (by omega)
  rw [List.cons_append, List.cons_append] at hrt
  simp only [hrt, errors.Wrap, decodePayload, hrdec] at hhead
  have hodec2 := hodec []
  rw [List.append_nil] at hodec2
  simp only [hodec2] at hhead
  exact hhead

/-- The message `app.log` of 2021-01-01 00:00:00 UTC and 5 ns. -/
theorem msgpack_roundtrip_subsecond_witness :
    (msgpackMarshal wire.lib
        { Tag := ascii "app.log", Time := { Time := { sec := 1609459200, nsec := 5 } },
          Record := .map [(ascii "msg", .str (ascii "hi"))], Option := .null,
          subsecond := true }).1
      = [0x94, 0xa7, 0x61, 0x70, 0x70, 0x2e, 0x6c, 0x6f, 0x67,
         0xd7, 0x00, 0x5f, 0xee, 0x66, 0x00, 0x00, 0x00, 0x00, 0x05,
         0x81, 0xa3, 0x6d, 0x73, 0x67, 0xa2, 0x68, 0x69, 0xc0] ∧
    DecodeMsgpack wire.lib ⟨[], ⟨⟨0, 0⟩⟩, .null, .null, false⟩
        (msgpackMarshal wire.lib
          { Tag := ascii "app.log", Time := { Time := { sec := 1609459200, nsec := 5 } },
            Record := .map [(ascii "msg", .str (ascii "hi"))], Option := .null,
            subsecond := true }).1
      = ({ Tag := ascii "app.log", Time := { Time := { sec := 1609459200, nsec := 5 } },
           Record := .map [(ascii "msg", .str (ascii "hi"))], Option := .null,
           subsecond := false }, [], none) :=
  ⟨by decide,
    (msgpack_roundtrip_subsecond wire.lib
      { Tag := ascii "app.log", Time := { Time := { sec := 1609459200, nsec := 5 } },
        Record := .map [(ascii "msg", .str (ascii "hi"))], Option := .null,
        subsecond := true }
      ⟨[], ⟨⟨0, 0⟩⟩, .null, .null, false⟩ rfl rfl rfl (by decide) (by decide) (by decide)
      (by decide) (wire.lib_roundTrips _ (by decide)) (wire.lib_roundTrips _ (by decide))).2⟩

/-- Claim C12 as stated fails outside the unsigned 32-bit seconds: one second before the
epoch comes back as 4294967295 seconds after it, and 2^32 seconds come back as 0. -/
theorem msgpack_subsecond_seconds_wrap :
    msgpackMarshal wire.lib ⟨ascii "a", ⟨⟨-1, 0⟩⟩, .null, .null, true⟩
      = ([0x94, 0xa1, 0x61, 0xd7, 0x00, 0xff, 0xff, 0xff, 0xff, 0x00, 0x00, 0x00, 0x00,
          0xc0, 0xc0], none) ∧
    DecodeMsgpack wire.lib ⟨[], ⟨⟨0, 0⟩⟩, .null, .null, true⟩
        (msgpackMarshal wire.lib ⟨ascii "a", ⟨⟨-1, 0⟩⟩, .null, .null, true⟩).1
      = (⟨ascii "a", ⟨⟨4294967295, 0⟩⟩, .null, .null, true⟩, [], none) ∧
    DecodeMsgpack wire.lib ⟨[], ⟨⟨0, 0⟩⟩, .null, .null, true⟩
        (msgpackMarshal wire.lib ⟨ascii "a", ⟨⟨4294967296, 7⟩⟩, .null, .null, true⟩).1
      = (⟨ascii "a", ⟨⟨0, 7⟩⟩, .null, .null, true⟩, [], none) := by
  refine ⟨?_, ?_, ?_⟩ <;> rfl

/-! ## `jsonMarshal` -/

theorem compactBytes_last (s : Bytes) : ∀ (inStr esc : Bool) (skip : Nat), skip ≤ s.length →
    ∃ out, json.compactBytes inStr esc skip (s ++ [0x5D]) = out ++ [0x5D] := by
  induction s with
  | nil =>
    intro inStr esc skip hskip
    have h0 : skip = 0 := by simpa using hskip
    subst h0
    refine ⟨[], ?_⟩
    cases inStr <;> rfl
  | cons c s ih =>
    intro inStr esc skip hskip
    simp only [List.cons_append, json.compactBytes, List.append_eq]
    by_cases h1 : skip > 0
    · rw [if_pos h1]
      exact ih _ _ _ (by simp only [List.length_cons] at hskip; omega)
    · rw [if_neg h1]
      by_cases h2 : c = 0x3C ∨ c = 0x3E ∨ c = 0x26
      · rw [if_pos h2]
        obtain ⟨out, ho⟩ := ih inStr false 0 (Nat.zero_le _)
        exact ⟨_, by rw [ho, ← List.append_assoc]⟩
      · rw [if_neg h2]
        have hlen : ∀ b : Nat, (s ++ [0x5D]).head? = some 0x80 →
            (s ++ [0x5D]).tail.head? = some b → b ≠ 0x5D → 2 ≤ s.length := by
          intro b hh ht hb
          cases s with
          | nil => simp at hh
          | cons a s2 =>
            cases s2 with
            | nil =>
              simp at ht
              omega
            | cons a2 s3 => simp
        by_cases h3 : c = 0xE2 ∧ (s ++ [0x5D]).head? = some 0x80 ∧
            (s ++ [0x5D]).tail.head? = some 0xA8
        · rw [if_pos h3]
          obtain ⟨out, ho⟩ := ih inStr false 2 (hlen 0xA8 h3.2.1 h3.2.2 (by decide))
          exact ⟨_, by rw [ho, ← List.append_assoc]⟩
        · rw [if_neg h3]
          by_cases h4 : c = 0xE2 ∧ (s ++ [0x5D]).head? = some 0x80 ∧
              (s ++ [0x5D]).tail.head? = some 0xA9
          · rw [if_pos h4]
            obtain ⟨out, ho⟩ := ih inStr false 2 (hlen 0xA9 h4.2.1 h4.2.2 (by decide))
            exact ⟨_, by rw [ho, ← List.append_assoc]⟩
          · rw [if_neg h4]
            cases inStr
            · simp only [Bool.false_eq_true, if_false]
              by_cases h5 : json.isSpace c = true
              · rw [if_pos h5]
                exact ih _ _ _ (Nat.zero_le _)
              · rw [if_neg h5]
                obtain ⟨out, ho⟩ := ih (decide (c = 0x22)) false 0 (Nat.zero_le _)
                exact ⟨c :: out, by rw [ho, List.cons_append]⟩
            · simp only [if_true]
              obtain ⟨out, ho⟩ := ih (esc || decide (c ≠ 0x22)) (!esc && decide (c = 0x5C)) 0
                (Nat.zero_le _)
              exact ⟨c :: out, by rw [ho, List.cons_append]⟩

/-- On success `MarshalJSON` returns a text that ends with `]`. -/
theorem MarshalJSON_last (lib : Lib) (m : Message) (b : Bytes)
    (h : MarshalJSON lib m = (b, none)) : ∃ body, b = body ++ [0x5D] := by
  unfold MarshalJSON at h
  simp only [] at h
  rcases h1 : lib.jsonMarshalValue m.Record with ⟨rb, _ | e⟩
  · rcases h2 : lib.jsonMarshalValue m.Option with ⟨ob, _ | e⟩
    · rw [h1, h2] at h
      simp only [Prod.mk.injEq, and_true] at h
      exact ⟨_, h.symm⟩
    · rw [h1, h2] at h
      simp [errors.Wrap] at h
  · rw [h1] at h
    simp [errors.Wrap] at h

/-- On success `Encode` has written a text that ends with `]`, then a newline. -/
theorem jsonEncode_ok (lib : Lib) (m : Message) (buf : Bytes)
    (h : jsonEncode lib m [] = (buf, none)) : ∃ body, buf = body ++ [0x5D] ++ [0x0A] := by
  unfold jsonEncode at h
  rcases hm : MarshalJSON lib m with ⟨b, _ | e⟩
  · rw [hm] at h
    simp only [] at h
    obtain ⟨body, hb⟩ := MarshalJSON_last lib m b hm
    rcases hc : json.compact b with ⟨o, _ | e⟩
    · rw [hc] at h
      simp only [List.nil_append, Prod.mk.injEq, and_true] at h
      unfold json.compact at hc
      cases hp : json.parse b with
      | none => rw [hp] at hc; simp at hc
      | some v =>
        rw [hp] at hc
        simp only [Prod.mk.injEq, and_true] at hc
        obtain ⟨out, ho⟩ := compactBytes_last body false false 0 (Nat.zero_le _)
        rw [hb, ho] at hc
        exact ⟨out, by rw [← h, ← hc]⟩
    · rw [hc] at h
      simp at h
  · rw [hm] at h
    simp at h

theorem Truncate_last (body : Bytes) (c : Nat) :
    Truncate (body ++ [c]) (((body ++ [c]).length : Int) - 1) = .returned body := by
  have h1 : ¬ ((((body ++ [c]).length : Int) - 1 < 0) ∨
      (((body ++ [c]).length : Int) - 1 > ((body ++ [c]).length : Nat))) := by
    simp only [List.length_append, List.length_singleton]
    omega
  have h2 : ((((body ++ [c]).length : Int) - 1).toNat) = body.length := by
    simp only [List.length_append, List.length_singleton]
    omega
  simp only [Truncate, h1, if_false, h2, List.take_left']

/-- Claim C13: when `jsonMarshal` succeeds, the encoder has written the returned bytes
followed by one newline, and the returned bytes end with `]`. Whenever the encoder
succeeds its buffer is not empty, so `Truncate` is never called on an empty buffer, and
`jsonMarshal` never panics. -/
theorem jsonMarshal_strips_newline (lib : Lib) (m : Message) (out : Bytes)
    (h : jsonMarshal lib m = .returned (out, none)) :
    jsonEncode lib m [] = (out ++ [0x0A], none) ∧
    out.getLast? = some 0x5D ∧
    (∀ (lib1 : Lib) (m1 : Message) (buf : Bytes),
      jsonEncode lib1 m1 [] = (buf, none) → 1 ≤ buf.length) ∧
    (∀ (lib1 : Lib) (m1 : Message) (msg : String), jsonMarshal lib1 m1 ≠ .panicked msg) := by
  have hnp : ∀ (lib1 : Lib) (m1 : Message),
      (∃ err, jsonMarshal lib1 m1 = .returned ([], some err)) ∨
      (∃ body, jsonEncode lib1 m1 [] = (body ++ [0x5D] ++ [0x0A], none) ∧
        jsonMarshal lib1 m1 = .returned (body ++ [0x5D], none)) := by
    intro lib1 m1
    rcases he : jsonEncode lib1 m1 [] with ⟨buf, _ | e⟩
    · obtain ⟨body, hb⟩ := jsonEncode_ok lib1 m1 buf he
      right
      refine ⟨body, by rw [hb], ?_⟩
      simp only [jsonMarshal, he, hb, Truncate_last]
    · left
      exact ⟨_, by simp only [jsonMarshal, he]; rfl⟩
  refine ⟨?_, ?_, ?_, ?_⟩
  · rcases hnp lib m with ⟨err, he⟩ | ⟨body, he, hj⟩
    · rw [he] at h; simp at h
    · rw [hj] at h
      simp only [Result.returned.injEq, Prod.mk.injEq, and_true] at h
      rw [he, h]
  · rcases hnp lib m with ⟨err, he⟩ | ⟨body, he, hj⟩
    · rw [he] at h; simp at h
    · rw [hj] at h
      simp only [Result.returned.injEq, Prod.mk.injEq, and_true] at h
      rw [← h]
      simp
  · intro lib1 m1 buf hb
    obtain ⟨body, hbody⟩ := jsonEncode_ok lib1 m1 buf hb
    rw [hbody]
    simp
  · intro lib1 m1 msg hp
    rcases hnp lib1 m1 with ⟨err, he⟩ | ⟨body, he, hj⟩
    · rw [he] at hp; simp at hp
    · rw [hj] at hp; simp at hp

/-- The message `app.log` of 2021-01-01 00:00:00 UTC. -/
theorem jsonMarshal_strips_newline_witness :
    jsonMarshal wire.lib
        { Tag := ascii "app.log", Time := { Time := { sec := 1609459200, nsec := 0 } },
          Record := .map [(ascii "msg", .str (ascii "hi"))], Option := .null,
          subsecond := false }
      = .returned (ascii "[\"app.log\",1609459200,\x7b\"msg\":\"hi\"\x7d,null]", none) ∧
    jsonEncode wire.lib
        { Tag := ascii "app.log", Time := { Time := { sec := 1609459200, nsec := 0 } },
          Record := .map [(ascii "msg", .str (ascii "hi"))], Option := .null,
          subsecond := false } []
      = (ascii "[\"app.log\",1609459200,\x7b\"msg\":\"hi\"\x7d,null]" ++ [0x0A], none) ∧
    (ascii "[\"app.log\",1609459200,\x7b\"msg\":\"hi\"\x7d,null]").getLast? = some 0x5D :=
  ⟨by rfl,
    (jsonMarshal_strips_newline wire.lib _ _ (by rfl)).1,
    (jsonMarshal_strips_newline wire.lib
      { Tag := ascii "app.log", Time := { Time := { sec := 1609459200, nsec := 0 } },
        Record := .map [(ascii "msg", .str (ascii "hi"))], Option := .null,
        subsecond := false } _ (by rfl)).2.1⟩

/-! ## How `UnmarshalJSON` returns -/

/-- Every way `UnmarshalJSON` returns: with an error and the receiver as it was, or with
no error after all four elements decoded, the receiver being built from the four results. -/
theorem UnmarshalJSON_returned (lib : Lib) (m m1 : Message) (buf : Bytes) (e : error)
    (h : UnmarshalJSON lib m buf = .returned (m1, e)) :
    (e ≠ none ∧ m1 = m) ∨
    (e = none ∧ ∃ (l : List JSON) (l0 l1 l2 l3 : JSON) (tag : Bytes) (t : Int) (r o : Value),
      json.UnmarshalRawMessages buf = (l, none) ∧
      l[0]? = some l0 ∧ l[1]? = some l1 ∧ l[2]? = some l2 ∧ l[3]? = some l3 ∧
      json.UnmarshalString l0 [] = (tag, none) ∧
      json.UnmarshalInt64 l1 0 = (t, none) ∧
      json.UnmarshalInterface lib l2 = (r, none) ∧
      json.UnmarshalInterface lib l3 = (o, none) ∧
      m1 = { Tag := tag, Time := { Time := time.Unix t }, Record := r, Option := o,
             subsecond := false }) := by
  unfold UnmarshalJSON at h
  rcases hl : json.UnmarshalRawMessages buf with ⟨l, _ | e0⟩
  swap
  · rw [hl] at h
    simp only [Result.returned.injEq, Prod.mk.injEq, errors.Wrap] at h
    exact Or.inl ⟨by rw [← h.2]; simp, h.1.symm⟩
  rw [hl] at h
  simp only [] at h
  cases h0 : l[0]? with
  | none => rw [h0] at h; simp at h
  | some l0 =>
  rw [h0] at h
  simp only [] at h
  rcases htag : json.UnmarshalString l0 [] with ⟨tag, _ | e1⟩
  swap
  · rw [htag] at h
    simp only [Result.returned.injEq, Prod.mk.injEq, errors.Wrap] at h
    exact Or.inl ⟨by rw [← h.2]; simp, h.1.symm⟩
  rw [htag] at h
  simp only [] at h
  cases h1 : l[1]? with
  | none => rw [h1] at h; simp at h
  | some l1 =>
  rw [h1] at h
  simp only [] at h
  rcases ht : json.UnmarshalInt64 l1 0 with ⟨t, _ | e2⟩
  swap
  · rw [ht] at h
    simp only [Result.returned.injEq, Prod.mk.injEq, errors.Wrap] at h
    exact Or.inl ⟨by rw [← h.2]; simp, h.1.symm⟩
  rw [ht] at h
  simp only [] at h
  cases h2 : l[2]? with
  | none => rw [h2] at h; simp at h
  | some l2 =>
  rw [h2] at h
  simp only [] at h
  rcases hr : json.UnmarshalInterface lib l2 with ⟨r, _ | e3⟩
  swap
  · rw [hr] at h
    simp only [Result.returned.injEq, Prod.mk.injEq, errors.Wrap] at h
    exact Or.inl ⟨by rw [← h.2]; simp, h.1.symm⟩
  rw [hr] at h
  simp only [] at h
  cases h3 : l[3]? with
  | none => rw [h3] at h; simp at h
  | some l3 =>
  rw [h3] at h
  simp only [] at h
  rcases ho : json.UnmarshalInterface lib l3 with ⟨o, _ | e4⟩
  swap
  · rw [ho] at h
    simp only [Result.returned.injEq, Prod.mk.injEq, errors.Wrap] at h
    exact Or.inl ⟨by rw [← h.2]; simp, h.1.symm⟩
  rw [ho] at h
  simp only [Result.returned.injEq, Prod.mk.injEq] at h
  exact Or.inr ⟨h.2.symm, l, l0, l1, l2, l3, tag, t, r, o, rfl, h0, h1, h2, h3, htag, ht, hr, ho,
    h.1.symm⟩

/-- Claim C14: whenever `UnmarshalJSON` returns an error the receiver is what it was before
the call; when it returns no error, all four elements have decoded without error and the
receiver is the message built from the four decoded values. -/
theorem UnmarshalJSON_error_atomic (lib : Lib) (m m1 : Message) (buf : Bytes) (e : error)
    (h : UnmarshalJSON lib m buf = .returned (m1, e)) :
    (e ≠ none → m1 = m) ∧
    (e = none → ∃ (l : List JSON) (l0 l1 l2 l3 : JSON) (tag : Bytes) (t : Int) (r o : Value),
      json.UnmarshalRawMessages buf = (l, none) ∧
      l[0]? = some l0 ∧ l[1]? = some l1 ∧ l[2]? = some l2 ∧ l[3]? = some l3 ∧
      json.UnmarshalString l0 [] = (tag, none) ∧
      json.UnmarshalInt64 l1 0 = (t, none) ∧
      json.UnmarshalInterface lib l2 = (r, none) ∧
      json.UnmarshalInterface lib l3 = (o, none) ∧
      m1 = { Tag := tag, Time := { Time := time.Unix t }, Record := r, Option := o,
             subsecond := false }) := by
  rcases UnmarshalJSON_returned lib m m1 buf e h with ⟨_, hm⟩ | ⟨he, hx⟩
  · exact ⟨fun _ => hm, fun he => absurd he (by assumption)⟩
  · exact ⟨fun hne => absurd he hne, fun _ => hx⟩

/-- The input `["app.log","soon",null,null]`: the tag decodes, the time does not, and the
receiver keeps its tag, time, record, option and flag. -/
theorem UnmarshalJSON_error_atomic_witness :
    UnmarshalJSON wire.lib ⟨ascii "old", ⟨⟨5, 6⟩⟩, .int 1, .bool true, true⟩
        (ascii "[\"app.log\",\"soon\",null,null]")
      = .returned (⟨ascii "old", ⟨⟨5, 6⟩⟩, .int 1, .bool true, true⟩,
          some ("failed to unmarshal JSON: expected timestamp: "
            ++ json.UnmarshalTypeError "int64")) ∧
    ((some ("failed to unmarshal JSON: expected timestamp: "
        ++ json.UnmarshalTypeError "int64") : error) ≠ none →
      (⟨ascii "old", ⟨⟨5, 6⟩⟩, .int 1, .bool true, true⟩ : Message)
        = ⟨ascii "old", ⟨⟨5, 6⟩⟩, .int 1, .bool true, true⟩) :=
  ⟨by rfl,
    (UnmarshalJSON_error_atomic wire.lib ⟨ascii "old", ⟨⟨5, 6⟩⟩, .int 1, .bool true, true⟩
      ⟨ascii "old", ⟨⟨5, 6⟩⟩, .int 1, .bool true, true⟩
      (ascii "[\"app.log\",\"soon\",null,null]") _ (by rfl)).1⟩

/-! ## options.go -/

/-- Claim C15: each builder of options.go returns an option with the documented name and
with its argument, unchanged, as the value; the two marshaler builders return an option
named `marshaler` whose value is a `marshalFunc` whose `Marshal` on every message is
`jsonMarshal`, respectively `msgpackMarshal`, of that message. -/
theorem option_builders (lib : Lib) (s : Bytes) (t : Time) (b : Bool) (v : Value) :
    ((WithNetwork s).Name = "network" ∧ (WithNetwork s).Value = .string s) ∧
    ((WithAddress s).Name = "address" ∧ (WithAddress s).Value = .string s) ∧
    ((WithTimestamp t).Name = "timestamp" ∧ (WithTimestamp t).Value = .time t) ∧
    ((WithTagPrefix s).Name = "tag_prefix" ∧ (WithTagPrefix s).Value = .string s) ∧
    ((WithSyncAppend b).Name = "sync_append" ∧ (WithSyncAppend b).Value = .bool b) ∧
    ((WithBufferLimit v).Name = "buffer_limit" ∧ (WithBufferLimit v).Value = .value v) ∧
    ((WithJSONMarshaler lib).Name = "marshaler" ∧
      ∃ f : marshalFunc, (WithJSONMarshaler lib).Value = .marshaler f ∧
        ∀ msg : Message, f.Marshal msg = jsonMarshal lib msg) ∧
    ((WithMsgpackMarshaler lib).Name = "marshaler" ∧
      ∃ f : marshalFunc, (WithMsgpackMarshaler lib).Value = .marshaler f ∧
        ∀ msg : Message, f.Marshal msg = .returned (msgpackMarshal lib msg)) :=
  ⟨⟨rfl, rfl⟩, ⟨rfl, rfl⟩, ⟨rfl, rfl⟩, ⟨rfl, rfl⟩, ⟨rfl, rfl⟩, ⟨rfl, rfl⟩,
    ⟨rfl, _, rfl, fun _ => rfl⟩, ⟨rfl, _, rfl, fun _ => rfl⟩⟩

/-! ## When `MarshalJSON` fails -/

theorem MarshalJSON_error (lib : Lib) (m : Message) :
    (MarshalJSON lib m).2 ≠ none ↔
      ((lib.jsonMarshalValue m.Record).2 ≠ none ∨ (lib.jsonMarshalValue m.Option).2 ≠ none) := by
  unfold MarshalJSON
  simp only []
  rcases h1 : lib.jsonMarshalValue m.Record with ⟨rb, _ | e⟩
  · rcases h2 : lib.jsonMarshalValue m.Option with ⟨ob, _ | e⟩ <;> simp [errors.Wrap]
  · simp [errors.Wrap]

theorem MarshalJSON_bytes (lib : Lib) (m : Message) :
    ((MarshalJSON lib m).2 ≠ none ∧ (MarshalJSON lib m).1 = []) ∨
    ((MarshalJSON lib m).2 = none ∧
      (MarshalJSON lib m).1 =
        [0x5B] ++ strconv.Quote lib m.Tag ++ [0x2C] ++ strconv.FormatInt m.Time.Time.Unix
          ++ [0x2C] ++ (lib.jsonMarshalValue m.Record).1 ++ [0x2C]
          ++ (lib.jsonMarshalValue m.Option).1 ++ [0x5D]) := by
  unfold MarshalJSON
  simp only []
  rcases h1 : lib.jsonMarshalValue m.Record with ⟨rb, _ | e⟩
  · rcases h2 : lib.jsonMarshalValue m.Option with ⟨ob, _ | e⟩ <;> simp [errors.Wrap]
  · simp [errors.Wrap]

/-- Claim C16: `MarshalJSON` returns an error exactly when the generic JSON encoding of the
record or of the option fails, and then it returns no bytes; otherwise it returns a nil
error and the bytes of the four-element array. Replacing the tag, the time and the flag
of the message by any others does not change whether an error is returned. -/
theorem MarshalJSON_fails_iff (lib : Lib) (m : Message) :
    ((MarshalJSON lib m).2 ≠ none ↔
      ((lib.jsonMarshalValue m.Record).2 ≠ none ∨ (lib.jsonMarshalValue m.Option).2 ≠ none)) ∧
    (((MarshalJSON lib m).2 ≠ none ∧ (MarshalJSON lib m).1 = []) ∨
      ((MarshalJSON lib m).2 = none ∧
        (MarshalJSON lib m).1 =
          [0x5B] ++ strconv.Quote lib m.Tag ++ [0x2C] ++ strconv.FormatInt m.Time.Time.Unix
            ++ [0x2C] ++ (lib.jsonMarshalValue m.Record).1 ++ [0x2C]
            ++ (lib.jsonMarshalValue m.Option).1 ++ [0x5D])) ∧
    (∀ (tag : Bytes) (t : EventTime) (flag : Bool),
      ((MarshalJSON lib { m with Tag := tag, Time := t, subsecond := flag }).2 = none ↔
        (MarshalJSON lib m).2 = none)) := by
  refine ⟨MarshalJSON_error lib m, MarshalJSON_bytes lib m, ?_⟩
  intro tag t flag
  have h1 := MarshalJSON_error lib m
  have h2 := MarshalJSON_error lib { m with Tag := tag, Time := t, subsecond := flag }
  simp only [] at h2
  rw [← not_iff_not]
  exact h2.trans h1.symm

/-! ## Whole seconds on input -/

theorem ParseInt_range (lit : Bytes) (t : Int) (h : json.ParseInt lit = some t) :
    -2 ^ 63 ≤ t ∧ t < 2 ^ 63 := by
  unfold json.ParseInt at h
  simp only [] at h
  split_ifs at h with h1 h2 h3 h4 h5
  · simp only [Option.some.injEq] at h
    rw [← h]
    exact h3
  · simp only [Option.some.injEq] at h
    rw [← h]
    exact h5

theorem decodePayload_Time (lib : Lib) (m : Message) (dec : Decoder) :
    (decodePayload lib m dec).1.Time = m.Time := by
  unfold decodePayload
  rcases h1 : lib.DecodeInterface dec with ⟨r, d, _ | e⟩
  · simp only []
    rcases h2 : lib.DecodeInterface d with ⟨o, d2, _ | e2⟩ <;> rfl
  · rfl

theorem beUint_lt (bs : Bytes) (h : ∀ b ∈ bs, b < 256) : beUint bs < 256 ^ bs.length := by
  induction bs using List.reverseRecOn with
  | nil => simp [beUint]
  | append_singleton bs b ih =>
    have h1 : beUint bs < 256 ^ bs.length := ih (fun x hx => h x (by simp [hx]))
    have h2 : b < 256 := h b (by simp)
    rw [beUint_append_one, List.length_append, List.length_singleton, pow_succ]
    omega

theorem readUint_lt (n : Nat) (dec : Decoder) (h : ∀ b ∈ dec, b < 256) :
    (readUint n dec).1 < 256 ^ n := by
  unfold readUint readN
  by_cases hn : n ≤ dec.length
  · rw [if_pos hn]
    simp only []
    have := beUint_lt (dec.take n) (fun b hb => h b (List.mem_of_mem_take hb))
    rwa [List.length_take, Nat.min_eq_left hn] at this
  · rw [if_neg hn]
    simp only []
    positivity

theorem toSigned_range (v : Nat) : -2 ^ 63 ≤ toSigned 8 v ∧ toSigned 8 v < 2 ^ 63 := by
  unfold toSigned
  have hm : v % 2 ^ (8 * 8) < 2 ^ (8 * 8) := Nat.mod_lt _ (by norm_num)
  split_ifs with h <;> norm_num at h hm ⊢ <;> omega

theorem DecodeInt64_range (c : Nat) (rest rest1 : Decoder) (t : Int)
    (hc : timeCase c = .integer) (hb : ∀ b ∈ rest, b < 256)
    (hd : DecodeInt64 (c :: rest) = (t, rest1, none)) : -2 ^ 63 ≤ t ∧ t < 2 ^ 63 := by
  rcases (timeCase_integer_iff c).1 hc with h | h
  · subst h
    have hd0 := DecodeInt64_Uint32 rest
    simp only [codes.Uint32] at hd0
    rw [hd0] at hd
    have hlt := readUint_lt 4 rest hb
    simp only [Prod.mk.injEq] at hd
    rw [← hd.1]
    norm_num at hlt ⊢
    omega
  · subst h
    have hd0 := DecodeInt64_Int64 rest
    simp only [codes.Int64] at hd0
    rw [hd0] at hd
    simp only [Prod.mk.injEq] at hd
    rw [← hd.1]
    exact toSigned_range _

/-- Claim C17: when `UnmarshalJSON` succeeds on an array whose element 1 is an integer
literal of value `t`, and when `DecodeMsgpack` takes the integer case of the time switch
and `DecodeInt64` reads `t`, the time of the receiver is `t` seconds after the epoch with
zero nanoseconds, and its whole seconds read back as `t`; `time.Unix(t, 0).Unix()` is
`t` for every int64 `t`. -/
theorem whole_second_decode (lib : Lib) (m : Message) :
    (∀ (buf : Bytes) (m1 : Message) (l : List JSON) (lit : Bytes) (t : Int),
      UnmarshalJSON lib m buf = .returned (m1, none) →
      json.UnmarshalRawMessages buf = (l, none) → l[1]? = some (.number lit) →
      json.ParseInt lit = some t →
      m1.Time = { Time := { sec := t, nsec := 0 } } ∧ m1.Time.Time.Unix = t) ∧
    (∀ (dec : Decoder) (tag : Bytes) (c : Nat) (rest rest1 : Decoder) (t : Int),
      DecodeString dec = (tag, c :: rest, none) → timeCase c = .integer →
      (∀ b ∈ rest, b < 256) → DecodeInt64 (c :: rest) = (t, rest1, none) →
      (DecodeMsgpack lib m (0x94 :: dec)).1.Time = { Time := { sec := t, nsec := 0 } } ∧
      (DecodeMsgpack lib m (0x94 :: dec)).1.Time.Time.Unix = t) ∧
    (∀ t : Int, -2 ^ 63 ≤ t → t < 2 ^ 63 →
      (time.Unix t).Unix = t ∧ (time.Unix t).nsec = 0) := by
  refine ⟨?_, ?_, ?_⟩
  · intro buf m1 l lit t h hl h1 hp
    rcases UnmarshalJSON_returned lib m m1 buf none h with ⟨hne, _⟩ | ⟨_, hx⟩
    · exact absurd rfl hne
    · obtain ⟨l', l0, l1, l2, l3, tag, t', r, o, hl', h0, h1', h2, h3, htag, ht, hr, ho, hm⟩ := hx
      rw [hl] at hl'
      simp only [Prod.mk.injEq, and_true] at hl'
      subst hl'
      rw [h1] at h1'
      simp only [Option.some.injEq] at h1'
      subst h1'
      simp only [json.UnmarshalInt64, hp, Prod.mk.injEq, and_true] at ht
      subst ht
      obtain ⟨r1, r2⟩ := ParseInt_range lit t hp
      have : time.Unix t = { sec := t, nsec := 0 } := by
        simp only [time.Unix, toInt64_of_range t r1 r2]
      rw [hm]
      simp only [this, Time.Unix, and_self]
  · intro dec tag c rest rest1 t htag hc hb hd
    obtain ⟨r1, r2⟩ := DecodeInt64_range c rest rest1 t hc hb hd
    have hu : time.Unix t = { sec := t, nsec := 0 } := by
      simp only [time.Unix, toInt64_of_range t r1 r2]
    have h := DecodeMsgpack_fixed_header lib m 4 dec (by decide)
    simp only [ne_eq, not_true_eq_false, if_false, htag, PeekCode] at h
    rw [decodeTime_integer _ _ _ _ hc, hd] at h
    simp only [] at h
    have h94 : (0x94 : Nat) = 0x90 + 4 := rfl
    rw [h94, h, decodePayload_Time]
    simp only [hu, Time.Unix, and_self]
  · intro t r1 r2
    simp only [time.Unix, toInt64_of_range t r1 r2, Time.Unix, and_self]

/-- The text `["a",1609459200,null,null]` and the bytes 94 a1 61 ce 5f ee 66 00 c0 c0. -/
theorem whole_second_decode_witness :
    UnmarshalJSON wire.lib ⟨[], ⟨⟨5, 6⟩⟩, .null, .null, true⟩
        (ascii "[\"a\",1609459200,null,null]")
      = .returned (⟨ascii "a", ⟨⟨1609459200, 0⟩⟩, .null, .null, false⟩, none) ∧
    ((⟨ascii "a", ⟨⟨1609459200, 0⟩⟩, .null, .null, false⟩ : Message).Time
        = { Time := { sec := 1609459200, nsec := 0 } } ∧
      (⟨ascii "a", ⟨⟨1609459200, 0⟩⟩, .null, .null, false⟩ : Message).Time.Time.Unix
        = 1609459200) ∧
    ((DecodeMsgpack wire.lib ⟨[], ⟨⟨5, 6⟩⟩, .null, .null, true⟩
        (0x94 :: [0xa1, 0x61, 0xce, 0x5f, 0xee, 0x66, 0x00, 0xc0, 0xc0])).1.Time
        = { Time := { sec := 1609459200, nsec := 0 } } ∧
      (DecodeMsgpack wire.lib ⟨[], ⟨⟨5, 6⟩⟩, .null, .null, true⟩
        (0x94 :: [0xa1, 0x61, 0xce, 0x5f, 0xee, 0x66, 0x00, 0xc0, 0xc0])).1.Time.Time.Unix
        = 1609459200) :=
  ⟨by rfl,
    (whole_second_decode wire.lib ⟨[], ⟨⟨5, 6⟩⟩, .null, .null, true⟩).1
      (ascii "[\"a\",1609459200,null,null]") _
      [.string (ascii "a"), .number (ascii "1609459200"), .null, .null] (ascii "1609459200")
      1609459200 (by rfl) (by rfl) (by rfl) (by rfl),
    (whole_second_decode wire.lib ⟨[], ⟨⟨5, 6⟩⟩, .null, .null, true⟩).2.1
      [0xa1, 0x61, 0xce, 0x5f, 0xee, 0x66, 0x00, 0xc0, 0xc0] (ascii "a") 0xce
      [0x5f, 0xee, 0x66, 0x00, 0xc0, 0xc0] [0xc0, 0xc0] 1609459200
      (by decide) (by decide) (by decide) (by rfl)⟩

/-! ## Nanoseconds on output -/

/-- Claim C18: two messages with the same tag, record and option and times with the same
whole seconds get the same bytes (and the same error) from `MarshalJSON` and `jsonMarshal`,
whatever their nanoseconds and their flags; with the flag off on both they also get the
same bytes from `EncodeMsgpack` and `msgpackMarshal`. -/
theorem nanoseconds_discarded (lib : Lib) (m1 m2 : Message) (enc : Encoder)
    (htag : m1.Tag = m2.Tag) (hrec : m1.Record = m2.Record) (hopt : m1.Option = m2.Option)
    (hsec : m1.Time.Time.Unix = m2.Time.Time.Unix) :
    MarshalJSON lib m1 = MarshalJSON lib m2 ∧
    jsonMarshal lib m1 = jsonMarshal lib m2 ∧
    (m1.subsecond = false → m2.subsecond = false →
      EncodeMsgpack lib m1 enc = EncodeMsgpack lib m2 enc ∧
      msgpackMarshal lib m1 = msgpackMarshal lib m2) := by
  have hj : MarshalJSON lib m1 = MarshalJSON lib m2 := by
    simp only [MarshalJSON, htag, hrec, hopt, hsec]
  have he : ∀ e, m1.subsecond = false → m2.subsecond = false →
      EncodeMsgpack lib m1 e = EncodeMsgpack lib m2 e := by
    intro e h1 h2
    simp only [EncodeMsgpack, htag, hrec, hopt, hsec, h1, h2, Bool.false_eq_true, if_false]
  refine ⟨hj, ?_, fun h1 h2 => ⟨he enc h1 h2, ?_⟩⟩
  · simp only [jsonMarshal, jsonEncode, hj]
  · simp only [msgpackMarshal, he [] h1 h2]

/-- Two messages one second count apart in nothing but the nanoseconds (5 and 999999999)
and, for the textual codec, the flag. -/
theorem nanoseconds_discarded_witness :
    MarshalJSON wire.lib ⟨ascii "app.log", ⟨⟨1609459200, 5⟩⟩, .null, .null, true⟩
      = MarshalJSON wire.lib ⟨ascii "app.log", ⟨⟨1609459200, 999999999⟩⟩, .null, .null, false⟩ ∧
    EncodeMsgpack wire.lib ⟨ascii "app.log", ⟨⟨1609459200, 5⟩⟩, .null, .null, false⟩ []
      = EncodeMsgpack wire.lib
          ⟨ascii "app.log", ⟨⟨1609459200, 999999999⟩⟩, .null, .null, false⟩ [] ∧
    (MarshalJSON wire.lib ⟨ascii "app.log", ⟨⟨1609459200, 5⟩⟩, .null, .null, true⟩).1
      = ascii "[\"app.log\",1609459200,null,null]" ∧
    (EncodeMsgpack wire.lib ⟨ascii "app.log", ⟨⟨1609459200, 5⟩⟩, .null, .null, false⟩ []).1
      = [0x94, 0xa7, 0x61, 0x70, 0x70, 0x2e, 0x6c, 0x6f, 0x67, 0xce, 0x5f, 0xee, 0x66, 0x00,
         0xc0, 0xc0] :=
  ⟨(nanoseconds_discarded wire.lib
      ⟨ascii "app.log", ⟨⟨1609459200, 5⟩⟩, .null, .null, true⟩
      ⟨ascii "app.log", ⟨⟨1609459200, 999999999⟩⟩, .null, .null, false⟩ [] rfl rfl rfl rfl).1,
    ((nanoseconds_discarded wire.lib
      ⟨ascii "app.log", ⟨⟨1609459200, 5⟩⟩, .null, .null, false⟩
      ⟨ascii "app.log", ⟨⟨1609459200, 999999999⟩⟩, .null, .null, false⟩ [] rfl rfl rfl rfl).2.2
        rfl rfl).1,
    by rfl, by rfl⟩

/-! ## Decoding and the flag -/

/-- Claim C19: `DecodeMsgpack` leaves the flag of the receiver as it was, whatever the
input and whether it returns an error or not. When `UnmarshalJSON` returns without error,
the flag of the receiver is off and the receiver is the same whatever it held before: the
call on any other receiver returns the same message. -/
theorem decode_flag_effect (lib : Lib) (m : Message) (dec : Decoder) (buf : Bytes) :
    (DecodeMsgpack lib m dec).1.subsecond = m.subsecond ∧
    (∀ m1 : Message, UnmarshalJSON lib m buf = .returned (m1, none) →
      m1.subsecond = false ∧
      ∀ m2 : Message, UnmarshalJSON lib m2 buf = .returned (m1, none)) := by
  constructor
  · have h := DecodeMsgpack_flag lib m m.subsecond dec
    have hm : ({ m with subsecond := m.subsecond } : Message) = m := rfl
    rw [hm] at h
    rw [h]
  · intro m1 h
    rcases UnmarshalJSON_returned lib m m1 buf none h with ⟨hne, _⟩ | ⟨_, hx⟩
    · exact absurd rfl hne
    · obtain ⟨l, l0, l1, l2, l3, tag, t, r, o, hl, h0, h1, h2, h3, htag, ht, hr, ho, hm⟩ := hx
      refine ⟨by rw [hm], fun m2 => ?_⟩
      simp only [UnmarshalJSON, hl, h0, htag, h1, ht, h2, hr, h3, ho, hm]

/-- The text `["a",7,null,null]` decoded into a receiver with the flag on, and the bytes
94 a1 61 c0 decoded into the same receiver. -/
theorem decode_flag_effect_witness :
    UnmarshalJSON wire.lib ⟨ascii "old", ⟨⟨5, 6⟩⟩, .int 1, .bool true, true⟩
        (ascii "[\"a\",7,null,null]")
      = .returned (⟨ascii "a", ⟨⟨7, 0⟩⟩, .null, .null, false⟩, none) ∧
    ((⟨ascii "a", ⟨⟨7, 0⟩⟩, .null, .null, false⟩ : Message).subsecond = false ∧
      ∀ m2 : Message, UnmarshalJSON wire.lib m2 (ascii "[\"a\",7,null,null]")
        = .returned (⟨ascii "a", ⟨⟨7, 0⟩⟩, .null, .null, false⟩, none)) ∧
    (DecodeMsgpack wire.lib ⟨ascii "old", ⟨⟨5, 6⟩⟩, .int 1, .bool true, true⟩
        [0x94, 0xa1, 0x61, 0xc0]).1.subsecond = true :=
  ⟨by rfl,
    (decode_flag_effect wire.lib ⟨ascii "old", ⟨⟨5, 6⟩⟩, .int 1, .bool true, true⟩ []
      (ascii "[\"a\",7,null,null]")).2 _ (by rfl),
    (decode_flag_effect wire.lib ⟨ascii "old", ⟨⟨5, 6⟩⟩, .int 1, .bool true, true⟩
      [0x94, 0xa1, 0x61, 0xc0] []).1⟩

end Fluent
